import Mathlib

/-!
# Torque6 rendering core: render data pool, camera / texture / hook registries

A shallow embedding of `src/src/rendering/rendering.cc`.  The namespace-level
globals of `Rendering` are the fields of `Rendering.State`; every function of
the source becomes a function on that state.  Calls into collaborators whose
code is not part of the rendering core (bgfx, `Graphics`, `Scene`, the camera
and hook objects) are recorded, in order, in the `calls` field.

Pointers are natural numbers (addresses); a pointer that may be `NULL` is an
`Option`.  `U32` arithmetic that can wrap is taken modulo `2^32`.
-/

namespace Rendering

/-- Number of values of the `U32` type. -/
def U32_RANGE : Nat := 4294967296

/-- Constants that the source uses but that are declared in headers outside
the translated files (`rendering.h`, `bgfx.h`, the build configuration).
Every function that needs one takes the whole record as its first argument. -/
structure Config where
  /-- Constant `TORQUE_MAX_RENDER_DATA`: number of slots of the array allocated by `init`. -/
  TORQUE_MAX_RENDER_DATA : Nat
  /-- Constant `RenderData::Deleted`: the tombstone bit mask. -/
  Deleted : Nat
  /-- Constant `bgfx::invalidHandle`. -/
  invalidHandle : Nat
  BGFX_STATE_RGB_WRITE : Nat
  BGFX_STATE_ALPHA_WRITE : Nat
  BGFX_STATE_DEPTH_TEST_LESS : Nat
  BGFX_STATE_DEPTH_WRITE : Nat
  BGFX_STATE_CULL_CW : Nat

/-- One slot of the render data pool (`struct RenderData`), with the fields
that `createRenderData` writes.  Handles are stored by their `idx`. -/
structure RenderData where
  flags : Nat
  instances : Option Nat
  dynamicIndexBuffer : Nat
  dynamicVertexBuffer : Nat
  indexBuffer : Nat
  vertexBuffer : Nat
  shader : Nat
  material : Option Nat
  transformCount : Nat
  transformTable : Option Nat
  textures : Option Nat
  stateRGBA : Nat
  state : Nat
deriving DecidableEq, Repr, Inhabited

/-- A camera object reached through an entry of `renderCameraList`.
`ptr` is the address of the object (the value stored in the vector),
`name` the interned string returned by `getName()`, `priority` the value of
`getRenderPriority()`, `renderingPath` the constructor argument. -/
structure RenderCamera where
  ptr : Nat
  name : Nat
  refCount : Int
  priority : Int
  renderingPath : Nat
deriving DecidableEq, Repr, Inhabited

/-- A render texture object reached through an entry of `renderTextureList`. -/
structure RenderTexture where
  ptr : Nat
  name : Nat
  handle : Nat
  width : Nat
  height : Nat
deriving DecidableEq, Repr, Inhabited

/-- Calls that leave the rendering core and act on a collaborator, in the
order they are made.  Queries are not recorded: their result is an argument
of the function that asks. -/
inductive Call where
  /-- Call `Graphics::resetViews()` -/
  | resetViews
  /-- Call `hook->beginFrame()` -/
  | beginFrame (hook : Nat)
  /-- Call `hook->endFrame()` -/
  | endFrame (hook : Nat)
  /-- Call `camera->render()`, with the camera object it is invoked on -/
  | cameraRender (camera : RenderCamera)
  /-- Call `new RenderCamera(renderingPath)` followed by `setName`, `registerObject` -/
  | newRenderCamera (camera : Nat) (renderingPath : Nat)
  /-- Call `camera->deleteObject()` -/
  | deleteObject (camera : Nat)
  /-- Call `bgfx::createTexture2D(ratio, 1, BGRA8, flags)` -/
  | createTexture2DRatio (ratio : Nat)
  /-- Call `bgfx::createTexture2D(width, height, 1, BGRA8, flags)` -/
  | createTexture2D (width height : Nat)
  /-- Call `SAFE_DELETE(rt)` on a render texture -/
  | deleteRenderTexture (rt : Nat)
  /-- Call `bgfx::destroyTexture(handle)` -/
  | destroyTexture (handle : Nat)
  /-- Call `Graphics::reset()` -/
  | graphicsReset
  /-- Call `Scene::refresh()` -/
  | sceneRefresh
deriving DecidableEq, Repr

/-- The globals of `namespace Rendering`.  `renderDataList` is the memory
reached from the array pointer, indexed by slot: slots
`0 .. TORQUE_MAX_RENDER_DATA - 1` are the array allocated by `init`, larger
indices lie past its end.  The three vectors hold pointers to pairwise
distinct objects and are represented by the list of those objects. -/
structure State where
  windowSizeChanged : Bool
  windowWidth : Nat
  windowHeight : Nat
  renderDataList : Nat → RenderData
  renderDataCount : Nat
  renderCameraList : List RenderCamera
  renderTextureList : List RenderTexture
  renderHookList : List Nat
  calls : List Call

/-- The static initialisers of the globals (the array pointer is `NULL`
until `init` runs; no slot is read before then). -/
def startup : State where
  windowSizeChanged := false
  windowWidth := 0
  windowHeight := 0
  renderDataList := fun _ => default
  renderDataCount := 0
  renderCameraList := []
  renderTextureList := []
  renderHookList := []
  calls := []

/-- Source function `Rendering::init`: allocates the slot array.  `fresh` is the content of
the newly allocated memory, which the source does not initialise. -/
def init (s : State) (fresh : Nat → RenderData) : State :=
  { s with renderDataList := fresh }

/-! ## Render data pool -/

/-- The test `renderDataList[n].flags & RenderData::Deleted`. -/
def isDeleted (cfg : Config) (s : State) (n : Nat) : Bool :=
  (s.renderDataList n).flags &&& cfg.Deleted != 0

/-- The scan loop of `createRenderData`, entered with loop variable `n` and
`todo = renderDataCount - n` iterations left: the index of the first
tombstoned slot, or `none` when `item` is still `NULL` after the loop. -/
def scanDeleted (cfg : Config) (s : State) : Nat → Nat → Option Nat
  | _, 0 => none
  | n, todo + 1 => if isDeleted cfg s n then some n else scanDeleted cfg s (n + 1) todo

/-- The values written by the "Reset Values" block of `createRenderData`. -/
def resetValues (cfg : Config) : RenderData where
  flags := 0
  instances := none
  dynamicIndexBuffer := cfg.invalidHandle
  dynamicVertexBuffer := cfg.invalidHandle
  indexBuffer := cfg.invalidHandle
  vertexBuffer := cfg.invalidHandle
  shader := cfg.invalidHandle
  material := none
  transformCount := 0
  transformTable := none
  textures := none
  stateRGBA := 0
  state := 0 ||| cfg.BGFX_STATE_RGB_WRITE ||| cfg.BGFX_STATE_ALPHA_WRITE
    ||| cfg.BGFX_STATE_DEPTH_TEST_LESS ||| cfg.BGFX_STATE_DEPTH_WRITE
    ||| cfg.BGFX_STATE_CULL_CW

/-- Writing a whole slot. -/
def writeSlot (mem : Nat → RenderData) (i : Nat) (d : RenderData) : Nat → RenderData :=
  fun j => if j = i then d else mem j

/-- Source function `Rendering::createRenderData`: the index of the returned slot
(`item - renderDataList`) and the state afterwards. -/
def createRenderData (cfg : Config) (s : State) : Nat × State :=
  match scanDeleted cfg s 0 s.renderDataCount with
  | some n =>
    (n, { s with renderDataList := writeSlot s.renderDataList n (resetValues cfg) })
  | none =>
    (s.renderDataCount,
      { s with
        renderDataList := writeSlot s.renderDataList s.renderDataCount (resetValues cfg)
        renderDataCount := (s.renderDataCount + 1) % U32_RANGE })

/-- Tombstoning a slot, as the users of the pool do it:
`renderDataList[i].flags |= RenderData::Deleted`. -/
def tombstone (cfg : Config) (s : State) (i : Nat) : State :=
  { s with
    renderDataList :=
      writeSlot s.renderDataList i
        { s.renderDataList i with flags := (s.renderDataList i).flags ||| cfg.Deleted } }

/-- Source function `Rendering::getRenderDataCount`. -/
def getRenderDataCount (s : State) : Nat := s.renderDataCount

/-- The operations a user of the pool performs on it. -/
inductive PoolOp where
  /-- a call of `createRenderData` -/
  | create
  /-- setting the `Deleted` flag of slot `i` -/
  | tombstone (i : Nat)
deriving DecidableEq, Repr

/-- One pool operation: the state afterwards and the slot indices returned
(one for `create`, none for `tombstone`). -/
def poolStep (cfg : Config) (s : State) : PoolOp → State × List Nat
  | PoolOp.create => ((createRenderData cfg s).2, [(createRenderData cfg s).1])
  | PoolOp.tombstone i => (tombstone cfg s i, [])

/-- A sequence of pool operations: the final state and all returned slot
indices, in call order. -/
def poolRun (cfg : Config) : State → List PoolOp → State × List Nat
  | s, [] => (s, [])
  | s, op :: ops =>
    ((poolRun cfg (poolStep cfg s op).1 ops).1,
      (poolStep cfg s op).2 ++ (poolRun cfg (poolStep cfg s op).1 ops).2)

/-- The pool is exhausted: every slot of the array is claimed and none of the
claimed slots is tombstoned. -/
def poolExhausted (cfg : Config) (s : State) : Prop :=
  scanDeleted cfg s 0 s.renderDataCount = none ∧
    s.renderDataCount = cfg.TORQUE_MAX_RENDER_DATA

/-- No `createRenderData` call of the sequence is made on an exhausted pool. -/
def neverExhausted (cfg : Config) : State → List PoolOp → Prop
  | _, [] => True
  | s, PoolOp.create :: ops =>
    ¬ poolExhausted cfg s ∧ neverExhausted cfg (poolStep cfg s PoolOp.create).1 ops
  | s, PoolOp.tombstone i :: ops => neverExhausted cfg (poolStep cfg s (PoolOp.tombstone i)).1 ops

/-! ## Render cameras -/

/-- Modelled from the spec: the `RenderCamera` constructor (renderCamera.cc is
not among the sources).  It binds the camera to the rendering path and leaves
the reference count at zero, so that the `refCount++` of `createRenderCamera`
"initializes the reference count to one".  `ptr` is the address returned by
`new`, `priority` the render priority the constructor assigns; the name is
unset (the null string) until `setName`. -/
def newRenderCamera (ptr renderingPath : Nat) (priority : Int) : RenderCamera where
  ptr := ptr
  name := 0
  refCount := 0
  priority := priority
  renderingPath := renderingPath

/-- The loop of `getRenderCamera` and of `destroyRenderCamera` over a vector:
the first camera that passes the test. -/
def firstCamera (p : RenderCamera → Bool) : List RenderCamera → Option RenderCamera
  | [] => none
  | c :: cs => if p c then some c else firstCamera p cs

/-- Writing through the pointer found by `firstCamera p`: the first camera
that passes the test is replaced by `f` of it. -/
def updateFirstCamera (p : RenderCamera → Bool) (f : RenderCamera → RenderCamera) :
    List RenderCamera → List RenderCamera
  | [] => []
  | c :: cs => if p c then f c :: cs else c :: updateFirstCamera p f cs

/-- Models `Vector::erase(itr)` at the first camera that passes the test. -/
def eraseFirstCamera (p : RenderCamera → Bool) : List RenderCamera → List RenderCamera
  | [] => []
  | c :: cs => if p c then cs else c :: eraseFirstCamera p cs

/-- Source function `Rendering::getRenderCamera`. -/
def getRenderCamera (s : State) (name : Nat) : Option RenderCamera :=
  firstCamera (fun c => c.name == name) s.renderCameraList

/-- Source function `Rendering::createRenderCamera`.  `ptr` and `priority` describe the
object that `new RenderCamera(renderingPath)` yields when it is reached. -/
def createRenderCamera (s : State) (name renderingPath : Nat) (ptr : Nat) (priority : Int) :
    RenderCamera × State :=
  match getRenderCamera s name with
  | some camera =>
    ({ camera with refCount := camera.refCount + 1 },
      { s with
        renderCameraList :=
          updateFirstCamera (fun c => c.name == name)
            (fun c => { c with refCount := c.refCount + 1 }) s.renderCameraList })
  | none =>
    let camera : RenderCamera := { newRenderCamera ptr renderingPath priority with name := name }
    let camera : RenderCamera := { camera with refCount := camera.refCount + 1 }
    (camera,
      { s with
        renderCameraList := s.renderCameraList ++ [camera]
        calls := s.calls ++ [Call.newRenderCamera ptr renderingPath] })

/-- The body shared by both `destroyRenderCamera` overloads, which differ
only in the test that selects the camera. -/
def destroyFirstCamera (s : State) (p : RenderCamera → Bool) : Bool × State :=
  match firstCamera p s.renderCameraList with
  | some camera =>
    if camera.refCount - 1 < 1 then
      (true,
        { s with
          renderCameraList := eraseFirstCamera p s.renderCameraList
          calls := s.calls ++ [Call.deleteObject camera.ptr] })
    else
      (true,
        { s with
          renderCameraList :=
            updateFirstCamera p (fun c => { c with refCount := c.refCount - 1 })
              s.renderCameraList })
  | none => (false, s)

/-- Source function `Rendering::destroyRenderCamera(RenderCamera* camera)`. -/
def destroyRenderCamera_ptr (s : State) (camera : Option Nat) : Bool × State :=
  destroyFirstCamera s (fun c => some c.ptr == camera)

/-- Source function `Rendering::destroyRenderCamera(StringTableEntry name)`. -/
def destroyRenderCamera_name (s : State) (name : Nat) : Bool × State :=
  destroyFirstCamera s (fun c => c.name == name)

/-- Runs `n` successive calls of `createRenderCamera(name, renderingPath)`. -/
def createRenderCameraTimes (name renderingPath ptr : Nat) (priority : Int) : Nat → State → State
  | 0, s => s
  | n + 1, s =>
    createRenderCameraTimes name renderingPath ptr priority n
      (createRenderCamera s name renderingPath ptr priority).2

/-- Runs `n` successive calls of `destroyRenderCamera(name)`: the state afterwards
and the value each call returned. -/
def destroyRenderCameraTimes (name : Nat) : Nat → State → State × List Bool
  | 0, s => (s, [])
  | n + 1, s =>
    ((destroyRenderCameraTimes name n (destroyRenderCamera_name s name).2).1,
      (destroyRenderCamera_name s name).1 ::
        (destroyRenderCameraTimes name n (destroyRenderCamera_name s name).2).2)

/-- Source function `Rendering::compareRenderCameraPriority`: the `bool` result of `>`
converted to `S32`. -/
def compareRenderCameraPriority (a b : RenderCamera) : Int :=
  if a.priority > b.priority then 1 else 0

/-- Modelled from the spec: insertion step of `dQsort` (see `dQsort`).  The
element moves right past every element the callback ranks it above (positive
result) and stops at the first one it does not. -/
def dQsortInsert {α : Type} (cmp : α → α → Int) (x : α) : List α → List α
  | [] => [x]
  | y :: ys => if cmp x y > 0 then y :: dQsortInsert cmp x ys else x :: y :: ys

/-- Modelled from the spec: `dQsort`, the platform layer's `qsort` wrapper,
whose code is not among the sources.  The spec has the registry sorted by the
comparator with "ties broken by registry/insertion order": the array is
rearranged so that an element for which the callback returns a positive value
against another comes after it, and elements the callback does not separate
keep their order. -/
def dQsort {α : Type} (cmp : α → α → Int) : List α → List α
  | [] => []
  | x :: xs => dQsortInsert cmp x (dQsort cmp xs)

/-- Source function `Rendering::getPriorityRenderCamera`. -/
def getPriorityRenderCamera (s : State) : Option RenderCamera × State :=
  if s.renderCameraList.length < 1 then (none, s)
  else
    let sorted := dQsort compareRenderCameraPriority s.renderCameraList
    (sorted[sorted.length - 1]?, { s with renderCameraList := sorted })

/-- Source function `Rendering::render`.  `preprocessingActive` is the value returned by
`Scene::isPreprocessingActive(true)`.  The callbacks of hooks and cameras are
taken not to touch the registries while `render` iterates over them. -/
def render (s : State) (preprocessingActive : Bool) : State :=
  let s1 : State := { s with calls := s.calls ++ [Call.resetViews] }
  if preprocessingActive then s1
  else
    let s2 : State := { s1 with calls := s1.calls ++ s1.renderHookList.map Call.beginFrame }
    let s3 : State :=
      { s2 with renderCameraList := dQsort compareRenderCameraPriority s2.renderCameraList }
    let s4 : State := { s3 with calls := s3.calls ++ s3.renderCameraList.map Call.cameraRender }
    { s4 with calls := s4.calls ++ s4.renderHookList.map Call.endFrame }

/-- The cameras whose render step a call trace invokes, in call order. -/
def renderedCameras : List Call → List RenderCamera
  | [] => []
  | Call.cameraRender c :: cs => c :: renderedCameras cs
  | _ :: cs => renderedCameras cs

/-! ## Render textures -/

/-- Source function `Rendering::getRenderTexture`. -/
def getRenderTexture (s : State) (name : Nat) : Option RenderTexture :=
  s.renderTextureList.find? (fun rt => rt.name == name)

/-- Source function `Rendering::createRenderTexture(StringTableEntry, bgfx::BackbufferRatio::Enum)`.
`ptr` is the address `new RenderTexture()` yields and `handle` the value
`bgfx::createTexture2D` returns, when they are reached. -/
def createRenderTexture_ratio (s : State) (name ratio : Nat) (ptr handle : Nat) :
    RenderTexture × State :=
  match getRenderTexture s name with
  | some rt => (rt, s)
  | none =>
    let rt : RenderTexture :=
      { ptr := ptr, name := name, handle := handle,
        width := s.windowWidth, height := s.windowHeight }
    (rt,
      { s with
        renderTextureList := s.renderTextureList ++ [rt]
        calls := s.calls ++ [Call.createTexture2DRatio ratio] })

/-- Source function `Rendering::createRenderTexture(StringTableEntry, U32, U32)`. -/
def createRenderTexture_size (s : State) (name width height : Nat) (ptr handle : Nat) :
    RenderTexture × State :=
  match getRenderTexture s name with
  | some rt => (rt, s)
  | none =>
    let rt : RenderTexture :=
      { ptr := ptr, name := name, handle := handle, width := width, height := height }
    (rt,
      { s with
        renderTextureList := s.renderTextureList ++ [rt]
        calls := s.calls ++ [Call.createTexture2D width height] })

/-- Source function `Rendering::destroyRenderTexture`.  `SAFE_DELETE(rt)`
deletes the `RenderTexture` object; the struct (declared in rendering.h, not
among the sources) is the plain record of name, handle, width and height of
the spec's data model, so the deletion involves no backend call. -/
def destroyRenderTexture (s : State) (name : Nat) : Bool × State :=
  match s.renderTextureList.find? (fun rt => rt.name == name) with
  | some rt =>
    (true,
      { s with
        renderTextureList := s.renderTextureList.eraseP (fun rt => rt.name == name)
        calls := s.calls ++ [Call.deleteRenderTexture rt.ptr] })
  | none => (false, s)

/-- The states of the texture registry that `createRenderTexture` (both
overloads) and `destroyRenderTexture` produce from an empty registry. -/
inductive TextureReachable : State → Prop where
  | empty (s : State) : s.renderTextureList = [] → TextureReachable s
  | create_ratio (s : State) (name ratio ptr handle : Nat) :
      TextureReachable s → TextureReachable (createRenderTexture_ratio s name ratio ptr handle).2
  | create_size (s : State) (name width height ptr handle : Nat) :
      TextureReachable s →
        TextureReachable (createRenderTexture_size s name width height ptr handle).2
  | destroy (s : State) (name : Nat) :
      TextureReachable s → TextureReachable (destroyRenderTexture s name).2

/-- The backend texture-creation calls of a trace. -/
def textureCreations (calls : List Call) : List Call :=
  calls.filter (fun c =>
    match c with
    | Call.createTexture2D _ _ => true
    | Call.createTexture2DRatio _ => true
    | _ => false)

/-- A sample configuration with a pool of two slots, used to evaluate the
functions on concrete inputs. -/
def sampleConfig : Config where
  TORQUE_MAX_RENDER_DATA := 2
  Deleted := 1
  invalidHandle := 65535
  BGFX_STATE_RGB_WRITE := 1
  BGFX_STATE_ALPHA_WRITE := 2
  BGFX_STATE_DEPTH_TEST_LESS := 16
  BGFX_STATE_DEPTH_WRITE := 4
  BGFX_STATE_CULL_CW := 68719476736

/-- The pool right after `init`, the fresh array holding all-zero slots
except for the given flags. -/
def samplePool (count : Nat) (flags : Nat → Nat) : State :=
  { init startup (fun n => { (default : RenderData) with flags := flags n }) with
    renderDataCount := count }

/-- The startup state with the given cameras registered. -/
def sampleCameras (cameras : List RenderCamera) : State :=
  { startup with renderCameraList := cameras }

/-- The startup state with the given textures registered. -/
def sampleTextures (textures : List RenderTexture) : State :=
  { startup with renderTextureList := textures }

/-! ## Shutdown, render hooks -/

/-- Modelled from the spec: `bgfx::isValid` (bgfx header, not among the
sources): a handle is valid when its `idx` is not the invalid sentinel
`bgfx::invalidHandle`. -/
def isValid (cfg : Config) (handle : Nat) : Bool :=
  handle != cfg.invalidHandle

/-- The loop of `Rendering::destroy` over the texture vector: the backend
calls it makes, in order. -/
def destroyTextureCalls (cfg : Config) : List RenderTexture → List Call
  | [] => []
  | rt :: rest =>
    if isValid cfg rt.handle then Call.destroyTexture rt.handle :: destroyTextureCalls cfg rest
    else destroyTextureCalls cfg rest

/-- Source function `Rendering::destroy`. -/
def destroy (cfg : Config) (s : State) : State :=
  { s with calls := s.calls ++ destroyTextureCalls cfg s.renderTextureList }

/-- The backend destroy-texture calls of a trace. -/
def textureDestructions (calls : List Call) : List Call :=
  calls.filter (fun c =>
    match c with
    | Call.destroyTexture _ => true
    | _ => false)

/-- Source function `Rendering::addRenderHook`. -/
def addRenderHook (s : State) (hook : Nat) : State :=
  { s with renderHookList := s.renderHookList ++ [hook] }

/-- The loop of `removeRenderHook` over the hook vector: `none` when no entry
equals `hook`, otherwise the vector with the first such entry erased. -/
def eraseFirstHook (hook : Nat) : List Nat → Option (List Nat)
  | [] => none
  | h :: rest =>
    if h = hook then some rest
    else
      match eraseFirstHook hook rest with
      | some rest' => some (h :: rest')
      | none => none

/-- Source function `Rendering::removeRenderHook`. -/
def removeRenderHook (s : State) (hook : Nat) : Bool × State :=
  match eraseFirstHook hook s.renderHookList with
  | some hooks => (true, { s with renderHookList := hooks })
  | none => (false, s)

/-- The hook callbacks of a call trace (`beginFrame` and `endFrame`). -/
def hookCallbacks (calls : List Call) : List Call :=
  calls.filter (fun c =>
    match c with
    | Call.beginFrame _ => true
    | Call.endFrame _ => true
    | _ => false)

/-! ## Uniforms -/

/-- The scalar type `F32`.  Values are only stored and copied by the uniform
code, and the geometry helper is studied over exact arithmetic, so the
carrier is the rationals. -/
abbrev F32 : Type := Rat

/-- The math library's `Point2F` (two `F32` components). -/
structure Point2F where
  x : F32
  y : F32
deriving DecidableEq

/-- The math library's `Point3F` (three `F32` components). -/
structure Point3F where
  x : F32
  y : F32
  z : F32
deriving DecidableEq

/-- The math library's `Point4F` (four `F32` components). -/
structure Point4F where
  x : F32
  y : F32
  z : F32
  w : F32
deriving DecidableEq

/-- What `UniformData::_dataPtr` holds: `NULL`, or the address of the first
component of the vector storage (`&_vecValues.x`) or of the first element of
the matrix storage (`&_matValues[0]`) of the `UniformData` object that lives
at address `object`.  A copy of a `UniformData` carries the pointer along
unchanged, so the pointer of a copy still addresses the storage of the object
on which `setValue` was called. -/
inductive DataPtr where
  | null
  | vecValues (object : Nat)
  | matValues (object : Nat)
deriving DecidableEq, Repr

/-- The members of `struct UniformData`; `uniform` is `uniform.idx`, the
backend identity, and `_matValues` the array `F32 _matValues[16]`. -/
structure UniformData where
  uniform : Nat
  count : Nat
  _dataPtr : DataPtr
  _vecValues : Point4F
  _matValues : Fin 16 → F32

/-- Source function `UniformData::UniformData()`.  The two value storages are
not initialised by the constructor; `vec` and `mat` are what they hold. -/
def UniformData.default (cfg : Config) (vec : Point4F) (mat : Fin 16 → F32) : UniformData where
  uniform := cfg.invalidHandle
  count := 0
  _dataPtr := DataPtr.null
  _vecValues := vec
  _matValues := mat

/-- Source function `UniformData::UniformData(bgfx::UniformHandle, U32)`. -/
def UniformData.new (_uniform _count : Nat) (vec : Point4F) (mat : Fin 16 → F32) :
    UniformData where
  uniform := _uniform
  count := _count
  _dataPtr := DataPtr.null
  _vecValues := vec
  _matValues := mat

/-- The argument of one `UniformData::setValue` call, one constructor per
overload: `F32`, `Point2F`, `Point3F`, `Point4F` and `F32*` (the 16 floats the
`dMemcpy` reads). -/
inductive SetValueArg where
  | scalar (value : F32)
  | point2 (value : Point2F)
  | point3 (value : Point3F)
  | point4 (value : Point4F)
  | matrix (value : Fin 16 → F32)

/-- Source function `UniformData::setValue`, all five overloads, called on the
object `u` that lives at address `this`: the pointer stored in `_dataPtr` is
the address of this object's own storage. -/
def UniformData.setValue (u : UniformData) (this : Nat) : SetValueArg → UniformData
  | SetValueArg.scalar value =>
    { u with _vecValues := ⟨value, 0, 0, 0⟩, _dataPtr := DataPtr.vecValues this }
  | SetValueArg.matrix value =>
    { u with _matValues := value, _dataPtr := DataPtr.matValues this }
  | SetValueArg.point2 value =>
    { u with _vecValues := ⟨value.x, value.y, 0, 0⟩, _dataPtr := DataPtr.vecValues this }
  | SetValueArg.point3 value =>
    { u with _vecValues := ⟨value.x, value.y, value.z, 0⟩, _dataPtr := DataPtr.vecValues this }
  | SetValueArg.point4 value =>
    { u with _vecValues := ⟨value.x, value.y, value.z, value.w⟩,
             _dataPtr := DataPtr.vecValues this }

/-- A sequence of `setValue` calls on the uniform that lives at address
`this`, first call first. -/
def UniformData.setValues (u : UniformData) (this : Nat) (args : List SetValueArg) :
    UniformData :=
  args.foldl (fun v a => v.setValue this a) u

/-- What a reader obtains through a `_dataPtr`: nothing to read (`NULL`), the
four floats of a vector storage, the sixteen floats of a matrix storage, or,
when no object lives at the address any more, whatever the memory there has
become. -/
inductive UniformValue where
  | unset
  | vector (value : Point4F)
  | matrix (value : Fin 16 → F32)
  | dangling

/-- Reading through a data pointer: `memory` gives the `UniformData` object
that lives at each address at the time of the read (`none` where no object
lives), and the value read is the storage of the object the pointer
addresses. -/
def deref (memory : Nat → Option UniformData) : DataPtr → UniformValue
  | DataPtr.null => UniformValue.unset
  | DataPtr.vecValues object =>
    match memory object with
    | some target => UniformValue.vector target._vecValues
    | none => UniformValue.dangling
  | DataPtr.matValues object =>
    match memory object with
    | some target => UniformValue.matrix target._matValues
    | none => UniformValue.dangling

/-- Reading, through its own `_dataPtr`, the uniform `u` that lives at address
`this`. -/
def UniformData.read (u : UniformData) (this : Nat) : UniformValue :=
  deref (fun address => if address = this then some u else none) u._dataPtr

/-- The members of `struct UniformSet`: the ownership flag and the pointer to
the backing vector (`none` is `NULL`). -/
structure UniformSet where
  _selfMade : Bool
  uniforms : Option (List UniformData)

/-- Source function `UniformSet::UniformSet()`. -/
def UniformSet.new : UniformSet where
  _selfMade := false
  uniforms := none

/-- Source function `UniformSet::create`. -/
def UniformSet.create (_S : UniformSet) : UniformSet where
  _selfMade := true
  uniforms := some []

/-- Source function `UniformSet::clear`. -/
def UniformSet.clear (S : UniformSet) : UniformSet :=
  match S.uniforms with
  | none => S
  | some _ => { S with uniforms := some [] }

/-- Source function `UniformSet::isEmpty`. -/
def UniformSet.isEmpty (S : UniformSet) : Bool :=
  match S.uniforms with
  | none => true
  | some l => decide (l.length < 1)

/-- The entries of the backing vector, in order (none when there is no
backing vector). -/
def UniformSet.entries (S : UniformSet) : List UniformData :=
  match S.uniforms with
  | none => []
  | some l => l

/-- The step `if (!uniforms) create();` that opens both `addUniform`
overloads. -/
def UniformSet.ensureCreated (S : UniformSet) : UniformSet :=
  match S.uniforms with
  | none => S.create
  | some _ => S

/-- Source function `UniformSet::addUniform()`: appends a default-constructed
uniform and returns the position of the new entry (the returned pointer is
`&uniforms->back()`). -/
def UniformSet.addUniform_default (S : UniformSet) (cfg : Config) (vec : Point4F)
    (mat : Fin 16 → F32) : Nat × UniformSet :=
  ((S.ensureCreated.entries).length,
    { S.ensureCreated with
      uniforms := some (S.ensureCreated.entries ++ [UniformData.default cfg vec mat]) })

/-- The search loop of `addUniform(const UniformData&)` from position `i` on:
when an entry `uni` with `uni->uniform.idx == uniform.uniform.idx` is met, its
vector and matrix storage are overwritten and its position is returned
together with the vector; `none` when the loop runs to the end. -/
def mergeUniform (uniform : UniformData) : Nat → List UniformData → Option (Nat × List UniformData)
  | _, [] => none
  | i, uni :: rest =>
    if uni.uniform = uniform.uniform then
      some (i, { uni with _vecValues := uniform._vecValues, _matValues := uniform._matValues }
        :: rest)
    else
      match mergeUniform uniform (i + 1) rest with
      | some (j, rest') => some (j, uni :: rest')
      | none => none

/-- Source function `UniformSet::addUniform(const UniformData&)`: the position
of the entry the returned pointer addresses, and the set afterwards. -/
def UniformSet.addUniform (S : UniformSet) (uniform : UniformData) : Nat × UniformSet :=
  match mergeUniform uniform 0 S.ensureCreated.entries with
  | some (i, l) => (i, { S.ensureCreated with uniforms := some l })
  | none =>
    (S.ensureCreated.entries.length,
      { S.ensureCreated with uniforms := some (S.ensureCreated.entries ++ [uniform]) })

/-- The loop of `addUniformSet` over the entries of the other set. -/
def UniformSet.addUniforms (S : UniformSet) : List UniformData → UniformSet
  | [] => S
  | u :: rest => UniformSet.addUniforms (S.addUniform u).2 rest

/-- Source function `UniformSet::addUniformSet`.  The other set's vector
pointer is dereferenced without a check: `none` stands for the dereference of
a null pointer. -/
def UniformSet.addUniformSet (S : UniformSet) (uniformSet : UniformSet) : Option UniformSet :=
  match uniformSet.uniforms with
  | none => none
  | some l => some (S.addUniforms l)

/-- The number of entries with backend identity `k`. -/
def countIdentity (k : Nat) (l : List UniformData) : Nat :=
  (l.filter (fun u => u.uniform == k)).length

/-- The last entry with backend identity `k`, if any. -/
def lastWithIdentity (k : Nat) (l : List UniformData) : Option UniformData :=
  (l.filter (fun u => u.uniform == k)).getLast?

/-- The first entry with backend identity `k`, if any. -/
def firstWithIdentity (k : Nat) (l : List UniformData) : Option UniformData :=
  l.find? (fun u => u.uniform == k)

/-- The distinct backend identities of `other` that do not occur in `l`. -/
def newIdentities (l other : List UniformData) : List Nat :=
  ((other.map (fun u => u.uniform)).dedup).filter (fun k => k ∉ l.map (fun u => u.uniform))

/-! ## Utility functions -/

/-- Modelled from the spec: `Point3F::Zero` of the math library (not among the
sources), the zero vector. -/
def Point3F.Zero : Point3F := ⟨0, 0, 0⟩

/-- Modelled from the spec: `Point3F::operator-` of the math library (not
among the sources), the componentwise difference. -/
def Point3F.sub (a b : Point3F) : Point3F := ⟨a.x - b.x, a.y - b.y, a.z - b.z⟩

/-- Modelled from the spec: `Point3F::operator+` of the math library (not
among the sources), the componentwise sum. -/
def Point3F.add (a b : Point3F) : Point3F := ⟨a.x + b.x, a.y + b.y, a.z + b.z⟩

/-- Modelled from the spec: `Point3F::operator*(F32)` of the math library (not
among the sources), the product of a vector with a scalar. -/
def Point3F.mul (a : Point3F) (m : F32) : Point3F := ⟨a.x * m, a.y * m, a.z * m⟩

/-- Modelled from the spec: `mDot` of the math library (not among the
sources), the dot product of two vectors. -/
def mDot (p1 p2 : Point3F) : F32 := p1.x * p2.x + p1.y * p2.y + p1.z * p2.z

/-- Source function `Rendering::closestPointsOnTwoLines`, over exact
arithmetic: the returned flag and the two output points
`closestPointLine1`, `closestPointLine2`. -/
def closestPointsOnTwoLines (linePoint1 lineVec1 linePoint2 lineVec2 : Point3F) :
    Bool × Point3F × Point3F :=
  let a := mDot lineVec1 lineVec1
  let b := mDot lineVec1 lineVec2
  let e := mDot lineVec2 lineVec2
  let d := a * e - b * b
  if d ≠ 0 then
    let r := linePoint1.sub linePoint2
    let c := mDot lineVec1 r
    let f := mDot lineVec2 r
    let s := (b * f - c * e) / d
    let t := (a * f - c * b) / d
    (true, linePoint1.add (lineVec1.mul s), linePoint2.add (lineVec2.mul t))
  else
    (false, Point3F.Zero, Point3F.Zero)

/-! ## Window, reachable registries -/

/-- Source function `Rendering::resize` (its body is empty). -/
def resize (s : State) : State := s

/-- Source function `Rendering::updateWindow`. -/
def updateWindow (s : State) (width height : Nat) : State :=
  let s1 : State :=
    { s with windowSizeChanged := decide (s.windowWidth ≠ width ∨ s.windowHeight ≠ height) }
  let s2 : State := { s1 with windowWidth := width, windowHeight := height }
  if s2.windowSizeChanged then
    let s3 : State := { s2 with calls := s2.calls ++ [Call.graphicsReset] }
    let s4 : State := resize s3
    { s4 with calls := s4.calls ++ [Call.sceneRefresh] }
  else s2

/-- Modelled from the spec: the scaling a `bgfx::BackbufferRatio` value stands
for (bgfx header, not among the sources), "a ratio of the current backbuffer
size": `Equal` (0) is the full size, `Half` (1) a half, `Quarter` (2) a
quarter, `Eighth` (3) an eighth, `Sixteenth` (4) a sixteenth and `Double` (5)
twice the size. -/
def backbufferRatioScale (ratio size : Nat) : Nat :=
  match ratio with
  | 0 => size
  | 1 => size / 2
  | 2 => size / 4
  | 3 => size / 8
  | 4 => size / 16
  | 5 => size * 2
  | _ => size

/-- The operations of a sequence of ratio creations and window updates. -/
inductive WindowOp where
  /-- a call `createRenderTexture(name, ratio)` with the pointer and handle it obtains -/
  | create (name ratio ptr handle : Nat)
  /-- a call `updateWindow(width, height)` -/
  | update (width height : Nat)

/-- One operation of a `WindowOp` sequence. -/
def windowStep (s : State) : WindowOp → State
  | WindowOp.create name ratio ptr handle => (createRenderTexture_ratio s name ratio ptr handle).2
  | WindowOp.update width height => updateWindow s width height

/-- A sequence of ratio creations and window updates, first operation first. -/
def windowRun (s : State) (ops : List WindowOp) : State :=
  ops.foldl windowStep s

/-- The states of the camera registry that `createRenderCamera`, both
`destroyRenderCamera` overloads, `getPriorityRenderCamera` and `render`
produce from an empty registry. -/
inductive CameraReachable : State → Prop where
  | empty (s : State) : s.renderCameraList = [] → CameraReachable s
  | create (s : State) (name renderingPath ptr : Nat) (priority : Int) :
      CameraReachable s →
        CameraReachable (createRenderCamera s name renderingPath ptr priority).2
  | destroy_ptr (s : State) (camera : Option Nat) :
      CameraReachable s → CameraReachable (destroyRenderCamera_ptr s camera).2
  | destroy_name (s : State) (name : Nat) :
      CameraReachable s → CameraReachable (destroyRenderCamera_name s name).2
  | getPriority (s : State) :
      CameraReachable s → CameraReachable (getPriorityRenderCamera s).2
  | render (s : State) (preprocessingActive : Bool) :
      CameraReachable s → CameraReachable (render s preprocessingActive)

/-- The UniformSet states that `addUniform(const UniformData&)`,
`addUniformSet` and `clear` produce from a set without entries. -/
inductive UniformSetReachable : UniformSet → Prop where
  | empty (S : UniformSet) : S.entries = [] → UniformSetReachable S
  | addUniform (S : UniformSet) (uniform : UniformData) :
      UniformSetReachable S → UniformSetReachable (S.addUniform uniform).2
  | addUniformSet (S other S' : UniformSet) :
      UniformSetReachable S → S.addUniformSet other = some S' → UniformSetReachable S'
  | clear (S : UniformSet) : UniformSetReachable S → UniformSetReachable S.clear

/-- Runs `n` successive calls of `removeRenderHook(hook)`: the state afterwards
and the value each call returned. -/
def removeRenderHookTimes (hook : Nat) : Nat → State → State × List Bool
  | 0, s => (s, [])
  | n + 1, s =>
    ((removeRenderHookTimes hook n (removeRenderHook s hook).2).1,
      (removeRenderHook s hook).1 :: (removeRenderHookTimes hook n (removeRenderHook s hook).2).2)

/-- Runs `n` successive calls of `addRenderHook(hook)`. -/
def addRenderHookTimes (hook : Nat) : Nat → State → State
  | 0, s => s
  | n + 1, s => addRenderHookTimes hook n (addRenderHook s hook)

end Rendering

/-! # String utilities (`src/src/string/Utility.cc`)

A C string is represented by the list of its bytes before the terminating
NUL; a pointer into a string by the bytes from that position on. -/

namespace Utility

/-- The bytes of a string literal. -/
def bytes (s : String) : List Nat := s.toList.map Char.toNat

/-- The inner `for` loop over `set = " \t\n"`: whether `search` is one of the
separators (in which case the loop sets `search = 0`). -/
def isSeparator (search : Nat) : Bool :=
  search == 32 || search == 9 || search == 10

/-- The loop "Search for end of non-separator" (`while( 1 )`), entered with
`inString` at the given position: the position at which it leaves `inString`,
which is the end of the string or just behind the first separator met. -/
def skipElement : List Nat → List Nat
  | [] => []
  | search :: rest => if isSeparator search then rest else skipElement rest

/-- The outer `while( *inString )` loop of `mGetStringElementCount`, with the
current position and word count.  Every pass moves `inString` forward, so
`fuel` passes suffice for a string of `fuel` bytes.  The counter `wordCount`
is a `U32`. -/
def countLoop : Nat → List Nat → Nat → Nat
  | 0, _, wordCount => wordCount
  | _ + 1, [], wordCount => wordCount
  | fuel + 1, search :: rest, wordCount =>
    if isSeparator search then countLoop fuel rest wordCount
    else countLoop fuel (skipElement rest) ((wordCount + 1) % 4294967296)

/-- Source function `Utility::mGetStringElementCount`. -/
def mGetStringElementCount (inString : List Nat) : Nat :=
  if inString = [] then 0 else countLoop inString.length inString 0

/-- What `mGetStringElement` hands back. -/
inductive ElementResult where
  /-- a pointer to a string with the given bytes: the position `pWordStart`
  inside `inString`, or the static result buffer -/
  | found (text : List Nat)
  /-- the word and its terminator do not fit the 4096 bytes of the result
  buffer -/
  | bufferOverrun
  /-- the `AssertFatal` "Couldn't find specified string element!" is reached
  (the function then returns the empty string) -/
  | notFound
deriving DecidableEq, Repr

/-- The outer `while( *inString )` loop of `mGetStringElement`, with the
current position and word count.  The counter `wordCount` and the word
`length` are `U32` values. -/
def elementLoop (index : Nat) (copyBuffer : Bool) : Nat → List Nat → Nat → ElementResult
  | 0, _, _ => ElementResult.notFound
  | _ + 1, [], _ => ElementResult.notFound
  | fuel + 1, search :: rest, wordCount =>
    if isSeparator search then elementLoop index copyBuffer fuel rest wordCount
    else if wordCount = index then
      if !copyBuffer then ElementResult.found (search :: rest)
      else
        let length := ((search :: rest).length - (skipElement rest).length
          - (if skipElement rest = [] then 0 else 1)) % 4294967296
        if length < 4096 then ElementResult.found ((search :: rest).take length)
        else ElementResult.bufferOverrun
    else elementLoop index copyBuffer fuel (skipElement rest) ((wordCount + 1) % 4294967296)

/-- Source function `Utility::mGetStringElement`; `index` is a `U32`. -/
def mGetStringElement (inString : List Nat) (index : Nat) (copyBuffer : Bool) : ElementResult :=
  if inString = [] then ElementResult.notFound
  else elementLoop index copyBuffer inString.length inString 0

/-- The maximal runs of non-separator bytes of a string, written from the
words of the specification and not from the code: `run` is the run being read
(empty between runs). -/
def maximalRunsFrom : List Nat → List Nat → List (List Nat)
  | run, [] => if run = [] then [] else [run]
  | run, c :: rest =>
    if isSeparator c then
      if run = [] then maximalRunsFrom [] rest else run :: maximalRunsFrom [] rest
    else maximalRunsFrom (run ++ [c]) rest

/-- The words of a string: its maximal non-empty runs of bytes other than
space, tab and newline, in order. -/
def maximalRuns (s : List Nat) : List (List Nat) := maximalRunsFrom [] s

/-- The string made of `n` copies of the word "a" followed by a space. -/
def repeatWord : Nat → List Nat
  | 0 => []
  | n + 1 => 97 :: 32 :: repeatWord n

/-! ## Mask conversion -/

/-- Modelled from the spec: the constant `MASK_BITCOUNT` (Utility.h, not among
the sources), the number of bits of a mask, 32. -/
def MASK_BITCOUNT : Nat := 32

/-- Modelled from the spec: the constant `MASK_ALL` (Utility.h, not among the
sources), the mask with all 32 bits set. -/
def MASK_ALL : Nat := 4294967295

/-- Modelled from the spec: the macro `BIT(x)` (platform types, not among the
sources), `1 << x` as a 32-bit value. -/
def BIT (x : Nat) : Nat := 2 ^ x % 4294967296

/-- The bytes of the decimal digits in `digits`, most significant first. -/
def digitBytes (digits : List Char) : List Nat := digits.map Char.toNat

/-- Modelled from the spec: the conversion `%d` of `dSprintf` (platform string
library, not among the sources) for a non-negative value: its decimal
digits. -/
def formatDecimal (value : Nat) : List Nat := digitBytes (Nat.toDigits 10 value)

/-- Modelled from the spec: `dSprintf(buffer, bufferSize, "%s%d", text, value)`
(platform string library, not among the sources): the formatted text, cut to
the `bufferSize - 1` bytes that fit in front of the terminator. -/
def dSprintf_sd (bufferSize : Nat) (text : List Nat) (value : Nat) : List Nat :=
  (text ++ formatDecimal value).take (bufferSize - 1)

/-- Modelled from the spec: `dAtoi` digit loop (see `dAtoi`): the value of the
leading decimal digits, continuing from `value`. -/
def atoiDigits : List Nat → Nat → Nat
  | [], value => value
  | c :: rest, value =>
    if 48 ≤ c ∧ c ≤ 57 then atoiDigits rest (value * 10 + (c - 48)) else value

/-- Modelled from the spec: `dAtoi` (platform string library, not among the
sources), the C library `atoi`: leading white space is skipped, an optional
sign is read, and the decimal digits that follow give the value. -/
def dAtoi : List Nat → Int
  | [] => 0
  | c :: rest =>
    if c = 32 ∨ (9 ≤ c ∧ c ≤ 13) then dAtoi rest
    else if c = 45 then - (atoiDigits rest 0 : Int)
    else if c = 43 then (atoiDigits rest 0 : Int)
    else (atoiDigits (c :: rest) 0 : Int)

/-- Modelled from the spec: `dTolower` as used by `dStricmp`: upper-case ASCII
letters are mapped to lower case. -/
def toLower (c : Nat) : Nat := if 65 ≤ c ∧ c ≤ 90 then c + 32 else c

/-- Modelled from the spec: `dStricmp` (platform string library, not among the
sources), the case-insensitive string comparison: 0 when the strings agree up
to the case of letters, otherwise the difference of the first bytes that
differ. -/
def dStricmp : List Nat → List Nat → Int
  | [], [] => 0
  | [], b :: _ => - (toLower b : Int)
  | a :: _, [] => (toLower a : Int)
  | a :: as, b :: bs =>
    if toLower a = toLower b then dStricmp as bs else (toLower a : Int) - (toLower b : Int)

/-- One pass of the `for` loop of `mConvertMaskToString` for bit `i`, on the
flag `first` and the content of `bits`; `dStrcat` appends. -/
def maskToStringStep (mask : Nat) (state : Bool × List Nat) (i : Nat) : Bool × List Nat :=
  if mask &&& BIT i ≠ 0 then
    (false, state.2 ++ dSprintf_sd 4 (if state.1 then [] else [32]) i)
  else state

/-- Source function `Utility::mConvertMaskToString`: the content of the static
buffer `bits` it returns. -/
def mConvertMaskToString (mask : Nat) : List Nat :=
  if mask = 0 then bytes "none"
  else ((List.range MASK_BITCOUNT).foldl (maskToStringStep mask) (true, [])).2

/-- The body of the `for` loop of `mConvertStringToMask` once the element is
at hand: the mask after the pass. -/
def maskAddBit (mask : Nat) (element : List Nat) : Nat :=
  if dAtoi element < 0 ∨ dAtoi element ≥ (MASK_BITCOUNT : Int) then mask
  else mask ||| (2 ^ (dAtoi element).toNat % 4294967296)

/-- The `for` loop of `mConvertStringToMask` over the given element indices;
`none` when `mGetStringElement` overruns its result buffer. When the element
is not found the empty string of the string table is converted. -/
def stringToMaskLoop (copyBuffer : Bool) (string : List Nat) : List Nat → Nat → Option Nat
  | [], mask => some mask
  | i :: rest, mask =>
    match mGetStringElement string i copyBuffer with
    | ElementResult.found text =>
      stringToMaskLoop copyBuffer string rest (maskAddBit mask text)
    | ElementResult.notFound => stringToMaskLoop copyBuffer string rest (maskAddBit mask [])
    | ElementResult.bufferOverrun => none

/-- Source function `Utility::mConvertStringToMask`. It calls
`mGetStringElement(string, i)` with two arguments; `copyBuffer` stands for the
default value of the third, which is given in Utility.h (not among the
sources). `none` when the result buffer of `mGetStringElement` is overrun. -/
def mConvertStringToMask (copyBuffer : Bool) (string : List Nat) : Option Nat :=
  if mGetStringElementCount string < 1 then some MASK_ALL
  else if mGetStringElementCount string = 1 ∧ dStricmp string (bytes "all") = 0 then
    some MASK_ALL
  else if mGetStringElementCount string = 1 ∧
      (dStricmp string (bytes "none") = 0 ∨ dStricmp string (bytes "off") = 0) then
    some 0
  else stringToMaskLoop copyBuffer string (List.range (mGetStringElementCount string)) 0

/-! ## Words of a rendered mask -/

/-- The indices of the set bits of a mask, in ascending order. -/
def maskBits (mask : Nat) : List Nat :=
  (List.range MASK_BITCOUNT).filter (fun i => decide (mask &&& BIT i ≠ 0))

/-- Every word preceded by one space. -/
def spaced : List (List Nat) → List Nat
  | [] => []
  | word :: words => 32 :: word ++ spaced words

/-- The words of a list separated by single spaces. -/
def joinWords : List (List Nat) → List Nat
  | [] => []
  | word :: words => word ++ spaced words

end Utility

/-! # Stream strings (`src/src/io/nStream.cc`)

A stream is represented by its bytes: for writing, the bytes written so far;
for reading, the bytes not yet read. A null `const char*` is `none`, any other
string the list of its bytes before the terminating NUL. -/

namespace Stream

/-- Conversion of a length to `S32`: the value modulo 2^32, read as a signed
32-bit number. -/
def toS32 (n : Nat) : Int :=
  if n % 4294967296 < 2147483648 then (n % 4294967296 : Nat)
  else ((n % 4294967296 : Nat) : Int) - 4294967296

/-- Conversion `U8(len)` of an `S32`. -/
def toU8 (i : Int) : Nat := (i % 256).toNat

/-- Conversion of an `S32` to the `U32` size parameter of `write`. -/
def toU32 (i : Int) : Nat := (i % 4294967296).toNat

/-- Modelled from the spec: `Stream::write(U8)` (stream.h, not among the
sources) on a sequential stream: the byte is appended. -/
def write_U8 (stream : List Nat) (value : Nat) : List Nat := stream ++ [value]

/-- Modelled from the spec: `Stream::write(U32 size, const void* buffer)`
(stream.h, not among the sources) on a sequential stream: the first `size`
bytes of the memory at `buffer` are appended; `none` when the memory that is
known holds fewer bytes. -/
def write (stream : List Nat) (size : Nat) (buffer : List Nat) : Option (List Nat) :=
  if size ≤ buffer.length then some (stream ++ buffer.take size) else none

/-- Modelled from the spec: `Stream::read(U8*)` (stream.h, not among the
sources) on a sequential stream: the next byte and the rest of the stream;
`none` when the stream is exhausted. -/
def read_U8 : List Nat → Option (Nat × List Nat)
  | [] => none
  | value :: rest => some (value, rest)

/-- Modelled from the spec: `Stream::read(U32 size, void* buffer)` (stream.h,
not among the sources) on a sequential stream: the next `size` bytes and the
rest of the stream; `none` when fewer bytes are left. -/
def read (size : Nat) (stream : List Nat) : Option (List Nat × List Nat) :=
  if size ≤ stream.length then some (stream.take size, stream.drop size) else none

/-- Source function `Stream::writeString`: the stream after the call. The
length `dStrlen(string)` is converted to `S32`; the memory at `string` is the
string with its terminator. `none` when `write` is handed a null pointer or
more bytes than the string holds. -/
def writeString (stream : List Nat) (string : Option (List Nat)) (maxLen : Int) :
    Option (List Nat) :=
  let len : Int := match string with
    | some s => toS32 s.length
    | none => 0
  let len : Int := if len > maxLen then maxLen else len
  let stream := write_U8 stream (toU8 len)
  if len ≠ 0 then
    match string with
    | some s => write stream (toU32 len) (s ++ [0])
    | none => none
  else some stream

/-- Source function `Stream::readString`: the bytes `buf[0 .. len]` that the
call writes to the buffer, and the rest of the stream; `none` when one of the
two reads fails. -/
def readString (stream : List Nat) : Option (List Nat × List Nat) :=
  match read_U8 stream with
  | none => none
  | some (len, stream) =>
    match read len stream with
    | none => none
    | some (buf, stream) => some (buf ++ [0], stream)

/-! ## Reading a line -/

/-- A write `buffer[i] = value` into the caller's array `buffer`; `none` when
`i` lies outside the array. -/
def store (buffer : List Nat) (i : Nat) (value : Nat) : Option (List Nat) :=
  if i < buffer.length then some (buffer.set i value) else none

/-- The loop "strip off preceding white space" of `Stream::readLine`, entered
with `*buff == '\r'` and `buff` at `buffer[0]`: whether the function has
returned from inside the loop, the array and the unread bytes.  The call
`read(buff)` takes the next byte of the stream into `buffer[0]` and fails,
leaving the array as it is, when the stream is exhausted. -/
def stripLoop : List Nat → List Nat → Option (Bool × List Nat × List Nat)
  | [], buffer => (store buffer 0 0).map (fun b => (true, b, []))
  | c :: rest, buffer =>
    match store buffer 0 c with
    | none => none
    | some b =>
      if c = 10 then (store b 0 0).map (fun b => (true, b, rest))
      else if c = 13 then stripLoop rest b
      else some (false, b, rest)

/-- The loop "read line" of `Stream::readLine` (the branch taken when
`TORQUE_OS_OSX` is not defined), with `buff` and `buffEnd` as indices into the
array: the array, the index `buff` and the unread bytes when the loop is
left. -/
def lineLoop (buffEnd : Nat) : List Nat → List Nat → Nat → Option (List Nat × Nat × List Nat)
  | [], buffer, buff =>
    if buff = buffEnd then some (buffer, buff, []) else some (buffer, buff + 1, [])
  | c :: rest, buffer, buff =>
    if buff = buffEnd then some (buffer, buff, c :: rest)
    else
      match store buffer (buff + 1) c with
      | none => none
      | some b =>
        if c = 10 then some (b, buff + 1, rest)
        else if c = 13 then lineLoop buffEnd rest b (buff + 1 - 1)
        else lineLoop buffEnd rest b (buff + 1)

/-- Source function `Stream::readLine` (the branch taken when `TORQUE_OS_OSX`
is not defined): the array and the unread bytes after the call; `none` when a
write falls outside the array.  `bufferSize` is a `U32`. -/
def readLine (buffer : List Nat) (bufferSize : Nat) (stream : List Nat) :
    Option (List Nat × List Nat) :=
  let bufferSize := (bufferSize + 4294967295) % 4294967296
  let buffEnd := 0 + bufferSize
  match store buffer 0 13 with
  | none => none
  | some buffer =>
    match stripLoop stream buffer with
    | none => none
    | some (true, buffer, stream) => some (buffer, stream)
    | some (false, buffer, stream) =>
      match lineLoop buffEnd stream buffer 0 with
      | none => none
      | some (buffer, buff, stream) => (store buffer buff 0).map (fun b => (b, stream))

/-- The C string held by an array: its bytes before the first NUL. -/
def cString (buffer : List Nat) : List Nat := buffer.takeWhile (fun c => c != 0)

end Stream

/-! # Theorems -/

namespace Rendering

/-! ## Render data pool -/

theorem scanDeleted_some (cfg : Config) (s : State) :
    ∀ (todo n m : Nat), scanDeleted cfg s n todo = some m →
      n ≤ m ∧ m < n + todo ∧ isDeleted cfg s m = true ∧
        ∀ j, n ≤ j → j < m → isDeleted cfg s j = false := by
  intro todo
  induction todo with
  | zero => intro n m h; simp [scanDeleted] at h
  | succ k ih =>
    intro n m h
    unfold scanDeleted at h
    by_cases hd : isDeleted cfg s n = true
    · rw [if_pos hd] at h
      obtain rfl : n = m := Option.some.inj h
      exact ⟨le_rfl, by omega, hd, fun j h1 h2 => absurd h1 (by omega)⟩
    · rw [if_neg hd] at h
      obtain ⟨h1, h2, h3, h4⟩ := ih (n + 1) m h
      refine ⟨by omega, by omega, h3, fun j hj1 hj2 => ?_⟩
      by_cases hjn : j = n
      · subst hjn; simpa using hd
      · exact h4 j (by omega) hj2

theorem scanDeleted_none (cfg : Config) (s : State) :
    ∀ (todo n : Nat), scanDeleted cfg s n todo = none ↔
      ∀ j, n ≤ j → j < n + todo → isDeleted cfg s j = false := by
  intro todo
  induction todo with
  | zero => intro n; simp [scanDeleted]; intro j h1 h2; omega
  | succ k ih =>
    intro n
    unfold scanDeleted
    by_cases hd : isDeleted cfg s n = true
    · rw [if_pos hd]
      constructor
      · intro h; cases h
      · intro h; have := h n le_rfl (by omega); simp [hd] at this
    · rw [if_neg hd, ih (n + 1)]
      constructor
      · intro h j hj1 hj2
        by_cases hjn : j = n
        · subst hjn; simpa using hd
        · exact h j (by omega) (by omega)
      · intro h j hj1 hj2
        exact h j (by omega) (by omega)

theorem scanDeleted_isSome_of_deleted (cfg : Config) (s : State) (i : Nat)
    (hi : i < s.renderDataCount) (hd : isDeleted cfg s i = true) :
    ∃ m, scanDeleted cfg s 0 s.renderDataCount = some m := by
  cases h : scanDeleted cfg s 0 s.renderDataCount with
  | some m => exact ⟨m, rfl⟩
  | none =>
    have := (scanDeleted_none cfg s s.renderDataCount 0).1 h i (Nat.zero_le _) (by omega)
    simp [hd] at this

/-- C1: `createRenderData` reuses the tombstoned slot of smallest index below
`renderDataCount` and leaves `renderDataCount` alone when there is one;
otherwise it returns the slot at index `renderDataCount` and, as long as the
`U32` counter does not wrap, `renderDataCount` grows by one. -/
theorem createRenderData_slot_choice (cfg : Config) (s : State)
    (hU32 : s.renderDataCount + 1 < U32_RANGE) :
    ((∃ i, i < s.renderDataCount ∧ isDeleted cfg s i = true) →
        (createRenderData cfg s).1 < s.renderDataCount ∧
        isDeleted cfg s (createRenderData cfg s).1 = true ∧
        (∀ j, j < (createRenderData cfg s).1 → isDeleted cfg s j = false) ∧
        (createRenderData cfg s).2.renderDataCount = s.renderDataCount) ∧
    ((∀ i, i < s.renderDataCount → isDeleted cfg s i = false) →
        (createRenderData cfg s).1 = s.renderDataCount ∧
        (createRenderData cfg s).2.renderDataCount = s.renderDataCount + 1) := by
  constructor
  · rintro ⟨i, hi, hd⟩
    obtain ⟨m, hm⟩ := scanDeleted_isSome_of_deleted cfg s i hi hd
    obtain ⟨-, h2, h3, h4⟩ := scanDeleted_some cfg s _ _ _ hm
    simp only [createRenderData, hm]
    exact ⟨by omega, h3, fun j hj => h4 j (Nat.zero_le _) hj, trivial⟩
  · intro hnone
    have hm : scanDeleted cfg s 0 s.renderDataCount = none :=
      (scanDeleted_none cfg s _ 0).2 (fun j _ hj => hnone j (by omega))
    simp only [createRenderData, hm]
    exact ⟨trivial, Nat.mod_eq_of_lt hU32⟩

/-- Witness for C1: three claimed slots of which slots 1 and 2 are tombstoned;
slot 1 is returned and the count stays at three. -/
theorem createRenderData_slot_choice_witness :
    (createRenderData sampleConfig (samplePool 3 (fun n => if n = 0 then 0 else 1))).1 = 1 ∧
    (createRenderData sampleConfig
      (samplePool 3 (fun n => if n = 0 then 0 else 1))).2.renderDataCount = 3 := by
  have h := (createRenderData_slot_choice sampleConfig
    (samplePool 3 (fun n => if n = 0 then 0 else 1)) (by decide)).1 ⟨2, by decide, by decide⟩
  exact ⟨by decide, h.2.2.2⟩

/-- C3: whatever the pool held before, the slot returned by `createRenderData`
has zero flags (so it is not tombstoned), null instances / material / textures
/ transformTable, zero transformCount and stateRGBA, the invalid handle in all
five handle fields and the default render state. -/
theorem createRenderData_resets (cfg : Config) (s : State) :
    ((createRenderData cfg s).2.renderDataList (createRenderData cfg s).1).flags = 0 ∧
    isDeleted cfg (createRenderData cfg s).2 (createRenderData cfg s).1 = false ∧
    ((createRenderData cfg s).2.renderDataList (createRenderData cfg s).1).instances = none ∧
    ((createRenderData cfg s).2.renderDataList (createRenderData cfg s).1).material = none ∧
    ((createRenderData cfg s).2.renderDataList (createRenderData cfg s).1).textures = none ∧
    ((createRenderData cfg s).2.renderDataList (createRenderData cfg s).1).transformTable = none ∧
    ((createRenderData cfg s).2.renderDataList (createRenderData cfg s).1).transformCount = 0 ∧
    ((createRenderData cfg s).2.renderDataList (createRenderData cfg s).1).stateRGBA = 0 ∧
    ((createRenderData cfg s).2.renderDataList (createRenderData cfg s).1).vertexBuffer
      = cfg.invalidHandle ∧
    ((createRenderData cfg s).2.renderDataList (createRenderData cfg s).1).indexBuffer
      = cfg.invalidHandle ∧
    ((createRenderData cfg s).2.renderDataList (createRenderData cfg s).1).dynamicVertexBuffer
      = cfg.invalidHandle ∧
    ((createRenderData cfg s).2.renderDataList (createRenderData cfg s).1).dynamicIndexBuffer
      = cfg.invalidHandle ∧
    ((createRenderData cfg s).2.renderDataList (createRenderData cfg s).1).shader
      = cfg.invalidHandle ∧
    ((createRenderData cfg s).2.renderDataList (createRenderData cfg s).1).state
      = cfg.BGFX_STATE_RGB_WRITE ||| cfg.BGFX_STATE_ALPHA_WRITE |||
        cfg.BGFX_STATE_DEPTH_TEST_LESS ||| cfg.BGFX_STATE_DEPTH_WRITE |||
        cfg.BGFX_STATE_CULL_CW := by
  have key : (createRenderData cfg s).2.renderDataList (createRenderData cfg s).1
      = resetValues cfg := by
    unfold createRenderData
    cases scanDeleted cfg s 0 s.renderDataCount <;> simp [writeSlot]
  simp [isDeleted, key, resetValues]

theorem tombstone_renderDataCount (cfg : Config) (s : State) (i : Nat) :
    (tombstone cfg s i).renderDataCount = s.renderDataCount := rfl

theorem createRenderData_within (cfg : Config) (s : State)
    (hcount : s.renderDataCount ≤ cfg.TORQUE_MAX_RENDER_DATA)
    (hroom : ¬ poolExhausted cfg s) :
    (createRenderData cfg s).2.renderDataCount ≤ cfg.TORQUE_MAX_RENDER_DATA ∧
      (createRenderData cfg s).1 < cfg.TORQUE_MAX_RENDER_DATA := by
  cases hm : scanDeleted cfg s 0 s.renderDataCount with
  | some m =>
    obtain ⟨-, h2, -, -⟩ := scanDeleted_some cfg s _ _ _ hm
    simp only [createRenderData, hm]
    exact ⟨hcount, by omega⟩
  | none =>
    have hlt : s.renderDataCount < cfg.TORQUE_MAX_RENDER_DATA := by
      rcases Nat.lt_or_ge s.renderDataCount cfg.TORQUE_MAX_RENDER_DATA with h | h
      · exact h
      · exact absurd ⟨hm, Nat.le_antisymm hcount h⟩ hroom
    simp only [createRenderData, hm]
    exact ⟨le_trans (Nat.mod_le _ _) hlt, hlt⟩

theorem poolRun_within (cfg : Config) :
    ∀ (ops : List PoolOp) (s : State),
      s.renderDataCount ≤ cfg.TORQUE_MAX_RENDER_DATA → neverExhausted cfg s ops →
      (poolRun cfg s ops).1.renderDataCount ≤ cfg.TORQUE_MAX_RENDER_DATA ∧
        ∀ i ∈ (poolRun cfg s ops).2, i < cfg.TORQUE_MAX_RENDER_DATA := by
  intro ops
  induction ops with
  | nil => intro s h _; exact ⟨h, by simp [poolRun]⟩
  | cons op ops ih =>
    intro s hcount hsafe
    cases op with
    | create =>
      obtain ⟨hroom, hrest⟩ := hsafe
      obtain ⟨h1, h2⟩ := createRenderData_within cfg s hcount hroom
      obtain ⟨h3, h4⟩ := ih (createRenderData cfg s).2 h1 hrest
      refine ⟨h3, ?_⟩
      intro i hi
      simp only [poolRun, poolStep, List.singleton_append, List.mem_cons] at hi
      rcases hi with rfl | hi
      · exact h2
      · exact h4 i hi
    | tombstone j =>
      have hrest : neverExhausted cfg (tombstone cfg s j) ops := hsafe
      obtain ⟨h3, h4⟩ := ih (tombstone cfg s j) hcount hrest
      exact ⟨h3, fun i hi => h4 i (by simpa [poolRun, poolStep] using hi)⟩

theorem neverExhausted_take (cfg : Config) :
    ∀ (ops : List PoolOp) (s : State) (k : Nat),
      neverExhausted cfg s ops → neverExhausted cfg s (ops.take k) := by
  intro ops
  induction ops with
  | nil => intro s k h; simpa using h
  | cons op ops ih =>
    intro s k h
    cases k with
    | zero => simp [neverExhausted]
    | succ k =>
      cases op with
      | create => exact ⟨h.1, ih _ k h.2⟩
      | tombstone j => exact ih _ k h

/-- C2 (as amended): starting from `init()`, along every sequence of
`createRenderData` calls and tombstonings in which no `createRenderData` call
is made on an exhausted pool, `renderDataCount` never exceeds
`TORQUE_MAX_RENDER_DATA` (after every prefix of the sequence) and every
returned slot index is below that capacity. -/
theorem pool_within_capacity (cfg : Config) (fresh : Nat → RenderData) (ops : List PoolOp)
    (hsafe : neverExhausted cfg (init startup fresh) ops) :
    (∀ k, (poolRun cfg (init startup fresh) (ops.take k)).1.renderDataCount
        ≤ cfg.TORQUE_MAX_RENDER_DATA) ∧
      ∀ i ∈ (poolRun cfg (init startup fresh) ops).2, i < cfg.TORQUE_MAX_RENDER_DATA :=
  ⟨fun k => (poolRun_within cfg (ops.take k) (init startup fresh) (Nat.zero_le _)
      (neverExhausted_take cfg ops _ k hsafe)).1,
    (poolRun_within cfg ops (init startup fresh) (Nat.zero_le _) hsafe).2⟩

/-- Witness for C2 (as amended): with two slots, create, create, tombstone
slot 0, create never meets an exhausted pool. -/
theorem pool_within_capacity_witness :
    (∀ k, (poolRun sampleConfig (init startup (fun _ => default))
        (([PoolOp.create, PoolOp.create, PoolOp.tombstone 0, PoolOp.create]).take k)).1.renderDataCount
        ≤ sampleConfig.TORQUE_MAX_RENDER_DATA) ∧
      ∀ i ∈ (poolRun sampleConfig (init startup (fun _ => default))
        [PoolOp.create, PoolOp.create, PoolOp.tombstone 0, PoolOp.create]).2,
        i < sampleConfig.TORQUE_MAX_RENDER_DATA :=
  pool_within_capacity sampleConfig (fun _ => default)
    [PoolOp.create, PoolOp.create, PoolOp.tombstone 0, PoolOp.create]
    ⟨fun h => absurd h.2 (by decide), fun h => absurd h.2 (by decide),
      fun h => absurd h.1 (by decide), trivial⟩

/-- C2 fails as stated: with a capacity of two slots, three `createRenderData`
calls after `init()` return the slots 0, 1 and 2 and leave `renderDataCount`
at three; the third call, made with `renderDataCount` equal to the capacity
and nothing tombstoned, returns a slot instead of failing. -/
theorem createRenderData_past_capacity :
    sampleConfig.TORQUE_MAX_RENDER_DATA = 2 ∧
    (poolRun sampleConfig (init startup (fun _ => default))
      [PoolOp.create, PoolOp.create]).1.renderDataCount = 2 ∧
    scanDeleted sampleConfig (poolRun sampleConfig (init startup (fun _ => default))
      [PoolOp.create, PoolOp.create]).1 0 2 = none ∧
    (poolRun sampleConfig (init startup (fun _ => default))
      [PoolOp.create, PoolOp.create, PoolOp.create]).2 = [0, 1, 2] ∧
    (poolRun sampleConfig (init startup (fun _ => default))
      [PoolOp.create, PoolOp.create, PoolOp.create]).1.renderDataCount = 3 ∧
    ¬ ((poolRun sampleConfig (init startup (fun _ => default))
      [PoolOp.create, PoolOp.create, PoolOp.create]).1.renderDataCount
        ≤ sampleConfig.TORQUE_MAX_RENDER_DATA) := by
  refine ⟨rfl, ?_, ?_, ?_, ?_, ?_⟩ <;> decide

/-! ## Render cameras -/

theorem firstCamera_none (p : RenderCamera → Bool) :
    ∀ l : List RenderCamera, firstCamera p l = none ↔ ∀ c ∈ l, p c = false := by
  intro l
  induction l with
  | nil => simp [firstCamera]
  | cons c cs ih =>
    unfold firstCamera
    by_cases hp : p c = true
    · simp [hp]
    · simp [hp, ih]

theorem firstCamera_split (p : RenderCamera → Bool) (f : RenderCamera → RenderCamera) :
    ∀ (l : List RenderCamera) (c : RenderCamera), firstCamera p l = some c →
      ∃ pre post, l = pre ++ c :: post ∧ (∀ x ∈ pre, p x = false) ∧ p c = true ∧
        updateFirstCamera p f l = pre ++ f c :: post ∧
        eraseFirstCamera p l = pre ++ post := by
  intro l
  induction l with
  | nil => intro c h; simp [firstCamera] at h
  | cons a as ih =>
    intro c h
    unfold firstCamera at h
    by_cases hp : p a = true
    · rw [if_pos hp] at h
      obtain rfl : a = c := Option.some.inj h
      exact ⟨[], as, rfl, by simp, hp, by simp [updateFirstCamera, hp],
        by simp [eraseFirstCamera, hp]⟩
    · rw [if_neg hp] at h
      obtain ⟨pre, post, h1, h2, h3, h4, h5⟩ := ih c h
      refine ⟨a :: pre, post, by simp [h1], ?_, h3, ?_, ?_⟩
      · intro x hx
        rcases List.mem_cons.1 hx with rfl | hx
        · simpa using hp
        · exact h2 x hx
      · simp [updateFirstCamera, hp, h4]
      · simp [eraseFirstCamera, hp, h5]

theorem firstCamera_append (p : RenderCamera → Bool) (c : RenderCamera) (post : List RenderCamera) :
    ∀ pre : List RenderCamera, (∀ x ∈ pre, p x = false) → p c = true →
      firstCamera p (pre ++ c :: post) = some c := by
  intro pre
  induction pre with
  | nil => intro _ hc; simp [firstCamera, hc]
  | cons a as ih =>
    intro h hc
    have ha : p a = false := h a (List.mem_cons_self _ _)
    simp only [List.cons_append, firstCamera, ha]
    exact ih (fun x hx => h x (List.mem_cons_of_mem _ hx)) hc

theorem firstCamera_of_mem (p : RenderCamera → Bool) (l : List RenderCamera)
    (h : ∃ c ∈ l, p c = true) : ∃ c, firstCamera p l = some c := by
  cases hf : firstCamera p l with
  | some c => exact ⟨c, rfl⟩
  | none =>
    obtain ⟨c, hc, hpc⟩ := h
    have := (firstCamera_none p l).1 hf c hc
    simp [hpc] at this

/-- C4: when a camera named `name` is registered, `createRenderCamera` returns
the first such instance with its reference count raised by exactly one, the
registry keeps its length and every other entry, and nothing is constructed;
when none is registered, one camera with that name and reference count one is
appended, and `getRenderCamera(name)` then returns it. -/
theorem createRenderCamera_acquire (s : State) (name renderingPath ptr : Nat) (priority : Int) :
    ((∃ c ∈ s.renderCameraList, c.name = name) →
      ∃ pre camera post,
        s.renderCameraList = pre ++ camera :: post ∧
        (∀ x ∈ pre, x.name ≠ name) ∧ camera.name = name ∧
        getRenderCamera s name = some camera ∧
        (createRenderCamera s name renderingPath ptr priority).1
          = { camera with refCount := camera.refCount + 1 } ∧
        (createRenderCamera s name renderingPath ptr priority).1.ptr = camera.ptr ∧
        (createRenderCamera s name renderingPath ptr priority).2.renderCameraList
          = pre ++ { camera with refCount := camera.refCount + 1 } :: post ∧
        (createRenderCamera s name renderingPath ptr priority).2.renderCameraList.length
          = s.renderCameraList.length ∧
        (createRenderCamera s name renderingPath ptr priority).2.calls = s.calls) ∧
    ((∀ c ∈ s.renderCameraList, c.name ≠ name) →
      (createRenderCamera s name renderingPath ptr priority).2.renderCameraList
        = s.renderCameraList ++ [(createRenderCamera s name renderingPath ptr priority).1] ∧
      (createRenderCamera s name renderingPath ptr priority).1.name = name ∧
      (createRenderCamera s name renderingPath ptr priority).1.refCount = 1 ∧
      (createRenderCamera s name renderingPath ptr priority).1.ptr = ptr ∧
      (createRenderCamera s name renderingPath ptr priority).1.renderingPath = renderingPath ∧
      getRenderCamera (createRenderCamera s name renderingPath ptr priority).2 name
        = some (createRenderCamera s name renderingPath ptr priority).1) := by
  constructor
  · intro hreg
    obtain ⟨camera, hfind⟩ := firstCamera_of_mem (fun c => c.name == name) s.renderCameraList
      (by obtain ⟨c, hc, hn⟩ := hreg; exact ⟨c, hc, by simp [hn]⟩)
    obtain ⟨pre, post, h1, h2, h3, h4, -⟩ :=
      firstCamera_split (fun c => c.name == name)
        (fun c => { c with refCount := c.refCount + 1 }) _ _ hfind
    refine ⟨pre, camera, post, h1, ?_, by simpa using h3, hfind, ?_, ?_, ?_, ?_, ?_⟩
    · intro x hx; simpa using h2 x hx
    · simp [createRenderCamera, getRenderCamera, hfind]
    · simp [createRenderCamera, getRenderCamera, hfind]
    · simp [createRenderCamera, getRenderCamera, hfind, h4]
    · have hl : (createRenderCamera s name renderingPath ptr priority).2.renderCameraList
          = pre ++ { camera with refCount := camera.refCount + 1 } :: post := by
        simp [createRenderCamera, getRenderCamera, hfind, h4]
      rw [hl, h1]; simp
    · simp [createRenderCamera, getRenderCamera, hfind]
  · intro hnone
    have hfind : firstCamera (fun c => c.name == name) s.renderCameraList = none :=
      (firstCamera_none _ _).2 (fun c hc => by simpa using hnone c hc)
    refine ⟨?_, ?_, ?_, ?_, ?_, ?_⟩
    · simp [createRenderCamera, getRenderCamera, hfind]
    · simp [createRenderCamera, getRenderCamera, hfind]
    · simp [createRenderCamera, getRenderCamera, hfind, newRenderCamera]
    · simp [createRenderCamera, getRenderCamera, hfind, newRenderCamera]
    · simp [createRenderCamera, getRenderCamera, hfind, newRenderCamera]
    · simp only [createRenderCamera, getRenderCamera, hfind]
      exact firstCamera_append _ _ [] _ (fun x hx => by simpa using hnone x hx) (by simp)

/-- Witness for C4: a registry holding cameras named 7 and 8; acquiring 8
raises its count, acquiring 9 registers a new camera. -/
theorem createRenderCamera_acquire_witness :
    (∃ camera, getRenderCamera (sampleCameras [⟨100, 7, 1, 0, 0⟩, ⟨101, 8, 1, 5, 0⟩]) 8 = some camera ∧
      (createRenderCamera (sampleCameras [⟨100, 7, 1, 0, 0⟩, ⟨101, 8, 1, 5, 0⟩]) 8 0 102 0).1
        = { camera with refCount := camera.refCount + 1 }) ∧
    getRenderCamera
        (createRenderCamera (sampleCameras [⟨100, 7, 1, 0, 0⟩, ⟨101, 8, 1, 5, 0⟩]) 9 3 102 0).2 9
      = some (createRenderCamera (sampleCameras [⟨100, 7, 1, 0, 0⟩, ⟨101, 8, 1, 5, 0⟩]) 9 3 102 0).1 := by
  constructor
  · obtain ⟨pre, camera, post, -, -, -, h4, h5, -⟩ :=
      (createRenderCamera_acquire (sampleCameras [⟨100, 7, 1, 0, 0⟩, ⟨101, 8, 1, 5, 0⟩]) 8 0 102 0).1
        ⟨⟨101, 8, 1, 5, 0⟩, by decide, rfl⟩
    exact ⟨camera, h4, h5⟩
  · exact ((createRenderCamera_acquire (sampleCameras [⟨100, 7, 1, 0, 0⟩, ⟨101, 8, 1, 5, 0⟩])
      9 3 102 0).2 (by decide)).2.2.2.2.2

theorem firstCamera_tail (p : RenderCamera → Bool) (f : RenderCamera → RenderCamera)
    (c : RenderCamera) (hc : p c = true) :
    ∀ l : List RenderCamera, (∀ x ∈ l, p x = false) →
      firstCamera p (l ++ [c]) = some c ∧
      updateFirstCamera p f (l ++ [c]) = l ++ [f c] ∧
      eraseFirstCamera p (l ++ [c]) = l := by
  intro l
  induction l with
  | nil => intro _; simp [firstCamera, updateFirstCamera, eraseFirstCamera, hc]
  | cons a as ih =>
    intro h
    have ha : p a = false := h a (List.mem_cons_self _ _)
    obtain ⟨h1, h2, h3⟩ := ih (fun x hx => h x (List.mem_cons_of_mem _ hx))
    simp [firstCamera, updateFirstCamera, eraseFirstCamera, ha, h1, h2, h3]

theorem createRenderCamera_fresh (s : State) (name renderingPath ptr : Nat) (priority : Int)
    (hfresh : ∀ c ∈ s.renderCameraList, c.name ≠ name) :
    (createRenderCamera s name renderingPath ptr priority).2.renderCameraList
      = s.renderCameraList ++ [⟨ptr, name, 1, priority, renderingPath⟩] := by
  have hfind : firstCamera (fun c => c.name == name) s.renderCameraList = none :=
    (firstCamera_none _ _).2 (fun c hc => by simpa using hfresh c hc)
  simp [createRenderCamera, getRenderCamera, hfind, newRenderCamera]

theorem createRenderCamera_tail (s : State) (l : List RenderCamera)
    (name renderingPath ptr q path : Nat) (priority pr r : Int)
    (hl : s.renderCameraList = l ++ [⟨q, name, r, pr, path⟩])
    (hfresh : ∀ c ∈ l, c.name ≠ name) :
    (createRenderCamera s name renderingPath ptr priority).2.renderCameraList
      = l ++ [⟨q, name, r + 1, pr, path⟩] := by
  obtain ⟨h1, h2, -⟩ := firstCamera_tail (fun c => c.name == name)
    (fun c => { c with refCount := c.refCount + 1 }) ⟨q, name, r, pr, path⟩ (by simp) l
    (fun c hc => by simpa using hfresh c hc)
  simp [createRenderCamera, getRenderCamera, hl, h1, h2]

theorem createRenderCameraTimes_tail (l : List RenderCamera)
    (name renderingPath ptr q path : Nat) (priority pr : Int)
    (hfresh : ∀ c ∈ l, c.name ≠ name) :
    ∀ (n : Nat) (s : State) (r : Int), s.renderCameraList = l ++ [⟨q, name, r, pr, path⟩] →
      (createRenderCameraTimes name renderingPath ptr priority n s).renderCameraList
        = l ++ [⟨q, name, r + n, pr, path⟩] := by
  intro n
  induction n with
  | zero => intro s r hl; simpa [createRenderCameraTimes] using hl
  | succ n ih =>
    intro s r hl
    have h1 := createRenderCamera_tail s l name renderingPath ptr q path priority pr r hl hfresh
    have h2 := ih _ (r + 1) h1
    simp only [createRenderCameraTimes, h2]
    congr 3
    push_cast
    ring

theorem destroyRenderCamera_tail (s : State) (l : List RenderCamera)
    (name q path : Nat) (pr r : Int)
    (hl : s.renderCameraList = l ++ [⟨q, name, r, pr, path⟩])
    (hfresh : ∀ c ∈ l, c.name ≠ name) :
    (destroyRenderCamera_name s name).1 = true ∧
    (r - 1 < 1 → (destroyRenderCamera_name s name).2.renderCameraList = l) ∧
    (¬ r - 1 < 1 → (destroyRenderCamera_name s name).2.renderCameraList
      = l ++ [⟨q, name, r - 1, pr, path⟩]) := by
  obtain ⟨h1, h2, h3⟩ := firstCamera_tail (fun c => c.name == name)
    (fun c => { c with refCount := c.refCount - 1 }) ⟨q, name, r, pr, path⟩ (by simp) l
    (fun c hc => by simpa using hfresh c hc)
  by_cases hr : r - 1 < 1
  · simp [destroyRenderCamera_name, destroyFirstCamera, hl, h1, h3, hr]
  · simp [destroyRenderCamera_name, destroyFirstCamera, hl, h1, h2, hr]

theorem getRenderCamera_tail (s : State) (l : List RenderCamera) (c : RenderCamera)
    (hl : s.renderCameraList = l ++ [c]) (hfresh : ∀ x ∈ l, x.name ≠ c.name) :
    getRenderCamera s c.name = some c := by
  obtain ⟨h1, -, -⟩ := firstCamera_tail (fun x => x.name == c.name) id c (by simp) l
    (fun x hx => by simpa using hfresh x hx)
  simp [getRenderCamera, hl, h1]

theorem destroyRenderCameraTimes_tail (l : List RenderCamera)
    (name q path : Nat) (pr : Int) (hfresh : ∀ c ∈ l, c.name ≠ name) :
    ∀ (k : Nat) (s : State) (r : Int), s.renderCameraList = l ++ [⟨q, name, r, pr, path⟩] →
      ((k : Int) < r →
        (destroyRenderCameraTimes name k s).2 = List.replicate k true ∧
        (destroyRenderCameraTimes name k s).1.renderCameraList
          = l ++ [⟨q, name, r - k, pr, path⟩]) ∧
      (1 ≤ k → (k : Int) = r →
        (destroyRenderCameraTimes name k s).2 = List.replicate k true ∧
        (destroyRenderCameraTimes name k s).1.renderCameraList = l) := by
  intro k
  induction k with
  | zero =>
    intro s r hl
    refine ⟨fun _ => ?_, fun h => absurd h (by decide)⟩
    simpa [destroyRenderCameraTimes] using hl
  | succ k ih =>
    intro s r hl
    obtain ⟨h1, h2, h3⟩ := destroyRenderCamera_tail s l name q path pr r hl hfresh
    constructor
    · intro hk
      have hr : ¬ r - 1 < 1 := by push_cast at hk; omega
      obtain ⟨ih1, -⟩ := ih _ (r - 1) (h3 hr)
      obtain ⟨e1, e2⟩ := ih1 (by push_cast at hk; omega)
      simp only [destroyRenderCameraTimes, h1, e1, e2, List.replicate_succ, true_and]
      congr 3
      push_cast
      ring
    · intro _ hk
      rcases Nat.eq_zero_or_pos k with hk0 | hkpos
      · subst hk0
        have hr : r - 1 < 1 := by simp at hk; omega
        simp [destroyRenderCameraTimes, h1, h2 hr]
      · have hr : ¬ r - 1 < 1 := by push_cast at hk; omega
        obtain ⟨-, ih2⟩ := ih _ (r - 1) (h3 hr)
        obtain ⟨e1, e2⟩ := ih2 hkpos (by push_cast at hk; omega)
        simp only [destroyRenderCameraTimes, h1, e1, e2, List.replicate_succ, and_self]

/-- C5: for `n ≥ 1` and a name that is not registered, after `n` calls of
`createRenderCamera(name, path)` any `k < n` calls of `destroyRenderCamera(name)`
all return true and leave the camera registered, and `n` calls all return true
and leave the registry with exactly the contents it had before the first
create. -/
theorem createRenderCamera_destroy_balanced (s : State) (name renderingPath ptr : Nat)
    (priority : Int) (n : Nat) (hn : 1 ≤ n)
    (hfresh : ∀ c ∈ s.renderCameraList, c.name ≠ name) :
    (∀ k, k < n →
      (destroyRenderCameraTimes name k
        (createRenderCameraTimes name renderingPath ptr priority n s)).2
          = List.replicate k true ∧
      (getRenderCamera (destroyRenderCameraTimes name k
        (createRenderCameraTimes name renderingPath ptr priority n s)).1 name).isSome = true) ∧
    (destroyRenderCameraTimes name n
      (createRenderCameraTimes name renderingPath ptr priority n s)).2 = List.replicate n true ∧
    (destroyRenderCameraTimes name n
      (createRenderCameraTimes name renderingPath ptr priority n s)).1.renderCameraList
        = s.renderCameraList ∧
    getRenderCamera (destroyRenderCameraTimes name n
      (createRenderCameraTimes name renderingPath ptr priority n s)).1 name = none := by
  obtain ⟨m, rfl⟩ : ∃ m, n = m + 1 := ⟨n - 1, by omega⟩
  have hcreated : (createRenderCameraTimes name renderingPath ptr priority (m + 1) s).renderCameraList
      = s.renderCameraList ++ [⟨ptr, name, 1 + m, priority, renderingPath⟩] :=
    createRenderCameraTimes_tail s.renderCameraList name renderingPath ptr ptr renderingPath
      priority priority hfresh m _ 1 (createRenderCamera_fresh s name renderingPath ptr priority hfresh)
  have hd := fun k => destroyRenderCameraTimes_tail s.renderCameraList name ptr renderingPath
    priority hfresh k _ (1 + m) hcreated
  refine ⟨fun k hk => ?_, ?_, ?_, ?_⟩
  · obtain ⟨e1, e2⟩ := (hd k).1 (by omega)
    refine ⟨e1, ?_⟩
    have := getRenderCamera_tail _ s.renderCameraList
      ⟨ptr, name, 1 + m - k, priority, renderingPath⟩ e2 hfresh
    simp [this]
  · exact ((hd (m + 1)).2 (by omega) (by push_cast; ring)).1
  · exact ((hd (m + 1)).2 (by omega) (by push_cast; ring)).2
  · have e := ((hd (m + 1)).2 (by omega) (by push_cast; ring)).2
    unfold getRenderCamera
    rw [e]
    exact (firstCamera_none _ _).2 (fun c hc => by simpa using hfresh c hc)

/-- Witness for C5: two creates of camera 9 next to a registered camera 7,
then two destroys. -/
theorem createRenderCamera_destroy_balanced_witness :
    (destroyRenderCameraTimes 9 2
      (createRenderCameraTimes 9 3 102 0 2 (sampleCameras [⟨100, 7, 1, 0, 0⟩]))).1.renderCameraList
        = [⟨100, 7, 1, 0, 0⟩] ∧
    (destroyRenderCameraTimes 9 2
      (createRenderCameraTimes 9 3 102 0 2 (sampleCameras [⟨100, 7, 1, 0, 0⟩]))).2
        = [true, true] :=
  ⟨(createRenderCamera_destroy_balanced (sampleCameras [⟨100, 7, 1, 0, 0⟩]) 9 3 102 0 2
      (by decide) (by decide)).2.2.1,
    (createRenderCamera_destroy_balanced (sampleCameras [⟨100, 7, 1, 0, 0⟩]) 9 3 102 0 2
      (by decide) (by decide)).2.1⟩

/-! ### Sorting the camera registry -/

theorem dQsortInsert_perm {α : Type} (cmp : α → α → Int) (x : α) :
    ∀ l : List α, (dQsortInsert cmp x l).Perm (x :: l) := by
  intro l
  induction l with
  | nil => exact List.Perm.refl _
  | cons y ys ih =>
    unfold dQsortInsert
    by_cases h : cmp x y > 0
    · rw [if_pos h]
      exact (ih.cons y).trans (List.Perm.swap x y ys)
    · rw [if_neg h]

theorem dQsort_perm {α : Type} (cmp : α → α → Int) :
    ∀ l : List α, (dQsort cmp l).Perm l := by
  intro l
  induction l with
  | nil => exact List.Perm.refl _
  | cons x xs ih => exact (dQsortInsert_perm cmp x _).trans (ih.cons x)

theorem dQsort_length {α : Type} (cmp : α → α → Int) (l : List α) :
    (dQsort cmp l).length = l.length := (dQsort_perm cmp l).length_eq

theorem compareRenderCameraPriority_pos (a b : RenderCamera) :
    compareRenderCameraPriority a b > 0 ↔ a.priority > b.priority := by
  unfold compareRenderCameraPriority
  by_cases h : a.priority > b.priority <;> simp [h]

theorem dQsortInsert_sorted (x : RenderCamera) :
    ∀ l : List RenderCamera, l.Sorted (fun a b => a.priority ≤ b.priority) →
      (dQsortInsert compareRenderCameraPriority x l).Sorted
        (fun a b => a.priority ≤ b.priority) := by
  intro l
  induction l with
  | nil => intro _; simp [dQsortInsert]
  | cons y ys ih =>
    intro hs
    obtain ⟨hy, hys⟩ := List.sorted_cons.1 hs
    unfold dQsortInsert
    by_cases h : compareRenderCameraPriority x y > 0
    · rw [if_pos h]
      have hxy : x.priority > y.priority := (compareRenderCameraPriority_pos x y).1 h
      refine List.sorted_cons.2 ⟨fun b hb => ?_, ih hys⟩
      rcases List.mem_cons.1 ((dQsortInsert_perm _ x ys).mem_iff.1 hb) with rfl | hb
      · exact le_of_lt hxy
      · exact hy b hb
    · rw [if_neg h]
      have hxy : x.priority ≤ y.priority :=
        not_lt.1 (fun hlt => h ((compareRenderCameraPriority_pos x y).2 hlt))
      refine List.sorted_cons.2 ⟨fun b hb => ?_, hs⟩
      rcases List.mem_cons.1 hb with rfl | hb
      · exact hxy
      · exact le_trans hxy (hy b hb)

theorem dQsort_sorted :
    ∀ l : List RenderCamera,
      (dQsort compareRenderCameraPriority l).Sorted (fun a b => a.priority ≤ b.priority) := by
  intro l
  induction l with
  | nil => simp [dQsort]
  | cons x xs ih => exact dQsortInsert_sorted x _ ih

theorem sorted_getLast_max :
    ∀ (l : List RenderCamera) (c : RenderCamera),
      l.Sorted (fun a b => a.priority ≤ b.priority) → l.getLast? = some c →
      ∀ x ∈ l, x.priority ≤ c.priority := by
  intro l c hs hlast x hx
  obtain ⟨ys, rfl⟩ := List.getLast?_eq_some_iff.1 hlast
  rcases List.mem_append.1 hx with hx | hx
  · exact (List.pairwise_append.1 hs).2.2 x hx c (by simp)
  · obtain rfl : x = c := by simpa using hx
    exact le_rfl

theorem dQsortInsert_filter (v : Int) (x : RenderCamera) :
    ∀ l : List RenderCamera,
      (dQsortInsert compareRenderCameraPriority x l).filter (fun c => c.priority == v)
        = (x :: l).filter (fun c => c.priority == v) := by
  intro l
  induction l with
  | nil => simp [dQsortInsert]
  | cons y ys ih =>
    unfold dQsortInsert
    by_cases h : compareRenderCameraPriority x y > 0
    · rw [if_pos h]
      have hxy : x.priority > y.priority := (compareRenderCameraPriority_pos x y).1 h
      rw [List.filter_cons, ih]
      by_cases hx : x.priority = v
      · have hy : ¬ y.priority = v := by omega
        simp [List.filter_cons, hx, hy]
      · simp [List.filter_cons, hx]
    · rw [if_neg h]

theorem dQsort_filter (v : Int) :
    ∀ l : List RenderCamera,
      (dQsort compareRenderCameraPriority l).filter (fun c => c.priority == v)
        = l.filter (fun c => c.priority == v) := by
  intro l
  induction l with
  | nil => simp [dQsort]
  | cons x xs ih =>
    show (dQsortInsert compareRenderCameraPriority x (dQsort compareRenderCameraPriority xs)).filter
      (fun c => c.priority == v) = _
    rw [dQsortInsert_filter, List.filter_cons, List.filter_cons, ih]

theorem distinct_priority_of_ne :
    ∀ l : List RenderCamera, l.Pairwise (fun a b => a.priority ≠ b.priority) →
      ∀ x c, x ∈ l → c ∈ l → x ≠ c → x.priority ≠ c.priority := by
  intro l
  induction l with
  | nil => intro _ x c hx; simp at hx
  | cons a as ih =>
    intro hd x c hx hc hxc
    obtain ⟨ha, has⟩ := List.pairwise_cons.1 hd
    rcases List.mem_cons.1 hx with hxa | hxs <;> rcases List.mem_cons.1 hc with hca | hcs
    · exact absurd (hxa.trans hca.symm) hxc
    · rw [hxa]; exact ha c hcs
    · rw [hca]; exact fun h => ha x hxs h.symm
    · exact ih has x c hxs hcs hxc

/-- C6: `getPriorityRenderCamera` returns null exactly when the registry is
empty; on a non-empty registry with pairwise distinct priorities it returns a
registered camera whose priority is strictly greater than that of every other
registered camera; the registry afterwards is a rearrangement of the registry
before. -/
theorem getPriorityRenderCamera_greatest (s : State) :
    ((getPriorityRenderCamera s).1 = none ↔ s.renderCameraList = []) ∧
    (s.renderCameraList ≠ [] →
      s.renderCameraList.Pairwise (fun a b => a.priority ≠ b.priority) →
      ∃ c, (getPriorityRenderCamera s).1 = some c ∧ c ∈ s.renderCameraList ∧
        ∀ x ∈ s.renderCameraList, x ≠ c → x.priority < c.priority) ∧
    (getPriorityRenderCamera s).2.renderCameraList.Perm s.renderCameraList := by
  have hperm := dQsort_perm compareRenderCameraPriority s.renderCameraList
  have hlen := dQsort_length compareRenderCameraPriority s.renderCameraList
  by_cases hempty : s.renderCameraList = []
  · have h1 : getPriorityRenderCamera s = (none, s) := by
      simp [getPriorityRenderCamera, hempty]
    rw [h1]
    exact ⟨by simp [hempty], fun h => absurd hempty h, List.Perm.refl _⟩
  · have hpos : ¬ s.renderCameraList.length < 1 := by
      have := List.length_pos.2 hempty; omega
    have h1 : getPriorityRenderCamera s =
        ((dQsort compareRenderCameraPriority s.renderCameraList).getLast?,
          { s with renderCameraList := dQsort compareRenderCameraPriority s.renderCameraList }) := by
      simp [getPriorityRenderCamera, hpos, List.getLast?_eq_getElem?]
    have hne : dQsort compareRenderCameraPriority s.renderCameraList ≠ [] := by
      intro h; rw [h] at hlen; exact hempty (List.length_eq_zero.1 hlen.symm)
    obtain ⟨c, hc⟩ : ∃ c, (dQsort compareRenderCameraPriority s.renderCameraList).getLast? = some c :=
      ⟨_, List.getLast?_eq_getLast _ hne⟩
    rw [h1]
    refine ⟨by simp [hempty, hc], fun _ hdist => ?_, hperm⟩
    have hcm : c ∈ s.renderCameraList :=
      hperm.mem_iff.1 (List.mem_of_mem_getLast? hc)
    refine ⟨c, hc, hcm, fun x hx hxc => ?_⟩
    have hle : x.priority ≤ c.priority :=
      sorted_getLast_max _ c (dQsort_sorted _) hc x (hperm.mem_iff.2 hx)
    have hneq : x.priority ≠ c.priority := distinct_priority_of_ne _ hdist x c hx hcm hxc
    exact lt_of_le_of_ne hle hneq

/-- Witness for C6: three cameras with priorities 5, 2 and 3; the one with
priority 5 is returned. -/
theorem getPriorityRenderCamera_greatest_witness :
    (getPriorityRenderCamera
      (sampleCameras [⟨100, 7, 1, 5, 0⟩, ⟨101, 8, 1, 2, 0⟩, ⟨102, 9, 1, 3, 0⟩])).1
        = some ⟨100, 7, 1, 5, 0⟩ ∧
    ∃ c, (getPriorityRenderCamera
        (sampleCameras [⟨100, 7, 1, 5, 0⟩, ⟨101, 8, 1, 2, 0⟩, ⟨102, 9, 1, 3, 0⟩])).1 = some c ∧
      c ∈ (sampleCameras [⟨100, 7, 1, 5, 0⟩, ⟨101, 8, 1, 2, 0⟩, ⟨102, 9, 1, 3, 0⟩]).renderCameraList ∧
      ∀ x ∈ (sampleCameras
          [⟨100, 7, 1, 5, 0⟩, ⟨101, 8, 1, 2, 0⟩, ⟨102, 9, 1, 3, 0⟩]).renderCameraList,
        x ≠ c → x.priority < c.priority :=
  ⟨by decide,
    (getPriorityRenderCamera_greatest
      (sampleCameras [⟨100, 7, 1, 5, 0⟩, ⟨101, 8, 1, 2, 0⟩, ⟨102, 9, 1, 3, 0⟩])).2.1
      (by decide) (by decide)⟩

theorem renderedCameras_append (xs ys : List Call) :
    renderedCameras (xs ++ ys) = renderedCameras xs ++ renderedCameras ys := by
  induction xs with
  | nil => rfl
  | cons c cs ih => cases c <;> simp [renderedCameras, ih]

theorem renderedCameras_beginFrame (hooks : List Nat) :
    renderedCameras (hooks.map Call.beginFrame) = [] := by
  induction hooks with
  | nil => rfl
  | cons h hs ih => simpa [renderedCameras] using ih

theorem renderedCameras_endFrame (hooks : List Nat) :
    renderedCameras (hooks.map Call.endFrame) = [] := by
  induction hooks with
  | nil => rfl
  | cons h hs ih => simpa [renderedCameras] using ih

theorem renderedCameras_cameraRender (cameras : List RenderCamera) :
    renderedCameras (cameras.map Call.cameraRender) = cameras := by
  induction cameras with
  | nil => rfl
  | cons c cs ih => simp [renderedCameras, ih]

theorem render_renderCameraList (s : State) :
    (render s false).renderCameraList = dQsort compareRenderCameraPriority s.renderCameraList := by
  simp [render]

theorem getPriorityRenderCamera_renderCameraList (s : State) :
    (getPriorityRenderCamera s).2.renderCameraList
      = dQsort compareRenderCameraPriority s.renderCameraList := by
  unfold getPriorityRenderCamera
  by_cases h : s.renderCameraList.length < 1
  · have : s.renderCameraList = [] := List.length_eq_zero.1 (by omega)
    simp [this, dQsort]
  · simp [h]

/-- C7: when preprocessing is not active, the camera render steps that
`render()` invokes are exactly the registry as the sort leaves it, in that
order, which is a rearrangement of the registered cameras in non-decreasing
order of render priority. -/
theorem render_cameras_ascending (s : State) :
    renderedCameras ((render s false).calls.drop s.calls.length)
      = (render s false).renderCameraList ∧
    (render s false).renderCameraList.Sorted (fun a b => a.priority ≤ b.priority) ∧
    (render s false).renderCameraList.Perm s.renderCameraList := by
  refine ⟨?_, ?_, ?_⟩
  · have hcalls : (render s false).calls
        = s.calls ++ ([Call.resetViews] ++ s.renderHookList.map Call.beginFrame
          ++ (dQsort compareRenderCameraPriority s.renderCameraList).map Call.cameraRender
          ++ s.renderHookList.map Call.endFrame) := by
      simp [render]
    rw [hcalls, List.drop_left, render_renderCameraList]
    simp [renderedCameras_append, renderedCameras_beginFrame, renderedCameras_endFrame,
      renderedCameras_cameraRender, renderedCameras]
  · rw [render_renderCameraList]; exact dQsort_sorted _
  · rw [render_renderCameraList]; exact dQsort_perm _ _

/-- C8 fails as stated: a registry holding a camera of priority 1 followed by
a camera of priority 2 is left in that order by `render()` and by
`getPriorityRenderCamera()`, which is not descending. -/
theorem camera_sort_not_descending :
    (render (sampleCameras [⟨100, 7, 1, 1, 0⟩, ⟨101, 8, 1, 2, 0⟩]) false).renderCameraList
      = [⟨100, 7, 1, 1, 0⟩, ⟨101, 8, 1, 2, 0⟩] ∧
    (getPriorityRenderCamera
      (sampleCameras [⟨100, 7, 1, 1, 0⟩, ⟨101, 8, 1, 2, 0⟩])).2.renderCameraList
      = [⟨100, 7, 1, 1, 0⟩, ⟨101, 8, 1, 2, 0⟩] ∧
    ¬ (render (sampleCameras [⟨100, 7, 1, 1, 0⟩, ⟨101, 8, 1, 2, 0⟩]) false).renderCameraList.Sorted
      (fun a b => a.priority ≥ b.priority) ∧
    ¬ (getPriorityRenderCamera
      (sampleCameras [⟨100, 7, 1, 1, 0⟩, ⟨101, 8, 1, 2, 0⟩])).2.renderCameraList.Sorted
      (fun a b => a.priority ≥ b.priority) := by
  refine ⟨?_, ?_, ?_, ?_⟩ <;> decide

/-- C8 (as amended): the sort performed by `render()` and by
`getPriorityRenderCamera()` leaves the registry ordered by ascending
(non-decreasing) render priority, and for every priority value the cameras of
that priority are in the order they had in the registry before. -/
theorem camera_sort_ascending_stable (s : State) :
    (render s false).renderCameraList.Sorted (fun a b => a.priority ≤ b.priority) ∧
    (getPriorityRenderCamera s).2.renderCameraList.Sorted (fun a b => a.priority ≤ b.priority) ∧
    (∀ v : Int,
      (render s false).renderCameraList.filter (fun c => c.priority == v)
        = s.renderCameraList.filter (fun c => c.priority == v)) ∧
    (∀ v : Int,
      (getPriorityRenderCamera s).2.renderCameraList.filter (fun c => c.priority == v)
        = s.renderCameraList.filter (fun c => c.priority == v)) := by
  rw [render_renderCameraList, getPriorityRenderCamera_renderCameraList]
  exact ⟨dQsort_sorted _, dQsort_sorted _, fun v => dQsort_filter v _, fun v => dQsort_filter v _⟩

/-! ## Render textures -/

theorem getRenderTexture_of_mem (s : State) (name : Nat)
    (h : ∃ rt ∈ s.renderTextureList, rt.name = name) :
    ∃ rt, getRenderTexture s name = some rt ∧ rt ∈ s.renderTextureList ∧ rt.name = name := by
  cases hf : getRenderTexture s name with
  | none =>
    obtain ⟨rt, hrt, hn⟩ := h
    have := List.find?_eq_none.1 hf rt hrt
    simp [hn] at this
  | some rt =>
    refine ⟨rt, rfl, List.mem_of_find?_eq_some hf, ?_⟩
    simpa using List.find?_some hf

theorem createRenderTexture_of_found (s : State) (rt : RenderTexture)
    (name width height ratio ptr handle : Nat) (hf : getRenderTexture s name = some rt) :
    createRenderTexture_size s name width height ptr handle = (rt, s) ∧
      createRenderTexture_ratio s name ratio ptr handle = (rt, s) := by
  simp [createRenderTexture_size, createRenderTexture_ratio, hf]

theorem getRenderTexture_append_fresh (s : State) (rt : RenderTexture) (calls : List Call)
    (hfresh : getRenderTexture s rt.name = none) :
    getRenderTexture
      { s with renderTextureList := s.renderTextureList ++ [rt], calls := calls } rt.name
      = some rt := by
  have hnone : ∀ x ∈ s.renderTextureList, ¬ (x.name == rt.name) = true :=
    List.find?_eq_none.1 hfresh
  simp only [getRenderTexture]
  rw [List.find?_append, List.find?_eq_none.2 hnone]
  simp

theorem getRenderTexture_createRenderTexture_size (s : State)
    (name width height ptr handle : Nat) :
    getRenderTexture (createRenderTexture_size s name width height ptr handle).2 name
      = some (createRenderTexture_size s name width height ptr handle).1 := by
  cases hf : getRenderTexture s name with
  | some rt => simp [createRenderTexture_size, hf]
  | none =>
    simp only [createRenderTexture_size, hf]
    exact getRenderTexture_append_fresh s ⟨ptr, name, handle, width, height⟩ _ hf

theorem getRenderTexture_createRenderTexture_ratio (s : State)
    (name ratio ptr handle : Nat) :
    getRenderTexture (createRenderTexture_ratio s name ratio ptr handle).2 name
      = some (createRenderTexture_ratio s name ratio ptr handle).1 := by
  cases hf : getRenderTexture s name with
  | some rt => simp [createRenderTexture_ratio, hf]
  | none =>
    simp only [createRenderTexture_ratio, hf]
    exact getRenderTexture_append_fresh s ⟨ptr, name, handle, s.windowWidth, s.windowHeight⟩ _ hf

/-- C9: when a texture named `name` is registered, both `createRenderTexture`
overloads return that registered instance as it is (same handle, width and
height, whatever size is asked for) and leave the whole state, hence the
registry and the backend call trace, unchanged; and for any state, a second
create with the same name, through either overload, returns the instance of
the first and changes nothing, so that two creates of a name that was not
registered issue exactly one backend creation call. -/
theorem createRenderTexture_idempotent (s : State)
    (name width height ratio ptr handle width2 height2 ratio2 ptr2 handle2 : Nat) :
    ((∃ rt ∈ s.renderTextureList, rt.name = name) →
      ∃ rt, rt ∈ s.renderTextureList ∧ rt.name = name ∧ getRenderTexture s name = some rt ∧
        createRenderTexture_size s name width height ptr handle = (rt, s) ∧
        createRenderTexture_ratio s name ratio ptr handle = (rt, s)) ∧
    (createRenderTexture_size (createRenderTexture_size s name width height ptr handle).2
        name width2 height2 ptr2 handle2
      = createRenderTexture_size s name width height ptr handle ∧
    createRenderTexture_ratio (createRenderTexture_size s name width height ptr handle).2
        name ratio2 ptr2 handle2
      = createRenderTexture_size s name width height ptr handle ∧
    createRenderTexture_size (createRenderTexture_ratio s name ratio ptr handle).2
        name width2 height2 ptr2 handle2
      = createRenderTexture_ratio s name ratio ptr handle ∧
    createRenderTexture_ratio (createRenderTexture_ratio s name ratio ptr handle).2
        name ratio2 ptr2 handle2
      = createRenderTexture_ratio s name ratio ptr handle) ∧
    ((∀ rt ∈ s.renderTextureList, rt.name ≠ name) →
      textureCreations
        ((createRenderTexture_size (createRenderTexture_size s name width height ptr handle).2
          name width2 height2 ptr2 handle2).2.calls.drop s.calls.length)
        = [Call.createTexture2D width height] ∧
      textureCreations
        ((createRenderTexture_ratio (createRenderTexture_ratio s name ratio ptr handle).2
          name ratio2 ptr2 handle2).2.calls.drop s.calls.length)
        = [Call.createTexture2DRatio ratio]) := by
  have hss := (createRenderTexture_of_found _ _ name width2 height2 ratio2 ptr2 handle2
    (getRenderTexture_createRenderTexture_size s name width height ptr handle))
  have hrr := (createRenderTexture_of_found _ _ name width2 height2 ratio2 ptr2 handle2
    (getRenderTexture_createRenderTexture_ratio s name ratio ptr handle))
  refine ⟨fun hreg => ?_, ⟨hss.1, hss.2, hrr.1, hrr.2⟩, fun hfresh => ?_⟩
  · obtain ⟨rt, hf, hm, hn⟩ := getRenderTexture_of_mem s name hreg
    exact ⟨rt, hm, hn, hf, createRenderTexture_of_found s rt name width height ratio ptr handle hf⟩
  · have hf : getRenderTexture s name = none :=
      List.find?_eq_none.2 (fun x hx => by simpa using hfresh x hx)
    rw [hss.1, hrr.2]
    simp [createRenderTexture_size, createRenderTexture_ratio, hf, textureCreations]

/-- Witness for C9: a registry holding textures named 7 and 8; creating 8
again with another size returns the stored one, creating 9 twice allocates
once. -/
theorem createRenderTexture_idempotent_witness :
    (∃ rt, rt ∈ (sampleTextures [⟨200, 7, 1, 64, 64⟩, ⟨201, 8, 2, 32, 32⟩]).renderTextureList ∧
      rt.name = 8 ∧
      getRenderTexture (sampleTextures [⟨200, 7, 1, 64, 64⟩, ⟨201, 8, 2, 32, 32⟩]) 8 = some rt ∧
      createRenderTexture_size (sampleTextures [⟨200, 7, 1, 64, 64⟩, ⟨201, 8, 2, 32, 32⟩])
        8 128 128 202 3
        = (rt, sampleTextures [⟨200, 7, 1, 64, 64⟩, ⟨201, 8, 2, 32, 32⟩]) ∧
      createRenderTexture_ratio (sampleTextures [⟨200, 7, 1, 64, 64⟩, ⟨201, 8, 2, 32, 32⟩])
        8 1 202 3
        = (rt, sampleTextures [⟨200, 7, 1, 64, 64⟩, ⟨201, 8, 2, 32, 32⟩])) ∧
    textureCreations
      ((createRenderTexture_size
        (createRenderTexture_size (sampleTextures [⟨200, 7, 1, 64, 64⟩, ⟨201, 8, 2, 32, 32⟩])
          9 128 128 202 3).2 9 16 16 203 4).2.calls.drop
        (sampleTextures [⟨200, 7, 1, 64, 64⟩, ⟨201, 8, 2, 32, 32⟩]).calls.length)
      = [Call.createTexture2D 128 128] :=
  ⟨(createRenderTexture_idempotent (sampleTextures [⟨200, 7, 1, 64, 64⟩, ⟨201, 8, 2, 32, 32⟩])
      8 128 128 1 202 3 16 16 2 203 4).1 ⟨⟨201, 8, 2, 32, 32⟩, by decide, rfl⟩,
    ((createRenderTexture_idempotent (sampleTextures [⟨200, 7, 1, 64, 64⟩, ⟨201, 8, 2, 32, 32⟩])
      9 128 128 1 202 3 16 16 2 203 4).2.2 (by decide)).1⟩

theorem createRenderTexture_size_names (s : State) (name width height ptr handle : Nat)
    (hnodup : (s.renderTextureList.map (fun rt => rt.name)).Nodup) :
    ((createRenderTexture_size s name width height ptr handle).2.renderTextureList.map
      (fun rt => rt.name)).Nodup := by
  cases hf : getRenderTexture s name with
  | some rt => simpa [createRenderTexture_size, hf] using hnodup
  | none =>
    have hnone : ∀ x ∈ s.renderTextureList, ¬ (x.name == name) = true :=
      List.find?_eq_none.1 hf
    simp only [createRenderTexture_size, hf, List.map_append, List.map_cons, List.map_nil]
    refine List.Nodup.append hnodup (List.nodup_singleton _) ?_
    intro a ha hb
    obtain rfl : a = name := by simpa using hb
    obtain ⟨x, hx, hxa⟩ := List.mem_map.1 ha
    exact hnone x hx (by simpa using hxa)

theorem createRenderTexture_ratio_names (s : State) (name ratio ptr handle : Nat)
    (hnodup : (s.renderTextureList.map (fun rt => rt.name)).Nodup) :
    ((createRenderTexture_ratio s name ratio ptr handle).2.renderTextureList.map
      (fun rt => rt.name)).Nodup := by
  cases hf : getRenderTexture s name with
  | some rt => simpa [createRenderTexture_ratio, hf] using hnodup
  | none =>
    have hnone : ∀ x ∈ s.renderTextureList, ¬ (x.name == name) = true :=
      List.find?_eq_none.1 hf
    simp only [createRenderTexture_ratio, hf, List.map_append, List.map_cons, List.map_nil]
    refine List.Nodup.append hnodup (List.nodup_singleton _) ?_
    intro a ha hb
    obtain rfl : a = name := by simpa using hb
    obtain ⟨x, hx, hxa⟩ := List.mem_map.1 ha
    exact hnone x hx (by simpa using hxa)

theorem destroyRenderTexture_names (s : State) (name : Nat)
    (hnodup : (s.renderTextureList.map (fun rt => rt.name)).Nodup) :
    ((destroyRenderTexture s name).2.renderTextureList.map (fun rt => rt.name)).Nodup := by
  unfold destroyRenderTexture
  cases hf : s.renderTextureList.find? (fun rt => rt.name == name) with
  | some rt => exact hnodup.sublist ((List.eraseP_sublist _).map _)
  | none => exact hnodup

theorem textureReachable_names (s : State) (h : TextureReachable s) :
    (s.renderTextureList.map (fun rt => rt.name)).Nodup := by
  induction h with
  | empty s h0 => simp [h0]
  | create_ratio s name ratio ptr handle _ ih =>
    exact createRenderTexture_ratio_names s name ratio ptr handle ih
  | create_size s name width height ptr handle _ ih =>
    exact createRenderTexture_size_names s name width height ptr handle ih
  | destroy s name _ ih => exact destroyRenderTexture_names s name ih

/-- C10: in every reachable texture registry state, `destroyRenderTexture(name)`
returns true exactly when a texture with that name is registered; when it
returns true that one entry is removed, the other entries stay in their order,
no entry named `name` is left and `getRenderTexture(name)` returns null; when
it returns false the state is unchanged. -/
theorem destroyRenderTexture_found (s : State) (name : Nat) (hreach : TextureReachable s) :
    ((destroyRenderTexture s name).1 = true ↔ ∃ rt ∈ s.renderTextureList, rt.name = name) ∧
    ((destroyRenderTexture s name).1 = true →
      ∃ pre rt post, s.renderTextureList = pre ++ rt :: post ∧ rt.name = name ∧
        (destroyRenderTexture s name).2.renderTextureList = pre ++ post ∧
        (∀ x ∈ (destroyRenderTexture s name).2.renderTextureList, x.name ≠ name) ∧
        getRenderTexture (destroyRenderTexture s name).2 name = none) ∧
    ((destroyRenderTexture s name).1 = false → (destroyRenderTexture s name).2 = s) := by
  have hnodup := textureReachable_names s hreach
  cases hf : s.renderTextureList.find? (fun rt => rt.name == name) with
  | none =>
    have hnone : ∀ x ∈ s.renderTextureList, ¬ (x.name == name) = true :=
      List.find?_eq_none.1 hf
    have hd : destroyRenderTexture s name = (false, s) := by
      simp [destroyRenderTexture, hf]
    rw [hd]
    refine ⟨⟨fun h => (by cases h), fun hex => ?_⟩, fun h => (by cases h), fun _ => rfl⟩
    obtain ⟨rt, hrt, hn⟩ := hex
    exact absurd (by simpa using hn) (hnone rt hrt)
  | some rt =>
    obtain ⟨hp, pre, post, hsplit, hpre⟩ := List.find?_eq_some.1 hf
    have hname : rt.name = name := by simpa using hp
    have herase : s.renderTextureList.eraseP (fun rt => rt.name == name) = pre ++ post := by
      rw [hsplit, List.eraseP_append_right _ (fun b hb => by simpa using hpre b hb)]
      simp [List.eraseP_cons, hp]
    have hd : destroyRenderTexture s name
        = (true, { s with
            renderTextureList := pre ++ post
            calls := s.calls ++ [Call.deleteRenderTexture rt.ptr] }) := by
      simp [destroyRenderTexture, hf, herase]
    have hothers : ∀ x ∈ pre ++ post, x.name ≠ name := by
      intro x hx hxn
      rw [hsplit, List.map_append, List.map_cons] at hnodup
      have hnd := List.nodup_middle.1 hnodup
      rw [← List.map_append] at hnd
      exact (List.nodup_cons.1 hnd).1 (List.mem_map.2 ⟨x, hx, hxn.trans hname.symm⟩)
    rw [hd]
    refine ⟨⟨fun _ => ⟨rt, List.mem_of_find?_eq_some hf, hname⟩, fun _ => rfl⟩, fun _ => ?_,
      fun h => (by cases h)⟩
    refine ⟨pre, rt, post, hsplit, hname, rfl, hothers, ?_⟩
    exact List.find?_eq_none.2 (fun x hx => by simpa using hothers x hx)

/-- Witness for C10: after creating textures 7 and 8, destroying 7 succeeds
exactly because 7 is registered. -/
theorem destroyRenderTexture_found_witness :
    ((destroyRenderTexture
        (createRenderTexture_size (createRenderTexture_size startup 7 64 64 200 1).2
          8 32 32 201 2).2 7).1 = true ↔
      ∃ rt ∈ (createRenderTexture_size (createRenderTexture_size startup 7 64 64 200 1).2
          8 32 32 201 2).2.renderTextureList, rt.name = 7) :=
  (destroyRenderTexture_found
    (createRenderTexture_size (createRenderTexture_size startup 7 64 64 200 1).2 8 32 32 201 2).2 7
    (TextureReachable.create_size _ 8 32 32 201 2
      (TextureReachable.create_size startup 7 64 64 200 1 (TextureReachable.empty startup rfl)))).1

/-! ## Texture release, frame trace, lookups -/

theorem textureDestructions_destroyRenderTexture (s : State) (name : Nat) :
    textureDestructions ((destroyRenderTexture s name).2.calls.drop s.calls.length) = [] := by
  unfold destroyRenderTexture
  cases hf : s.renderTextureList.find? (fun rt => rt.name == name) with
  | some rt => simp [textureDestructions]
  | none => simp [textureDestructions]

/-- C11: a registry holding one texture named 7 whose handle 1 is valid:
`destroyRenderTexture(7)` finds it and returns true, yet the only call it
makes is the `SAFE_DELETE` of the texture object and no backend
destroy-texture call appears in its trace, whereas `Rendering::destroy` on the
same registry does issue the destroy-texture call for handle 1. -/
theorem destroyRenderTexture_keeps_handle :
    isValid sampleConfig 1 = true ∧
    (destroyRenderTexture (sampleTextures [⟨200, 7, 1, 64, 64⟩]) 7).1 = true ∧
    (destroyRenderTexture (sampleTextures [⟨200, 7, 1, 64, 64⟩]) 7).2.calls
      = [Call.deleteRenderTexture 200] ∧
    textureDestructions (destroyRenderTexture (sampleTextures [⟨200, 7, 1, 64, 64⟩]) 7).2.calls
      = [] ∧
    textureDestructions (destroy sampleConfig (sampleTextures [⟨200, 7, 1, 64, 64⟩])).calls
      = [Call.destroyTexture 1] := by
  refine ⟨?_, ?_, ?_, ?_, ?_⟩ <;> decide

theorem hookCallbacks_append (xs ys : List Call) :
    hookCallbacks (xs ++ ys) = hookCallbacks xs ++ hookCallbacks ys := by
  simp [hookCallbacks]

/-- C12: a `render()` call made while preprocessing is active adds exactly one
call to the trace, the view reset: no hook callback and no camera render step
is invoked, and the camera and hook registries (and every other global) are
left as they were. -/
theorem render_preprocessing_skips (s : State) :
    (render s true).calls = s.calls ++ [Call.resetViews] ∧
    hookCallbacks ((render s true).calls.drop s.calls.length) = [] ∧
    renderedCameras ((render s true).calls.drop s.calls.length) = [] ∧
    (render s true).renderCameraList = s.renderCameraList ∧
    (render s true).renderHookList = s.renderHookList ∧
    render s true = { s with calls := s.calls ++ [Call.resetViews] } := by
  have hcalls : (render s true).calls = s.calls ++ [Call.resetViews] := by simp [render]
  refine ⟨hcalls, ?_, ?_, by simp [render], by simp [render], by simp [render]⟩
  · rw [hcalls, List.drop_left]; simp [hookCallbacks]
  · rw [hcalls, List.drop_left]; simp [renderedCameras]

/-- C13: a `render()` call made while preprocessing is not active adds to the
trace exactly: one view reset, then `beginFrame` of each entry of the hook
registry in registry order, then the render step of each entry of the sorted
camera registry, which is a rearrangement of the registered cameras (each
rendered exactly once), then `endFrame` of each entry of the hook registry in
registry order; the hook registry is unchanged. -/
theorem render_call_trace (s : State) :
    (render s false).calls
      = s.calls ++ ([Call.resetViews] ++ s.renderHookList.map Call.beginFrame
          ++ (render s false).renderCameraList.map Call.cameraRender
          ++ s.renderHookList.map Call.endFrame) ∧
    (render s false).renderCameraList.Perm s.renderCameraList ∧
    (render s false).renderHookList = s.renderHookList := by
  refine ⟨?_, ?_, by simp [render]⟩
  · rw [render_renderCameraList]; simp [render]
  · rw [render_renderCameraList]; exact dQsort_perm _ _

theorem eraseFirstHook_none (hook : Nat) :
    ∀ l : List Nat, eraseFirstHook hook l = none ↔ hook ∉ l := by
  intro l
  induction l with
  | nil => simp [eraseFirstHook]
  | cons h rest ih =>
    unfold eraseFirstHook
    by_cases hh : h = hook
    · simp [hh]
    · rw [if_neg hh]
      cases he : eraseFirstHook hook rest with
      | none =>
        have := ih.1 he
        simp [this, Ne.symm hh]
      | some r =>
        have : hook ∈ rest := by
          by_contra hn
          rw [ih.2 hn] at he
          cases he
        simp [this]

theorem eraseFirstHook_some (hook : Nat) :
    ∀ l r : List Nat, eraseFirstHook hook l = some r →
      ∃ pre post, l = pre ++ hook :: post ∧ hook ∉ pre ∧ r = pre ++ post := by
  intro l
  induction l with
  | nil => intro r h; simp [eraseFirstHook] at h
  | cons h rest ih =>
    intro r hr
    unfold eraseFirstHook at hr
    by_cases hh : h = hook
    · rw [if_pos hh] at hr
      obtain rfl : rest = r := Option.some.inj hr
      exact ⟨[], rest, by simp [hh], by simp, rfl⟩
    · rw [if_neg hh] at hr
      cases he : eraseFirstHook hook rest with
      | none => rw [he] at hr; cases hr
      | some r' =>
        rw [he] at hr
        obtain rfl : h :: r' = r := Option.some.inj hr
        obtain ⟨pre, post, h1, h2, h3⟩ := ih r' he
        refine ⟨h :: pre, post, by simp [h1], ?_, by simp [h3]⟩
        intro hmem
        rcases List.mem_cons.1 hmem with heq | hmem
        · exact hh heq.symm
        · exact h2 hmem

/-- C20: `getRenderCamera(name)` returns null exactly when no registered camera
has that name and otherwise the first camera of that name in registry order;
the same holds for `getRenderTexture(name)` and the texture registry;
`removeRenderHook(hook)` returns false exactly when the hook is not in the
hook list and then leaves the whole state unchanged, and otherwise erases the
first occurrence of the hook.  The two lookups return a value only, so they
leave every registry unchanged in all cases. -/
theorem lookup_not_found (s : State) (name hook : Nat) :
    (getRenderCamera s name = none ↔ ∀ c ∈ s.renderCameraList, c.name ≠ name) ∧
    (∀ c, getRenderCamera s name = some c →
      ∃ pre post, s.renderCameraList = pre ++ c :: post ∧ c.name = name ∧
        ∀ x ∈ pre, x.name ≠ name) ∧
    (getRenderTexture s name = none ↔ ∀ rt ∈ s.renderTextureList, rt.name ≠ name) ∧
    (∀ rt, getRenderTexture s name = some rt →
      ∃ pre post, s.renderTextureList = pre ++ rt :: post ∧ rt.name = name ∧
        ∀ x ∈ pre, x.name ≠ name) ∧
    ((removeRenderHook s hook).1 = false ↔ hook ∉ s.renderHookList) ∧
    ((removeRenderHook s hook).1 = false → (removeRenderHook s hook).2 = s) ∧
    ((removeRenderHook s hook).1 = true →
      ∃ pre post, s.renderHookList = pre ++ hook :: post ∧ hook ∉ pre ∧
        (removeRenderHook s hook).2.renderHookList = pre ++ post) := by
  refine ⟨?_, ?_, ?_, ?_, ?_, ?_, ?_⟩
  · unfold getRenderCamera
    rw [firstCamera_none]
    simp
  · intro c hc
    obtain ⟨pre, post, h1, h2, h3, -, -⟩ :=
      firstCamera_split (fun c => c.name == name) id _ c hc
    exact ⟨pre, post, h1, by simpa using h3, fun x hx => by simpa using h2 x hx⟩
  · unfold getRenderTexture
    rw [List.find?_eq_none]
    simp
  · intro rt hrt
    obtain ⟨hp, pre, post, h1, h2⟩ := List.find?_eq_some.1 hrt
    exact ⟨pre, post, h1, by simpa using hp, fun x hx => by simpa using h2 x hx⟩
  · unfold removeRenderHook
    cases he : eraseFirstHook hook s.renderHookList with
    | none => simpa using (eraseFirstHook_none hook _).1 he
    | some r =>
      have : hook ∈ s.renderHookList := by
        by_contra hn
        rw [(eraseFirstHook_none hook _).2 hn] at he
        cases he
      simpa using this
  · unfold removeRenderHook
    cases he : eraseFirstHook hook s.renderHookList with
    | none => intro _; rfl
    | some r => intro h; cases h
  · unfold removeRenderHook
    cases he : eraseFirstHook hook s.renderHookList with
    | none => intro h; cases h
    | some r =>
      intro _
      obtain ⟨pre, post, h1, h2, h3⟩ := eraseFirstHook_some hook _ r he
      exact ⟨pre, post, h1, h2, h3⟩

/-- Witness for C20: camera 8 is found behind camera 7, and removing hook 5
from the hooks 4, 5, 5 erases its first occurrence. -/
theorem lookup_not_found_witness :
    (∃ pre post,
      (sampleCameras [⟨100, 7, 1, 0, 0⟩, ⟨101, 8, 1, 5, 0⟩]).renderCameraList
        = pre ++ (⟨101, 8, 1, 5, 0⟩ : RenderCamera) :: post ∧
      (⟨101, 8, 1, 5, 0⟩ : RenderCamera).name = 8 ∧ ∀ x ∈ pre, x.name ≠ 8) ∧
    (∃ pre post,
      ({ startup with renderHookList := [4, 5, 5] } : State).renderHookList = pre ++ 5 :: post ∧
      5 ∉ pre ∧
      (removeRenderHook { startup with renderHookList := [4, 5, 5] } 5).2.renderHookList
        = pre ++ post) ∧
    (removeRenderHook { startup with renderHookList := [4, 5, 5] } 6).2
      = { startup with renderHookList := [4, 5, 5] } :=
  ⟨(lookup_not_found (sampleCameras [⟨100, 7, 1, 0, 0⟩, ⟨101, 8, 1, 5, 0⟩]) 8 5).2.1
      ⟨101, 8, 1, 5, 0⟩ (by decide),
    (lookup_not_found { startup with renderHookList := [4, 5, 5] } 8 5).2.2.2.2.2.2 (by decide),
    (lookup_not_found { startup with renderHookList := [4, 5, 5] } 8 6).2.2.2.2.2.1 (by decide)⟩

/-! ## Uniforms -/

theorem setValue_identity (u : UniformData) (this : Nat) (a : SetValueArg) :
    (u.setValue this a).uniform = u.uniform ∧ (u.setValue this a).count = u.count := by
  cases a <;> exact ⟨rfl, rfl⟩

theorem setValues_identity (this : Nat) (args : List SetValueArg) :
    ∀ u : UniformData, (u.setValues this args).uniform = u.uniform ∧
      (u.setValues this args).count = u.count := by
  induction args with
  | nil => intro u; exact ⟨rfl, rfl⟩
  | cons a rest ih =>
    intro u
    obtain ⟨h1, h2⟩ := ih (u.setValue this a)
    obtain ⟨h3, h4⟩ := setValue_identity u this a
    exact ⟨h1.trans h3, h2.trans h4⟩

theorem setValues_append_last (u : UniformData) (this : Nat) (pre : List SetValueArg)
    (a : SetValueArg) :
    u.setValues this (pre ++ [a]) = (u.setValues this pre).setValue this a := by
  simp [UniformData.setValues, List.foldl_append]

theorem read_vecValues (u : UniformData) (this : Nat) (h : u._dataPtr = DataPtr.vecValues this) :
    u.read this = UniformValue.vector u._vecValues := by
  simp [UniformData.read, deref, h]

theorem read_matValues (u : UniformData) (this : Nat) (h : u._dataPtr = DataPtr.matValues this) :
    u.read this = UniformValue.matrix u._matValues := by
  simp [UniformData.read, deref, h]

/-- C17: after any sequence of `setValue` calls ending with a call of argument
`a`, the value read through the data pointer is the argument of that last
call (a scalar `v` as `(v,0,0,0)`, a 2-vector as `(x,y,0,0)`, a 3-vector as
`(x,y,z,0)`, a 4-vector as it is, a matrix as its 16 floats); a vector write
leaves the matrix storage as the calls before left it, a matrix write leaves
the vector storage so, and the uniform identity and repeat count are those of
the uniform before the first call. -/
theorem setValue_last_write_wins (u : UniformData) (this : Nat) (pre : List SetValueArg)
    (a : SetValueArg) :
    (u.setValues this (pre ++ [a])).uniform = u.uniform ∧
    (u.setValues this (pre ++ [a])).count = u.count ∧
    (match a with
      | SetValueArg.scalar v =>
        (u.setValues this (pre ++ [a])).read this = UniformValue.vector ⟨v, 0, 0, 0⟩ ∧
        (u.setValues this (pre ++ [a]))._dataPtr = DataPtr.vecValues this ∧
        (u.setValues this (pre ++ [a]))._matValues = (u.setValues this pre)._matValues
      | SetValueArg.point2 p =>
        (u.setValues this (pre ++ [a])).read this = UniformValue.vector ⟨p.x, p.y, 0, 0⟩ ∧
        (u.setValues this (pre ++ [a]))._dataPtr = DataPtr.vecValues this ∧
        (u.setValues this (pre ++ [a]))._matValues = (u.setValues this pre)._matValues
      | SetValueArg.point3 p =>
        (u.setValues this (pre ++ [a])).read this = UniformValue.vector ⟨p.x, p.y, p.z, 0⟩ ∧
        (u.setValues this (pre ++ [a]))._dataPtr = DataPtr.vecValues this ∧
        (u.setValues this (pre ++ [a]))._matValues = (u.setValues this pre)._matValues
      | SetValueArg.point4 p =>
        (u.setValues this (pre ++ [a])).read this = UniformValue.vector ⟨p.x, p.y, p.z, p.w⟩ ∧
        (u.setValues this (pre ++ [a]))._dataPtr = DataPtr.vecValues this ∧
        (u.setValues this (pre ++ [a]))._matValues = (u.setValues this pre)._matValues
      | SetValueArg.matrix m =>
        (u.setValues this (pre ++ [a])).read this = UniformValue.matrix m ∧
        (u.setValues this (pre ++ [a]))._dataPtr = DataPtr.matValues this ∧
        (u.setValues this (pre ++ [a]))._vecValues = (u.setValues this pre)._vecValues) := by
  refine ⟨(setValues_identity this _ u).1, (setValues_identity this _ u).2, ?_⟩
  rw [setValues_append_last]
  cases a
  · exact ⟨read_vecValues _ this rfl, rfl, rfl⟩
  · exact ⟨read_vecValues _ this rfl, rfl, rfl⟩
  · exact ⟨read_vecValues _ this rfl, rfl, rfl⟩
  · exact ⟨read_vecValues _ this rfl, rfl, rfl⟩
  · exact ⟨read_matValues _ this rfl, rfl, rfl⟩

theorem mergeUniform_none (uniform : UniformData) :
    ∀ (l : List UniformData) (i : Nat),
      mergeUniform uniform i l = none ↔ ∀ x ∈ l, x.uniform ≠ uniform.uniform := by
  intro l
  induction l with
  | nil => intro i; simp [mergeUniform]
  | cons a rest ih =>
    intro i
    unfold mergeUniform
    by_cases h : a.uniform = uniform.uniform
    · simp [h]
    · rw [if_neg h]
      cases hm : mergeUniform uniform (i + 1) rest with
      | none => simpa [h] using (ih (i + 1)).1 hm
      | some p =>
        have hne : ¬ ∀ x ∈ rest, x.uniform ≠ uniform.uniform := by
          intro hall
          rw [(ih (i + 1)).2 hall] at hm
          cases hm
        simp only [List.mem_cons, forall_eq_or_imp]
        constructor
        · intro hc; cases hc
        · intro hc; exact absurd hc.2 hne

theorem mergeUniform_some (uniform : UniformData) :
    ∀ (l : List UniformData) (i j : Nat) (l' : List UniformData),
      mergeUniform uniform i l = some (j, l') →
      ∃ pre e post, l = pre ++ e :: post ∧ (∀ x ∈ pre, x.uniform ≠ uniform.uniform) ∧
        e.uniform = uniform.uniform ∧ j = i + pre.length ∧
        l' = pre ++ { e with _vecValues := uniform._vecValues, _matValues := uniform._matValues }
          :: post := by
  intro l
  induction l with
  | nil => intro i j l' h; simp [mergeUniform] at h
  | cons a rest ih =>
    intro i j l' h
    unfold mergeUniform at h
    by_cases ha : a.uniform = uniform.uniform
    · rw [if_pos ha] at h
      obtain ⟨rfl, rfl⟩ := Prod.mk.inj (Option.some.inj h)
      exact ⟨[], a, rest, rfl, by simp, ha, by simp, rfl⟩
    · rw [if_neg ha] at h
      cases hm : mergeUniform uniform (i + 1) rest with
      | none => rw [hm] at h; cases h
      | some p =>
        obtain ⟨j', rest'⟩ := p
        rw [hm] at h
        obtain ⟨rfl, rfl⟩ := Prod.mk.inj (Option.some.inj h)
        obtain ⟨pre, e, post, h1, h2, h3, h4, h5⟩ := ih (i + 1) j' rest' hm
        refine ⟨a :: pre, e, post, by simp [h1], ?_, h3, by simp [h4]; omega, by simp [h5]⟩
        intro x hx
        rcases List.mem_cons.1 hx with hxa | hxp
        · rw [hxa]; exact ha
        · exact h2 x hxp

theorem ensureCreated_entries (S : UniformSet) : S.ensureCreated.entries = S.entries := by
  obtain ⟨selfMade, uniforms⟩ := S
  cases uniforms <;> rfl

theorem addUniform_absent (S : UniformSet) (u : UniformData)
    (h : ∀ x ∈ S.entries, x.uniform ≠ u.uniform) :
    (S.addUniform u).1 = S.entries.length ∧ (S.addUniform u).2.entries = S.entries ++ [u] := by
  have hm : mergeUniform u 0 S.ensureCreated.entries = none := by
    rw [ensureCreated_entries]; exact (mergeUniform_none u _ 0).2 h
  simp only [UniformSet.addUniform, hm]
  refine ⟨by rw [ensureCreated_entries], ?_⟩
  show S.ensureCreated.entries ++ [u] = _
  rw [ensureCreated_entries]

theorem addUniform_present (S : UniformSet) (u e : UniformData) (pre post : List UniformData)
    (hl : S.entries = pre ++ e :: post) (hpre : ∀ x ∈ pre, x.uniform ≠ u.uniform)
    (he : e.uniform = u.uniform) :
    (S.addUniform u).1 = pre.length ∧
    (S.addUniform u).2.entries
      = pre ++ { e with _vecValues := u._vecValues, _matValues := u._matValues } :: post := by
  cases hm : mergeUniform u 0 S.ensureCreated.entries with
  | none =>
    rw [ensureCreated_entries] at hm
    have := (mergeUniform_none u _ 0).1 hm e (by rw [hl]; simp)
    exact absurd he this
  | some p =>
    obtain ⟨j, l'⟩ := p
    obtain ⟨pre', e', post', h1, h2, h3, h4, h5⟩ := mergeUniform_some u _ 0 j l' hm
    rw [ensureCreated_entries, hl] at h1
    have hlen : pre.length = pre'.length := by
      rcases Nat.lt_trichotomy pre.length pre'.length with hlt | heq | hgt
      · exfalso
        have hmem : e ∈ pre' := by
          have := congrArg (fun l => l[pre.length]?) h1
          simp only [List.getElem?_append_right (le_refl _), Nat.sub_self, List.getElem?_cons_zero,
            List.getElem?_append_left hlt] at this
          exact List.getElem?_mem this.symm
        exact h2 e hmem he
      · exact heq
      · exfalso
        have hmem : e' ∈ pre := by
          have := congrArg (fun l => l[pre'.length]?) h1
          simp only [List.getElem?_append_right (le_refl _), Nat.sub_self, List.getElem?_cons_zero,
            List.getElem?_append_left hgt] at this
          exact List.getElem?_mem this
        exact hpre e' hmem h3
    obtain ⟨hp, hr⟩ := List.append_inj h1 hlen
    obtain ⟨rfl, rfl⟩ := List.cons.inj hr
    subst hp
    simp only [UniformSet.addUniform, hm]
    refine ⟨by omega, ?_⟩
    show l' = _
    exact h5

theorem entries_split (k : Nat) :
    ∀ l : List UniformData, (∀ x ∈ l, x.uniform ≠ k) ∨
      ∃ pre e post, l = pre ++ e :: post ∧ (∀ x ∈ pre, x.uniform ≠ k) ∧ e.uniform = k := by
  intro l
  induction l with
  | nil => left; simp
  | cons a rest ih =>
    by_cases ha : a.uniform = k
    · right; exact ⟨[], a, rest, rfl, by simp, ha⟩
    · rcases ih with h | ⟨pre, e, post, h1, h2, h3⟩
      · left
        intro x hx
        rcases List.mem_cons.1 hx with hxa | hxr
        · rw [hxa]; exact ha
        · exact h x hxr
      · right
        refine ⟨a :: pre, e, post, by simp [h1], ?_, h3⟩
        intro x hx
        rcases List.mem_cons.1 hx with hxa | hxr
        · rw [hxa]; exact ha
        · exact h2 x hxr

theorem addUniform_twice (S : UniformSet) (u1 u2 : UniformData)
    (hid : u1.uniform = u2.uniform) :
    ∃ pre e1 post, (∀ x ∈ pre, x.uniform ≠ u1.uniform) ∧ e1.uniform = u1.uniform ∧
      ((S.entries = pre ∧ post = [] ∧ e1 = u1) ∨
        ∃ e, S.entries = pre ++ e :: post ∧ e.uniform = u1.uniform ∧
          e1 = { e with _vecValues := u1._vecValues, _matValues := u1._matValues }) ∧
      (S.addUniform u1).1 = pre.length ∧
      (S.addUniform u1).2.entries = pre ++ e1 :: post ∧
      ((S.addUniform u1).2.addUniform u2).1 = pre.length ∧
      ((S.addUniform u1).2.addUniform u2).2.entries
        = pre ++ { e1 with _vecValues := u2._vecValues, _matValues := u2._matValues } :: post := by
  rcases entries_split u1.uniform S.entries with habs | ⟨pre, e, post, h1, h2, h3⟩
  · obtain ⟨i1, l1⟩ := addUniform_absent S u1 habs
    have l1' : (S.addUniform u1).2.entries = S.entries ++ u1 :: [] := l1
    obtain ⟨i2, l2⟩ := addUniform_present (S.addUniform u1).2 u2 u1 S.entries [] l1'
      (fun x hx => hid ▸ habs x hx) hid
    exact ⟨S.entries, u1, [], habs, rfl, Or.inl ⟨rfl, rfl, rfl⟩, i1, l1', i2, l2⟩
  · obtain ⟨i1, l1⟩ := addUniform_present S u1 e pre post h1 h2 h3
    obtain ⟨i2, l2⟩ := addUniform_present (S.addUniform u1).2 u2
      { e with _vecValues := u1._vecValues, _matValues := u1._matValues } pre post l1
      (fun x hx => hid ▸ h2 x hx) (h3.trans hid)
    exact ⟨pre, { e with _vecValues := u1._vecValues, _matValues := u1._matValues }, post, h2, h3,
      Or.inr ⟨e, h1, h3, rfl⟩, i1, l1, i2, l2⟩

theorem countIdentity_append (k : Nat) (xs ys : List UniformData) :
    countIdentity k (xs ++ ys) = countIdentity k xs + countIdentity k ys := by
  simp [countIdentity]

theorem countIdentity_cons (k : Nat) (x : UniformData) (xs : List UniformData) :
    countIdentity k (x :: xs) = (if x.uniform = k then 1 else 0) + countIdentity k xs := by
  by_cases h : x.uniform = k
  · simp [countIdentity, List.filter_cons, h]; omega
  · simp [countIdentity, List.filter_cons, h]

theorem countIdentity_free (k : Nat) (xs : List UniformData) (h : ∀ x ∈ xs, x.uniform ≠ k) :
    countIdentity k xs = 0 := by
  simp only [countIdentity, List.length_eq_zero, List.filter_eq_nil_iff]
  intro x hx
  simpa using h x hx

/-- C14 fails as stated: a set that already holds two entries of one identity
(here the two default uniforms appended by two calls of `addUniform()`, both
carrying the invalid handle) still holds two entries of that identity after
`addUniform(u1)` and `addUniform(u2)` with that identity (`u1` and `u2` being
objects at the addresses 100 and 200). -/
theorem addUniform_keeps_duplicates :
    countIdentity 65535
      ((((UniformSet.new.addUniform_default sampleConfig ⟨0, 0, 0, 0⟩ (fun _ => 0)).2.addUniform_default
          sampleConfig ⟨0, 0, 0, 0⟩ (fun _ => 0)).2.addUniform
            ((UniformData.default sampleConfig ⟨0, 0, 0, 0⟩ (fun _ => 0)).setValue 100
              (SetValueArg.scalar 1))).2.addUniform
            ((UniformData.default sampleConfig ⟨0, 0, 0, 0⟩ (fun _ => 0)).setValue 200
              (SetValueArg.scalar 2))).2.entries = 2 := by
  decide

/-- C14 (as amended): for every UniformSet and uniforms `u1`, `u2` of the same
backend identity, the second `addUniform` does not grow the set, returns the
same entry as the first, and leaves that entry with the identity and with the
vector and matrix storage of `u2`; when the set held at most one entry of that
identity beforehand, it holds exactly one afterwards. -/
theorem addUniform_same_identity (S : UniformSet) (u1 u2 : UniformData)
    (hid : u1.uniform = u2.uniform) :
    ((S.addUniform u1).2.addUniform u2).2.entries.length = (S.addUniform u1).2.entries.length ∧
    ((S.addUniform u1).2.addUniform u2).1 = (S.addUniform u1).1 ∧
    (∃ e, ((S.addUniform u1).2.addUniform u2).2.entries[((S.addUniform u1).2.addUniform u2).1]?
        = some e ∧
      e.uniform = u2.uniform ∧ e._vecValues = u2._vecValues ∧ e._matValues = u2._matValues) ∧
    (countIdentity u1.uniform S.entries ≤ 1 →
      countIdentity u1.uniform ((S.addUniform u1).2.addUniform u2).2.entries = 1) := by
  obtain ⟨pre, e1, post, hpre, he1, hS, i1, l1, i2, l2⟩ := addUniform_twice S u1 u2 hid
  refine ⟨by rw [l1, l2]; simp, by rw [i1, i2], ?_, ?_⟩
  · refine ⟨{ e1 with _vecValues := u2._vecValues, _matValues := u2._matValues }, ?_,
      he1.trans hid, rfl, rfl⟩
    rw [i2, l2, List.getElem?_append_right (le_refl _)]
    simp
  · intro hcount
    rw [l2, countIdentity_append, countIdentity_cons, countIdentity_free _ _ hpre]
    have hpost : countIdentity u1.uniform post = 0 := by
      rcases hS with ⟨-, hp, -⟩ | ⟨e, hSe, hek, -⟩
      · rw [hp]; rfl
      · rw [hSe, countIdentity_append, countIdentity_cons, countIdentity_free _ _ hpre,
          if_pos hek] at hcount
        omega
    rw [hpost]
    simp [he1]

/-- Witness for C14 (as amended): an empty set, then two scalar uniforms of
identity 5 with the values 1 and 2 (objects at the addresses 100 and 200). -/
theorem addUniform_same_identity_witness :
    countIdentity 5
      ((UniformSet.new.addUniform
        ((UniformData.new 5 1 ⟨0, 0, 0, 0⟩ (fun _ => 0)).setValue 100 (SetValueArg.scalar 1))).2.addUniform
        ((UniformData.new 5 1 ⟨0, 0, 0, 0⟩ (fun _ => 0)).setValue 200 (SetValueArg.scalar 2))).2.entries
      = 1 :=
  (addUniform_same_identity UniformSet.new
    ((UniformData.new 5 1 ⟨0, 0, 0, 0⟩ (fun _ => 0)).setValue 100 (SetValueArg.scalar 1))
    ((UniformData.new 5 1 ⟨0, 0, 0, 0⟩ (fun _ => 0)).setValue 200 (SetValueArg.scalar 2)) rfl).2.2.2
    (by decide)

theorem addUniform_found_keeps_pointer (S : UniformSet) (u1 u2 : UniformData)
    (hid : u1.uniform = u2.uniform) :
    ∃ e1 e2,
      (S.addUniform u1).2.entries[(S.addUniform u1).1]? = some e1 ∧
      ((S.addUniform u1).2.addUniform u2).2.entries[((S.addUniform u1).2.addUniform u2).1]?
        = some e2 ∧
      e2._vecValues = u2._vecValues ∧ e2._matValues = u2._matValues ∧
      e2._dataPtr = e1._dataPtr ∧ e2.count = e1.count ∧
      ((∀ x ∈ S.entries, x.uniform ≠ u1.uniform) → e1 = u1) := by
  obtain ⟨pre, e1, post, hpre, he1, hS, i1, l1, i2, l2⟩ := addUniform_twice S u1 u2 hid
  refine ⟨e1, { e1 with _vecValues := u2._vecValues, _matValues := u2._matValues }, ?_, ?_,
    rfl, rfl, rfl, rfl, ?_⟩
  · rw [i1, l1, List.getElem?_append_right (le_refl _)]; simp
  · rw [i2, l2, List.getElem?_append_right (le_refl _)]; simp
  · intro hfresh
    rcases hS with ⟨-, -, h⟩ | ⟨e, hSe, hek, -⟩
    · exact h
    · exact absurd hek (hfresh e (by rw [hSe]; simp))

theorem addUniform_entry_reads_first (S : UniformSet) (u1 u2 : UniformData) (this : Nat)
    (a : SetValueArg) (memory : Nat → Option UniformData)
    (hid : u1.uniform = u2.uniform) (hfresh : ∀ x ∈ S.entries, x.uniform ≠ u1.uniform)
    (hlive : memory this = some (u1.setValue this a)) :
    ∃ e2,
      ((S.addUniform (u1.setValue this a)).2.addUniform u2).2.entries[
          ((S.addUniform (u1.setValue this a)).2.addUniform u2).1]? = some e2 ∧
      e2._vecValues = u2._vecValues ∧ e2._matValues = u2._matValues ∧
      e2.count = u1.count ∧
      deref memory e2._dataPtr = (u1.setValue this a).read this := by
  obtain ⟨e1, e2, -, h2, h3, h4, h5, h6, h7⟩ :=
    addUniform_found_keeps_pointer S (u1.setValue this a) u2
      ((setValue_identity u1 this a).1.trans hid)
  have he1 : e1 = u1.setValue this a :=
    h7 (fun x hx => by rw [(setValue_identity u1 this a).1]; exact hfresh x hx)
  refine ⟨e2, h2, h3, h4, ?_, ?_⟩
  · rw [h6, he1, (setValue_identity u1 this a).2]
  · rw [h5, he1]
    cases a <;> simp [UniformData.setValue, UniformData.read, deref, hlive]

/-- C15: the code does not do what the claim says.  Into an empty set, add
`u1` (identity 5, repeat count 1, the scalar 1 written to it by `setValue`,
living at address 100) and then `u2` of the same identity.  With `u2` holding
the scalar 2 (repeat count 1, address 200), the single entry has the vector
storage `(2,0,0,0)` of `u2`, but its data pointer is the one copied from `u1`
and addresses the storage of `u1`: a reader gets `(1,0,0,0)`, not the
`(2,0,0,0)` last written to `u2`.  With `u2` holding a matrix (repeat count
4), the entry keeps that pointer and the repeat count 1, and a reader again
gets the vector `(1,0,0,0)` of `u1`, not the matrix of `u2`. -/
theorem addUniform_entry_reads_stale :
    (((UniformSet.new.addUniform
        ((UniformData.new 5 1 ⟨0, 0, 0, 0⟩ (fun _ => 0)).setValue 100
          (SetValueArg.scalar 1))).2.addUniform
        ((UniformData.new 5 1 ⟨0, 0, 0, 0⟩ (fun _ => 0)).setValue 200
          (SetValueArg.scalar 2))).2.entries
      = [⟨5, 1, DataPtr.vecValues 100, ⟨2, 0, 0, 0⟩, fun _ => 0⟩]) ∧
    (((UniformSet.new.addUniform
        ((UniformData.new 5 1 ⟨0, 0, 0, 0⟩ (fun _ => 0)).setValue 100
          (SetValueArg.scalar 1))).2.addUniform
        ((UniformData.new 5 1 ⟨0, 0, 0, 0⟩ (fun _ => 0)).setValue 200
          (SetValueArg.scalar 2))).2.entries.map
        (fun e => deref
          (fun address =>
            if address = 100 then
              some ((UniformData.new 5 1 ⟨0, 0, 0, 0⟩ (fun _ => 0)).setValue 100
                (SetValueArg.scalar 1))
            else if address = 200 then
              some ((UniformData.new 5 1 ⟨0, 0, 0, 0⟩ (fun _ => 0)).setValue 200
                (SetValueArg.scalar 2))
            else none)
          e._dataPtr)
      = [UniformValue.vector ⟨1, 0, 0, 0⟩]) ∧
    ((UniformData.new 5 1 ⟨0, 0, 0, 0⟩ (fun _ => 0)).setValue 200
        (SetValueArg.scalar 2)).read 200 = UniformValue.vector ⟨2, 0, 0, 0⟩ ∧
    UniformValue.vector ⟨1, 0, 0, 0⟩ ≠ UniformValue.vector ⟨2, 0, 0, 0⟩ ∧
    (((UniformSet.new.addUniform
        ((UniformData.new 5 1 ⟨0, 0, 0, 0⟩ (fun _ => 0)).setValue 100
          (SetValueArg.scalar 1))).2.addUniform
        ((UniformData.new 5 4 ⟨0, 0, 0, 0⟩ (fun _ => 0)).setValue 200
          (SetValueArg.matrix (fun _ => 2)))).2.entries
      = [⟨5, 1, DataPtr.vecValues 100, ⟨0, 0, 0, 0⟩, fun _ => 2⟩]) ∧
    (((UniformSet.new.addUniform
        ((UniformData.new 5 1 ⟨0, 0, 0, 0⟩ (fun _ => 0)).setValue 100
          (SetValueArg.scalar 1))).2.addUniform
        ((UniformData.new 5 4 ⟨0, 0, 0, 0⟩ (fun _ => 0)).setValue 200
          (SetValueArg.matrix (fun _ => 2)))).2.entries.map
        (fun e => deref
          (fun address =>
            if address = 100 then
              some ((UniformData.new 5 1 ⟨0, 0, 0, 0⟩ (fun _ => 0)).setValue 100
                (SetValueArg.scalar 1))
            else if address = 200 then
              some ((UniformData.new 5 4 ⟨0, 0, 0, 0⟩ (fun _ => 0)).setValue 200
                (SetValueArg.matrix (fun _ => 2)))
            else none)
          e._dataPtr)
      = [UniformValue.vector ⟨1, 0, 0, 0⟩]) ∧
    ((UniformData.new 5 4 ⟨0, 0, 0, 0⟩ (fun _ => 0)).setValue 200
        (SetValueArg.matrix (fun _ => 2))).read 200 = UniformValue.matrix (fun _ => 2) ∧
    UniformValue.vector ⟨1, 0, 0, 0⟩ ≠ UniformValue.matrix (fun _ => 2) := by
  refine ⟨rfl, rfl, rfl, ?_, rfl, rfl, rfl, ?_⟩
  · intro h
    have h2 : (1 : F32) = 2 := by
      injection h with h
      exact congrArg Point4F.x h
    exact absurd h2 (by decide)
  · intro h
    cases h

theorem firstWithIdentity_free (k : Nat) (pre : List UniformData) (e : UniformData)
    (post : List UniformData) (hpre : ∀ x ∈ pre, x.uniform ≠ k) (he : e.uniform = k) :
    firstWithIdentity k (pre ++ e :: post) = some e := by
  unfold firstWithIdentity
  rw [List.find?_append, List.find?_eq_none.2 (fun x hx => by simpa using hpre x hx)]
  simp [he]

theorem firstWithIdentity_update (k : Nat) (pre : List UniformData) (e e' : UniformData)
    (post : List UniformData) (he : e.uniform ≠ k) (he' : e'.uniform = e.uniform) :
    firstWithIdentity k (pre ++ e' :: post) = firstWithIdentity k (pre ++ e :: post) := by
  unfold firstWithIdentity
  simp [List.find?_append, List.find?_cons, he, he']

theorem addUniform_first_own (S : UniformSet) (u : UniformData) :
    ∃ e, firstWithIdentity u.uniform (S.addUniform u).2.entries = some e ∧
      e.uniform = u.uniform ∧ e._vecValues = u._vecValues ∧ e._matValues = u._matValues := by
  rcases entries_split u.uniform S.entries with habs | ⟨pre, e, post, h1, h2, h3⟩
  · obtain ⟨-, l1⟩ := addUniform_absent S u habs
    exact ⟨u, by rw [l1]; exact firstWithIdentity_free _ _ _ _ habs rfl, rfl, rfl, rfl⟩
  · obtain ⟨-, l1⟩ := addUniform_present S u e pre post h1 h2 h3
    exact ⟨{ e with _vecValues := u._vecValues, _matValues := u._matValues },
      by rw [l1]; exact firstWithIdentity_free _ _ _ _ h2 h3, h3, rfl, rfl⟩

theorem addUniform_first_other (S : UniformSet) (u : UniformData) (k : Nat)
    (hk : u.uniform ≠ k) :
    firstWithIdentity k (S.addUniform u).2.entries = firstWithIdentity k S.entries := by
  rcases entries_split u.uniform S.entries with habs | ⟨pre, e, post, h1, h2, h3⟩
  · obtain ⟨-, l1⟩ := addUniform_absent S u habs
    rw [l1]
    unfold firstWithIdentity
    simp [List.find?_append, List.find?_cons, hk]
  · obtain ⟨-, l1⟩ := addUniform_present S u e pre post h1 h2 h3
    rw [l1, h1]
    exact firstWithIdentity_update k pre e _ post (by rw [h3]; exact hk) rfl

theorem addUniform_keeps_other (S : UniformSet) (u : UniformData) (i : Nat) (x : UniformData)
    (hx : S.entries[i]? = some x) (hne : x.uniform ≠ u.uniform) :
    (S.addUniform u).2.entries[i]? = some x := by
  rcases entries_split u.uniform S.entries with habs | ⟨pre, e, post, h1, h2, h3⟩
  · obtain ⟨-, l1⟩ := addUniform_absent S u habs
    have hi : i < S.entries.length := (List.getElem?_eq_some.1 hx).1
    rw [l1, List.getElem?_append_left hi]
    exact hx
  · obtain ⟨-, l1⟩ := addUniform_present S u e pre post h1 h2 h3
    rw [l1]
    rw [h1] at hx
    rcases Nat.lt_trichotomy i pre.length with hlt | heq | hgt
    · rw [List.getElem?_append_left hlt] at hx ⊢
      exact hx
    · subst heq
      rw [List.getElem?_append_right (le_refl _)] at hx
      simp at hx
      exact absurd h3 (hx ▸ hne)
    · rw [List.getElem?_append_right (le_of_lt hgt)] at hx ⊢
      obtain ⟨j, hj⟩ : ∃ j, i - pre.length = j + 1 := ⟨i - pre.length - 1, by omega⟩
      rw [hj] at hx ⊢
      simpa using hx

theorem addUniform_identities (S : UniformSet) (u : UniformData) :
    (S.addUniform u).2.entries.map (fun x => x.uniform)
      = S.entries.map (fun x => x.uniform)
        ++ (if u.uniform ∈ S.entries.map (fun x => x.uniform) then [] else [u.uniform]) := by
  rcases entries_split u.uniform S.entries with habs | ⟨pre, e, post, h1, h2, h3⟩
  · obtain ⟨-, l1⟩ := addUniform_absent S u habs
    have hnot : u.uniform ∉ S.entries.map (fun x => x.uniform) := by
      intro hmem
      obtain ⟨x, hx, hxu⟩ := List.mem_map.1 hmem
      exact habs x hx hxu
    rw [l1, if_neg hnot]
    simp
  · obtain ⟨-, l1⟩ := addUniform_present S u e pre post h1 h2 h3
    have hmem : u.uniform ∈ S.entries.map (fun x => x.uniform) :=
      List.mem_map.2 ⟨e, by rw [h1]; simp, h3⟩
    rw [l1, if_pos hmem, h1]
    simp

theorem addUniforms_first_other (k : Nat) :
    ∀ (l : List UniformData) (S : UniformSet), (∀ x ∈ l, x.uniform ≠ k) →
      firstWithIdentity k (S.addUniforms l).entries = firstWithIdentity k S.entries := by
  intro l
  induction l with
  | nil => intro S _; rfl
  | cons u rest ih =>
    intro S h
    show firstWithIdentity k ((S.addUniform u).2.addUniforms rest).entries = _
    rw [ih _ (fun x hx => h x (List.mem_cons_of_mem _ hx))]
    exact addUniform_first_other S u k (h u (List.mem_cons_self _ _))

theorem addUniforms_last_wins (k : Nat) :
    ∀ (l : List UniformData) (S : UniformSet) (o : UniformData),
      lastWithIdentity k l = some o →
      ∃ e, firstWithIdentity k (S.addUniforms l).entries = some e ∧ e.uniform = k ∧
        e._vecValues = o._vecValues ∧ e._matValues = o._matValues := by
  intro l
  induction l with
  | nil => intro S o h; simp [lastWithIdentity] at h
  | cons u rest ih =>
    intro S o h
    show ∃ e, firstWithIdentity k ((S.addUniform u).2.addUniforms rest).entries = some e ∧ _
    cases hrest : rest.filter (fun x => x.uniform == k) with
    | nil =>
      have hfree : ∀ x ∈ rest, x.uniform ≠ k := by
        intro x hx
        have := List.filter_eq_nil_iff.1 hrest x hx
        simpa using this
      have hu : u.uniform = k ∧ o = u := by
        unfold lastWithIdentity at h
        rw [List.filter_cons, hrest] at h
        by_cases huk : u.uniform = k
        · simp [huk] at h; exact ⟨huk, h.symm⟩
        · simp [huk] at h
      obtain ⟨huk, rfl⟩ := hu
      rw [addUniforms_first_other k rest _ hfree]
      obtain ⟨e, h1, h2, h3, h4⟩ := addUniform_first_own S o
      exact ⟨e, huk ▸ h1, h2.trans huk, h3, h4⟩
    | cons b t =>
      have hlast : lastWithIdentity k rest = some o := by
        unfold lastWithIdentity at h ⊢
        rw [List.filter_cons, hrest] at h
        rw [hrest]
        by_cases huk : u.uniform = k
        · simpa [huk, List.getLast?_cons_cons] using h
        · simpa [huk] using h
      exact ih _ o hlast

theorem addUniforms_keeps_other :
    ∀ (l : List UniformData) (S : UniformSet) (i : Nat) (x : UniformData),
      S.entries[i]? = some x → (∀ o ∈ l, o.uniform ≠ x.uniform) →
      (S.addUniforms l).entries[i]? = some x := by
  intro l
  induction l with
  | nil => intro S i x hx _; exact hx
  | cons u rest ih =>
    intro S i x hx hne
    show ((S.addUniform u).2.addUniforms rest).entries[i]? = some x
    exact ih _ i x
      (addUniform_keeps_other S u i x hx (Ne.symm (hne u (List.mem_cons_self _ _))))
      (fun o ho => hne o (List.mem_cons_of_mem _ ho))

theorem addUniforms_identities :
    ∀ (l : List UniformData) (S : UniformSet),
      ∃ app, (S.addUniforms l).entries.map (fun x => x.uniform)
          = S.entries.map (fun x => x.uniform) ++ app ∧
        app.Nodup ∧
        ∀ k, k ∈ app ↔
          (k ∈ l.map (fun x => x.uniform) ∧ k ∉ S.entries.map (fun x => x.uniform)) := by
  intro l
  induction l with
  | nil => intro S; exact ⟨[], by simp [UniformSet.addUniforms], List.nodup_nil, by simp⟩
  | cons u rest ih =>
    intro S
    obtain ⟨app, h1, h2, h3⟩ := ih (S.addUniform u).2
    have hids := addUniform_identities S u
    by_cases hmem : u.uniform ∈ S.entries.map (fun x => x.uniform)
    · rw [if_pos hmem, List.append_nil] at hids
      refine ⟨app, ?_, h2, fun k => ?_⟩
      · show ((S.addUniform u).2.addUniforms rest).entries.map (fun x => x.uniform) = _
        rw [h1, hids]
      · rw [h3 k, hids]
        constructor
        · rintro ⟨ha, hb⟩
          exact ⟨List.mem_cons_of_mem _ ha, hb⟩
        · rintro ⟨ha, hb⟩
          rcases List.mem_cons.1 ha with rfl | ha
          · exact absurd hmem hb
          · exact ⟨ha, hb⟩
    · rw [if_neg hmem] at hids
      refine ⟨u.uniform :: app, ?_, ?_, fun k => ?_⟩
      · show ((S.addUniform u).2.addUniforms rest).entries.map (fun x => x.uniform) = _
        rw [h1, hids]
        simp
      · refine List.nodup_cons.2 ⟨fun hin => ?_, h2⟩
        have := ((h3 _).1 hin).2
        rw [hids] at this
        exact this (by simp)
      · rw [List.mem_cons, h3 k, hids]
        constructor
        · rintro (rfl | ⟨ha, hb⟩)
          · exact ⟨by simp, hmem⟩
          · exact ⟨List.mem_cons_of_mem _ ha, fun hk => hb (List.mem_append_left _ hk)⟩
        · rintro ⟨ha, hb⟩
          by_cases hku : k = u.uniform
          · exact Or.inl hku
          · right
            refine ⟨?_, ?_⟩
            · rcases List.mem_cons.1 ha with h | h
              · exact absurd h hku
              · exact h
            · intro hk
              rcases List.mem_append.1 hk with h | h
              · exact hb h
              · exact hku (by simpa using h)

/-- C16: when the other set has a backing vector, `S.addUniformSet(O)` returns
normally and afterwards: for every identity `k` occurring in `O`, the entry of
`S` with identity `k` (the first one) carries the vector and matrix storage of
the last entry of `O` with identity `k`; an entry of `S` whose identity does
not occur in `O` is still at its position, unchanged; the identities of the
pre-existing entries are still in place, in the same order, in front of the
appended ones; and the number of entries has grown by the number of distinct
identities of `O` that did not occur in `S`. -/
theorem addUniformSet_merge (S O : UniformSet) (l : List UniformData)
    (hO : O.uniforms = some l) :
    ∃ S', S.addUniformSet O = some S' ∧
      (∀ k o, lastWithIdentity k l = some o →
        ∃ e, e ∈ S'.entries ∧ firstWithIdentity k S'.entries = some e ∧ e.uniform = k ∧
          e._vecValues = o._vecValues ∧ e._matValues = o._matValues) ∧
      (∀ (i : Nat) (e : UniformData), S.entries[i]? = some e →
        (∀ o ∈ l, o.uniform ≠ e.uniform) → S'.entries[i]? = some e) ∧
      (S'.entries.take S.entries.length).map (fun x => x.uniform)
        = S.entries.map (fun x => x.uniform) ∧
      S'.entries.length = S.entries.length + (newIdentities S.entries l).length := by
  refine ⟨S.addUniforms l, by simp [UniformSet.addUniformSet, hO], ?_, ?_, ?_, ?_⟩
  · intro k o ho
    obtain ⟨e, h1, h2, h3, h4⟩ := addUniforms_last_wins k l S o ho
    exact ⟨e, List.mem_of_find?_eq_some h1, h1, h2, h3, h4⟩
  · intro i e he hne
    exact addUniforms_keeps_other l S i e he hne
  · obtain ⟨app, h1, -, -⟩ := addUniforms_identities l S
    rw [List.map_take, h1]
    have : S.entries.length = (S.entries.map (fun x => x.uniform)).length := by simp
    rw [this, List.take_left]
  · obtain ⟨app, h1, h2, h3⟩ := addUniforms_identities l S
    have hlen := congrArg List.length h1
    simp only [List.length_map, List.length_append] at hlen
    have hperm : app.Perm (newIdentities S.entries l) := by
      refine (List.perm_ext_iff_of_nodup h2 ((List.nodup_dedup _).filter _)).2 (fun k => ?_)
      rw [h3 k]
      simp [newIdentities, List.mem_filter, List.mem_dedup]
    rw [hlen, hperm.length_eq]

/-- Witness for C16: a set holding identities 5 and 6 merged with a set
holding identities 6, 7, 6, 7: one entry is added. -/
theorem addUniformSet_merge_witness :
    ∃ S', ((⟨true, some [UniformData.new 5 1 ⟨1, 0, 0, 0⟩ (fun _ => 0),
          UniformData.new 6 1 ⟨2, 0, 0, 0⟩ (fun _ => 0)]⟩ : UniformSet).addUniformSet
        ⟨true, some [UniformData.new 6 1 ⟨3, 0, 0, 0⟩ (fun _ => 0),
            UniformData.new 7 1 ⟨4, 0, 0, 0⟩ (fun _ => 0),
            UniformData.new 6 1 ⟨5, 0, 0, 0⟩ (fun _ => 0),
            UniformData.new 7 1 ⟨6, 0, 0, 0⟩ (fun _ => 0)]⟩) = some S' ∧
      S'.entries.length = 3 := by
  obtain ⟨S', h1, -, -, -, h5⟩ := addUniformSet_merge
    (⟨true, some [UniformData.new 5 1 ⟨1, 0, 0, 0⟩ (fun _ => 0),
          UniformData.new 6 1 ⟨2, 0, 0, 0⟩ (fun _ => 0)]⟩ : UniformSet)
    ⟨true, some [UniformData.new 6 1 ⟨3, 0, 0, 0⟩ (fun _ => 0),
        UniformData.new 7 1 ⟨4, 0, 0, 0⟩ (fun _ => 0),
        UniformData.new 6 1 ⟨5, 0, 0, 0⟩ (fun _ => 0),
        UniformData.new 7 1 ⟨6, 0, 0, 0⟩ (fun _ => 0)]⟩
    [UniformData.new 6 1 ⟨3, 0, 0, 0⟩ (fun _ => 0),
      UniformData.new 7 1 ⟨4, 0, 0, 0⟩ (fun _ => 0),
      UniformData.new 6 1 ⟨5, 0, 0, 0⟩ (fun _ => 0),
      UniformData.new 7 1 ⟨6, 0, 0, 0⟩ (fun _ => 0)] rfl
  refine ⟨S', h1, ?_⟩
  rw [h5]
  decide

/-! ## Closest points on two lines -/

theorem closestPointsOnTwoLines_of_ne (p1 v1 p2 v2 : Point3F)
    (hd : mDot v1 v1 * mDot v2 v2 - mDot v1 v2 * mDot v1 v2 ≠ 0) :
    closestPointsOnTwoLines p1 v1 p2 v2
      = (true,
          p1.add (v1.mul ((mDot v1 v2 * mDot v2 (p1.sub p2) - mDot v1 (p1.sub p2) * mDot v2 v2)
            / (mDot v1 v1 * mDot v2 v2 - mDot v1 v2 * mDot v1 v2))),
          p2.add (v2.mul ((mDot v1 v1 * mDot v2 (p1.sub p2) - mDot v1 (p1.sub p2) * mDot v1 v2)
            / (mDot v1 v1 * mDot v2 v2 - mDot v1 v2 * mDot v1 v2)))) := by
  simp only [closestPointsOnTwoLines, if_pos hd]

theorem closestPointsOnTwoLines_of_eq (p1 v1 p2 v2 : Point3F)
    (hd : mDot v1 v1 * mDot v2 v2 - mDot v1 v2 * mDot v1 v2 = 0) :
    closestPointsOnTwoLines p1 v1 p2 v2 = (false, Point3F.Zero, Point3F.Zero) := by
  simp only [closestPointsOnTwoLines, hd, ne_eq, not_true_eq_false, if_false]

theorem lagrange_identity (v1 v2 : Point3F) :
    mDot v1 v1 * mDot v2 v2 - mDot v1 v2 * mDot v1 v2
      = (v1.y * v2.z - v1.z * v2.y) ^ 2 + (v1.z * v2.x - v1.x * v2.z) ^ 2
        + (v1.x * v2.y - v1.y * v2.x) ^ 2 := by
  simp only [mDot]
  ring

/-- C18: over exact arithmetic, `closestPointsOnTwoLines` returns false with
both output points at the zero vector exactly when
`(v1.v1)(v2.v2) - (v1.v2)^2 = 0`, which holds exactly when the cross product of
the two direction vectors vanishes (they are parallel), and returns true
otherwise; directions `(1,0,0)` and `(2,0,0)` give false with both outputs
`(0,0,0)`, whatever the line points. -/
theorem closestPointsOnTwoLines_parallel (p1 v1 p2 v2 : Point3F) :
    (((closestPointsOnTwoLines p1 v1 p2 v2).1 = false ∧
        (closestPointsOnTwoLines p1 v1 p2 v2).2.1 = Point3F.Zero ∧
        (closestPointsOnTwoLines p1 v1 p2 v2).2.2 = Point3F.Zero) ↔
      mDot v1 v1 * mDot v2 v2 - mDot v1 v2 ^ 2 = 0) ∧
    ((closestPointsOnTwoLines p1 v1 p2 v2).1 = false ↔
      mDot v1 v1 * mDot v2 v2 - mDot v1 v2 ^ 2 = 0) ∧
    ((closestPointsOnTwoLines p1 v1 p2 v2).1 = true ↔
      mDot v1 v1 * mDot v2 v2 - mDot v1 v2 ^ 2 ≠ 0) ∧
    (mDot v1 v1 * mDot v2 v2 - mDot v1 v2 ^ 2 = 0 ↔
      (v1.y * v2.z - v1.z * v2.y = 0 ∧ v1.z * v2.x - v1.x * v2.z = 0 ∧
        v1.x * v2.y - v1.y * v2.x = 0)) ∧
    closestPointsOnTwoLines p1 ⟨1, 0, 0⟩ p2 ⟨2, 0, 0⟩ = (false, ⟨0, 0, 0⟩, ⟨0, 0, 0⟩) := by
  have hsq : mDot v1 v1 * mDot v2 v2 - mDot v1 v2 ^ 2
      = mDot v1 v1 * mDot v2 v2 - mDot v1 v2 * mDot v1 v2 := by ring
  rw [hsq]
  refine ⟨?_, ?_, ?_, ?_, ?_⟩
  · by_cases hd : mDot v1 v1 * mDot v2 v2 - mDot v1 v2 * mDot v1 v2 = 0
    · rw [closestPointsOnTwoLines_of_eq p1 v1 p2 v2 hd]
      simp [hd]
    · rw [closestPointsOnTwoLines_of_ne p1 v1 p2 v2 hd]
      simp [hd]
  · by_cases hd : mDot v1 v1 * mDot v2 v2 - mDot v1 v2 * mDot v1 v2 = 0
    · rw [closestPointsOnTwoLines_of_eq p1 v1 p2 v2 hd]
      simp [hd]
    · rw [closestPointsOnTwoLines_of_ne p1 v1 p2 v2 hd]
      simp [hd]
  · by_cases hd : mDot v1 v1 * mDot v2 v2 - mDot v1 v2 * mDot v1 v2 = 0
    · rw [closestPointsOnTwoLines_of_eq p1 v1 p2 v2 hd]
      simp [hd]
    · rw [closestPointsOnTwoLines_of_ne p1 v1 p2 v2 hd]
      simp [hd]
  · rw [lagrange_identity]
    constructor
    · intro h
      have h1 := sq_nonneg (v1.y * v2.z - v1.z * v2.y)
      have h2 := sq_nonneg (v1.z * v2.x - v1.x * v2.z)
      have h3 := sq_nonneg (v1.x * v2.y - v1.y * v2.x)
      refine ⟨?_, ?_, ?_⟩
      · exact pow_eq_zero_iff (two_ne_zero) |>.1 (by linarith)
      · exact pow_eq_zero_iff (two_ne_zero) |>.1 (by linarith)
      · exact pow_eq_zero_iff (two_ne_zero) |>.1 (by linarith)
    · rintro ⟨h1, h2, h3⟩
      rw [h1, h2, h3]
      norm_num
  · exact closestPointsOnTwoLines_of_eq p1 ⟨1, 0, 0⟩ p2 ⟨2, 0, 0⟩ (by simp [mDot])

theorem closest_offsets_orthogonal (p1 v1 p2 v2 : Point3F)
    (hd : mDot v1 v1 * mDot v2 v2 - mDot v1 v2 * mDot v1 v2 ≠ 0) :
    mDot ((p1.add (v1.mul ((mDot v1 v2 * mDot v2 (p1.sub p2) - mDot v1 (p1.sub p2) * mDot v2 v2)
          / (mDot v1 v1 * mDot v2 v2 - mDot v1 v2 * mDot v1 v2)))).sub
        (p2.add (v2.mul ((mDot v1 v1 * mDot v2 (p1.sub p2) - mDot v1 (p1.sub p2) * mDot v1 v2)
          / (mDot v1 v1 * mDot v2 v2 - mDot v1 v2 * mDot v1 v2))))) v1 = 0 ∧
    mDot ((p1.add (v1.mul ((mDot v1 v2 * mDot v2 (p1.sub p2) - mDot v1 (p1.sub p2) * mDot v2 v2)
          / (mDot v1 v1 * mDot v2 v2 - mDot v1 v2 * mDot v1 v2)))).sub
        (p2.add (v2.mul ((mDot v1 v1 * mDot v2 (p1.sub p2) - mDot v1 (p1.sub p2) * mDot v1 v2)
          / (mDot v1 v1 * mDot v2 v2 - mDot v1 v2 * mDot v1 v2))))) v2 = 0 := by
  obtain ⟨p1x, p1y, p1z⟩ := p1
  obtain ⟨v1x, v1y, v1z⟩ := v1
  obtain ⟨p2x, p2y, p2z⟩ := p2
  obtain ⟨v2x, v2y, v2z⟩ := v2
  simp only [mDot, Point3F.sub, Point3F.add, Point3F.mul] at hd ⊢
  constructor
  · field_simp
    ring
  · field_simp
    ring

theorem orthogonal_offset_minimal (p1 v1 p2 v2 : Point3F) (s t : F32)
    (h1 : mDot ((p1.add (v1.mul s)).sub (p2.add (v2.mul t))) v1 = 0)
    (h2 : mDot ((p1.add (v1.mul s)).sub (p2.add (v2.mul t))) v2 = 0) (s' t' : F32) :
    mDot ((p1.add (v1.mul s)).sub (p2.add (v2.mul t)))
        ((p1.add (v1.mul s)).sub (p2.add (v2.mul t)))
      ≤ mDot ((p1.add (v1.mul s')).sub (p2.add (v2.mul t')))
        ((p1.add (v1.mul s')).sub (p2.add (v2.mul t'))) := by
  obtain ⟨p1x, p1y, p1z⟩ := p1
  obtain ⟨v1x, v1y, v1z⟩ := v1
  obtain ⟨p2x, p2y, p2z⟩ := p2
  obtain ⟨v2x, v2y, v2z⟩ := v2
  simp only [mDot, Point3F.sub, Point3F.add, Point3F.mul] at h1 h2 ⊢
  nlinarith [sq_nonneg (v1x * (s' - s) - v2x * (t' - t)),
    sq_nonneg (v1y * (s' - s) - v2y * (t' - t)),
    sq_nonneg (v1z * (s' - s) - v2z * (t' - t)),
    congrArg (fun q => q * (s' - s)) h1, congrArg (fun q => q * (t' - t)) h2]

/-- C19: over exact arithmetic, whenever `closestPointsOnTwoLines` returns
true there are parameters `s`, `t` with `closestPointLine1 = linePoint1 +
lineVec1 * s` and `closestPointLine2 = linePoint2 + lineVec2 * t`, the vector
between the two returned points is orthogonal to both direction vectors, and no
pair of points, one on each line, is closer than the returned pair; for the
lines `(0,0,0)+t(1,0,0)` and `(0,1,0)+t(0,0,1)` it returns true with the points
`(0,0,0)` and `(0,1,0)`. -/
theorem closestPointsOnTwoLines_closest (p1 v1 p2 v2 : Point3F) :
    ((closestPointsOnTwoLines p1 v1 p2 v2).1 = true →
      ∃ s t : F32,
        (closestPointsOnTwoLines p1 v1 p2 v2).2.1 = p1.add (v1.mul s) ∧
        (closestPointsOnTwoLines p1 v1 p2 v2).2.2 = p2.add (v2.mul t) ∧
        mDot ((closestPointsOnTwoLines p1 v1 p2 v2).2.1.sub
          (closestPointsOnTwoLines p1 v1 p2 v2).2.2) v1 = 0 ∧
        mDot ((closestPointsOnTwoLines p1 v1 p2 v2).2.1.sub
          (closestPointsOnTwoLines p1 v1 p2 v2).2.2) v2 = 0 ∧
        ∀ s' t' : F32,
          mDot ((closestPointsOnTwoLines p1 v1 p2 v2).2.1.sub
              (closestPointsOnTwoLines p1 v1 p2 v2).2.2)
            ((closestPointsOnTwoLines p1 v1 p2 v2).2.1.sub
              (closestPointsOnTwoLines p1 v1 p2 v2).2.2)
          ≤ mDot ((p1.add (v1.mul s')).sub (p2.add (v2.mul t')))
              ((p1.add (v1.mul s')).sub (p2.add (v2.mul t')))) ∧
    closestPointsOnTwoLines ⟨0, 0, 0⟩ ⟨1, 0, 0⟩ ⟨0, 1, 0⟩ ⟨0, 0, 1⟩
      = (true, ⟨0, 0, 0⟩, ⟨0, 1, 0⟩) := by
  constructor
  · intro htrue
    by_cases hd : mDot v1 v1 * mDot v2 v2 - mDot v1 v2 * mDot v1 v2 = 0
    · rw [closestPointsOnTwoLines_of_eq p1 v1 p2 v2 hd] at htrue
      cases htrue
    · obtain ⟨h1, h2⟩ := closest_offsets_orthogonal p1 v1 p2 v2 hd
      rw [closestPointsOnTwoLines_of_ne p1 v1 p2 v2 hd]
      exact ⟨_, _, rfl, rfl, h1, h2, fun s' t' => orthogonal_offset_minimal p1 v1 p2 v2 _ _ h1 h2 s' t'⟩
  · rw [closestPointsOnTwoLines_of_ne _ _ _ _ (by simp [mDot])]
    simp [mDot, Point3F.sub, Point3F.add, Point3F.mul]

/-- Witness for C19: the lines `(1,2,3)+t(1,1,0)` and `(0,0,0)+t(0,1,1)` are
not parallel, so the returned points are a closest pair. -/
theorem closestPointsOnTwoLines_closest_witness :
    ∃ s t : F32,
      (closestPointsOnTwoLines ⟨1, 2, 3⟩ ⟨1, 1, 0⟩ ⟨0, 0, 0⟩ ⟨0, 1, 1⟩).2.1
        = (⟨1, 2, 3⟩ : Point3F).add ((⟨1, 1, 0⟩ : Point3F).mul s) ∧
      (closestPointsOnTwoLines ⟨1, 2, 3⟩ ⟨1, 1, 0⟩ ⟨0, 0, 0⟩ ⟨0, 1, 1⟩).2.2
        = (⟨0, 0, 0⟩ : Point3F).add ((⟨0, 1, 1⟩ : Point3F).mul t) ∧
      mDot ((closestPointsOnTwoLines ⟨1, 2, 3⟩ ⟨1, 1, 0⟩ ⟨0, 0, 0⟩ ⟨0, 1, 1⟩).2.1.sub
        (closestPointsOnTwoLines ⟨1, 2, 3⟩ ⟨1, 1, 0⟩ ⟨0, 0, 0⟩ ⟨0, 1, 1⟩).2.2) ⟨1, 1, 0⟩ = 0 := by
  obtain ⟨s, t, h1, h2, h3, -, -⟩ :=
    (closestPointsOnTwoLines_closest ⟨1, 2, 3⟩ ⟨1, 1, 0⟩ ⟨0, 0, 0⟩ ⟨0, 1, 1⟩).1
      (by rw [closestPointsOnTwoLines_of_ne _ _ _ _ (by simp [mDot]; norm_num)])
  exact ⟨s, t, h1, h2, h3⟩

/-! ## Window updates -/

/-- C21: `updateWindow(width, height)` always stores `(width, height)` as the
window size; when the size differs from the stored one it adds to the trace
exactly the backend reset followed by the scene refresh, and when it does not
differ it adds nothing; in neither case is a hook callback or a camera render
step invoked. -/
theorem updateWindow_effects (s : State) (width height : Nat) :
    (updateWindow s width height).windowWidth = width ∧
    (updateWindow s width height).windowHeight = height ∧
    ((updateWindow s width height).calls.drop s.calls.length
        = [Call.graphicsReset, Call.sceneRefresh] ↔
      (s.windowWidth ≠ width ∨ s.windowHeight ≠ height)) ∧
    ((updateWindow s width height).calls.drop s.calls.length = [] ↔
      ¬ (s.windowWidth ≠ width ∨ s.windowHeight ≠ height)) ∧
    (∃ added, (updateWindow s width height).calls = s.calls ++ added) ∧
    hookCallbacks ((updateWindow s width height).calls.drop s.calls.length) = [] ∧
    renderedCameras ((updateWindow s width height).calls.drop s.calls.length) = [] := by
  by_cases h : s.windowWidth ≠ width ∨ s.windowHeight ≠ height
  · have hcalls : (updateWindow s width height).calls
        = s.calls ++ [Call.graphicsReset, Call.sceneRefresh] := by
      simp [updateWindow, resize, h]
    refine ⟨by simp [updateWindow, resize, h], by simp [updateWindow, resize, h], ?_, ?_,
      ⟨_, hcalls⟩, ?_, ?_⟩
    · rw [hcalls, List.drop_left]; simp [h]
    · rw [hcalls, List.drop_left]; simp [h]
    · rw [hcalls, List.drop_left]; simp [hookCallbacks]
    · rw [hcalls, List.drop_left]; simp [renderedCameras]
  · have hcalls : (updateWindow s width height).calls = s.calls := by
      simp [updateWindow, resize, h]
    refine ⟨by simp [updateWindow, resize, h], by simp [updateWindow, resize, h], ?_, ?_,
      ⟨[], by rw [hcalls]; simp⟩, ?_, ?_⟩
    · rw [hcalls]; simp [h]
    · rw [hcalls]; simp [h]
    · rw [hcalls]; simp [hookCallbacks]
    · rw [hcalls]; simp [renderedCameras]

theorem updateWindow_renderTextureList (s : State) (width height : Nat) :
    (updateWindow s width height).renderTextureList = s.renderTextureList := by
  by_cases h : s.windowWidth ≠ width ∨ s.windowHeight ≠ height <;>
    simp [updateWindow, resize, h]

theorem windowStep_keeps_texture (s : State) (op : WindowOp) (name : Nat) (rt : RenderTexture)
    (h : getRenderTexture s name = some rt) :
    getRenderTexture (windowStep s op) name = some rt := by
  cases op with
  | update width height =>
    simp only [windowStep, getRenderTexture, updateWindow_renderTextureList]
    exact h
  | create name2 ratio ptr handle =>
    simp only [windowStep]
    cases hf : getRenderTexture s name2 with
    | some rt2 => simpa [createRenderTexture_ratio, hf] using h
    | none =>
      have hl : (createRenderTexture_ratio s name2 ratio ptr handle).2.renderTextureList
          = s.renderTextureList ++ [⟨ptr, name2, handle, s.windowWidth, s.windowHeight⟩] := by
        simp [createRenderTexture_ratio, hf]
      simp only [getRenderTexture] at h ⊢
      rw [hl, List.find?_append, h]
      rfl

theorem windowRun_keeps_texture (ops : List WindowOp) :
    ∀ (s : State) (name : Nat) (rt : RenderTexture), getRenderTexture s name = some rt →
      getRenderTexture (windowRun s ops) name = some rt := by
  induction ops with
  | nil => intro s name rt h; exact h
  | cons op rest ih =>
    intro s name rt h
    exact ih (windowStep s op) name rt (windowStep_keeps_texture s op name rt h)

/-- C22 fails as stated: with a window of 800 x 600, a render texture created
with the `Half` ratio stores 800 x 600, not the halved size 400 x 300; and a
texture created with the `Equal` ratio still stores 800 x 600 after
`updateWindow(1024, 768)` has made the window 1024 x 768. -/
theorem ratio_texture_not_scaled :
    (createRenderTexture_ratio (updateWindow startup 800 600) 7 1 200 1).1
      = ⟨200, 7, 1, 800, 600⟩ ∧
    backbufferRatioScale 1 (updateWindow startup 800 600).windowWidth = 400 ∧
    backbufferRatioScale 1 (updateWindow startup 800 600).windowHeight = 300 ∧
    getRenderTexture
      (windowRun startup
        [WindowOp.update 800 600, WindowOp.create 7 0 200 1, WindowOp.update 1024 768]) 7
      = some ⟨200, 7, 1, 800, 600⟩ ∧
    (windowRun startup
      [WindowOp.update 800 600, WindowOp.create 7 0 200 1, WindowOp.update 1024 768]).windowWidth
      = 1024 ∧
    (windowRun startup
      [WindowOp.update 800 600, WindowOp.create 7 0 200 1, WindowOp.update 1024 768]).windowHeight
      = 768 ∧
    backbufferRatioScale 0 1024 = 1024 ∧ backbufferRatioScale 0 768 = 768 := by
  refine ⟨?_, ?_, ?_, ?_, ?_, ?_, ?_, ?_⟩ <;> decide

/-- C22 (as amended): along every sequence of `createRenderTexture(name, ratio)`
and `updateWindow` calls, a render texture created under a name that was not
registered stores, whatever its ratio, the window width and height that were
current at the moment of its creation, and it is still registered with exactly
that width and height after every later window update and creation. -/
theorem ratio_texture_keeps_creation_size (s : State) (pre post : List WindowOp)
    (name ratio ptr handle : Nat)
    (hfresh : getRenderTexture (windowRun s pre) name = none) :
    (createRenderTexture_ratio (windowRun s pre) name ratio ptr handle).1
      = ⟨ptr, name, handle, (windowRun s pre).windowWidth, (windowRun s pre).windowHeight⟩ ∧
    getRenderTexture (windowRun s (pre ++ WindowOp.create name ratio ptr handle :: post)) name
      = some ⟨ptr, name, handle, (windowRun s pre).windowWidth,
          (windowRun s pre).windowHeight⟩ := by
  have hcreate : (createRenderTexture_ratio (windowRun s pre) name ratio ptr handle).1
      = ⟨ptr, name, handle, (windowRun s pre).windowWidth, (windowRun s pre).windowHeight⟩ := by
    simp [createRenderTexture_ratio, hfresh]
  refine ⟨hcreate, ?_⟩
  have hrun : windowRun s (pre ++ WindowOp.create name ratio ptr handle :: post)
      = windowRun (createRenderTexture_ratio (windowRun s pre) name ratio ptr handle).2 post := by
    simp [windowRun, List.foldl_append, windowStep]
  rw [hrun]
  apply windowRun_keeps_texture
  rw [← hcreate]
  exact getRenderTexture_createRenderTexture_ratio _ name ratio ptr handle

/-- Witness for C22 (as amended): window 800 x 600, a `Half` texture named 7,
then a resize to 1024 x 768 and another texture: texture 7 still stores
800 x 600. -/
theorem ratio_texture_keeps_creation_size_witness :
    getRenderTexture
      (windowRun startup ([WindowOp.update 800 600] ++ WindowOp.create 7 1 200 1 ::
        [WindowOp.update 1024 768, WindowOp.create 8 0 201 2])) 7
      = some ⟨200, 7, 1, 800, 600⟩ :=
  (ratio_texture_keeps_creation_size startup [WindowOp.update 800 600]
    [WindowOp.update 1024 768, WindowOp.create 8 0 201 2] 7 1 200 1 (by decide)).2

/-! ## Reachable camera registries, release by name and by instance -/

theorem firstCamera_at (p : RenderCamera → Bool) (f : RenderCamera → RenderCamera)
    (c : RenderCamera) (post : List RenderCamera) (hc : p c = true) :
    ∀ pre : List RenderCamera, (∀ x ∈ pre, p x = false) →
      firstCamera p (pre ++ c :: post) = some c ∧
      updateFirstCamera p f (pre ++ c :: post) = pre ++ f c :: post ∧
      eraseFirstCamera p (pre ++ c :: post) = pre ++ post := by
  intro pre
  induction pre with
  | nil => intro _; simp [firstCamera, updateFirstCamera, eraseFirstCamera, hc]
  | cons a as ih =>
    intro h
    have ha : p a = false := h a (List.mem_cons_self _ _)
    obtain ⟨h1, h2, h3⟩ := ih (fun x hx => h x (List.mem_cons_of_mem _ hx))
    simp [firstCamera, updateFirstCamera, eraseFirstCamera, ha, h1, h2, h3]

theorem cameraInvariant_update (pre post : List RenderCamera) (c c' : RenderCamera)
    (hname : c'.name = c.name) (hcount : 1 ≤ c'.refCount)
    (h : ((pre ++ c :: post).map (fun x => x.name)).Nodup ∧
      ∀ x ∈ pre ++ c :: post, 1 ≤ x.refCount) :
    ((pre ++ c' :: post).map (fun x => x.name)).Nodup ∧
      ∀ x ∈ pre ++ c' :: post, 1 ≤ x.refCount := by
  obtain ⟨h1, h2⟩ := h
  refine ⟨by simpa [hname] using h1, fun x hx => ?_⟩
  rcases List.mem_append.1 hx with hx | hx
  · exact h2 x (List.mem_append_left _ hx)
  · rcases List.mem_cons.1 hx with hx | hx
    · rw [hx]; exact hcount
    · exact h2 x (List.mem_append_right _ (List.mem_cons_of_mem _ hx))

theorem cameraInvariant_erase (pre post : List RenderCamera) (c : RenderCamera)
    (h : ((pre ++ c :: post).map (fun x => x.name)).Nodup ∧
      ∀ x ∈ pre ++ c :: post, 1 ≤ x.refCount) :
    ((pre ++ post).map (fun x => x.name)).Nodup ∧ ∀ x ∈ pre ++ post, 1 ≤ x.refCount := by
  obtain ⟨h1, h2⟩ := h
  have hsub : (pre ++ post).Sublist (pre ++ c :: post) :=
    List.Sublist.append (List.Sublist.refl _) (List.sublist_cons_self _ _)
  exact ⟨h1.sublist (hsub.map _), fun x hx => h2 x (hsub.subset hx)⟩

theorem cameraInvariant_create (s : State) (name renderingPath ptr : Nat) (priority : Int)
    (h : (s.renderCameraList.map (fun x => x.name)).Nodup ∧
      ∀ x ∈ s.renderCameraList, 1 ≤ x.refCount) :
    ((createRenderCamera s name renderingPath ptr priority).2.renderCameraList.map
        (fun x => x.name)).Nodup ∧
      ∀ x ∈ (createRenderCamera s name renderingPath ptr priority).2.renderCameraList,
        1 ≤ x.refCount := by
  cases hf : firstCamera (fun c => c.name == name) s.renderCameraList with
  | none =>
    have hfresh : ∀ c ∈ s.renderCameraList, c.name ≠ name := fun c hc => by
      simpa using (firstCamera_none _ _).1 hf c hc
    rw [createRenderCamera_fresh s name renderingPath ptr priority hfresh]
    obtain ⟨h1, h2⟩ := h
    refine ⟨?_, fun x hx => ?_⟩
    · rw [List.map_append]
      refine List.Nodup.append h1 (List.nodup_singleton _) ?_
      intro a ha hb
      obtain rfl : a = name := by simpa using hb
      obtain ⟨x, hx, hxa⟩ := List.mem_map.1 ha
      exact hfresh x hx hxa
    · rcases List.mem_append.1 hx with hx | hx
      · exact h2 x hx
      · obtain rfl : x = ⟨ptr, name, 1, priority, renderingPath⟩ := by simpa using hx
        exact le_refl _
  | some c =>
    obtain ⟨pre, post, h1, -, -, h4, -⟩ := firstCamera_split (fun c => c.name == name)
      (fun c => { c with refCount := c.refCount + 1 }) _ c hf
    have hl : (createRenderCamera s name renderingPath ptr priority).2.renderCameraList
        = pre ++ { c with refCount := c.refCount + 1 } :: post := by
      simp [createRenderCamera, getRenderCamera, hf, h4]
    rw [hl]
    rw [h1] at h
    refine cameraInvariant_update pre post c _ rfl ?_ h
    have := h.2 c (by simp)
    show 1 ≤ c.refCount + 1
    omega

theorem cameraInvariant_destroy (s : State) (p : RenderCamera → Bool)
    (h : (s.renderCameraList.map (fun x => x.name)).Nodup ∧
      ∀ x ∈ s.renderCameraList, 1 ≤ x.refCount) :
    ((destroyFirstCamera s p).2.renderCameraList.map (fun x => x.name)).Nodup ∧
      ∀ x ∈ (destroyFirstCamera s p).2.renderCameraList, 1 ≤ x.refCount := by
  cases hf : firstCamera p s.renderCameraList with
  | none => simpa [destroyFirstCamera, hf] using h
  | some c =>
    obtain ⟨pre, post, h1, -, -, h4, h5⟩ :=
      firstCamera_split p (fun c => { c with refCount := c.refCount - 1 }) _ c hf
    rw [h1] at h
    by_cases hr : c.refCount - 1 < 1
    · have hl : (destroyFirstCamera s p).2.renderCameraList = pre ++ post := by
        simp [destroyFirstCamera, hf, hr, h5]
      rw [hl]
      exact cameraInvariant_erase pre post c h
    · have hl : (destroyFirstCamera s p).2.renderCameraList
          = pre ++ { c with refCount := c.refCount - 1 } :: post := by
        simp [destroyFirstCamera, hf, hr, h4]
      rw [hl]
      refine cameraInvariant_update pre post c _ rfl ?_ h
      show 1 ≤ c.refCount - 1
      omega

theorem cameraInvariant_sort (l : List RenderCamera)
    (h : (l.map (fun x => x.name)).Nodup ∧ ∀ x ∈ l, 1 ≤ x.refCount) :
    ((dQsort compareRenderCameraPriority l).map (fun x => x.name)).Nodup ∧
      ∀ x ∈ dQsort compareRenderCameraPriority l, 1 ≤ x.refCount := by
  have hperm := dQsort_perm compareRenderCameraPriority l
  exact ⟨(hperm.map _).nodup_iff.2 h.1, fun x hx => h.2 x (hperm.mem_iff.1 hx)⟩

/-- C23: in every camera registry state reachable from the empty registry
through `createRenderCamera`, both `destroyRenderCamera` overloads,
`getPriorityRenderCamera` and `render`, the registered cameras have pairwise
distinct names and every registered camera has reference count at least 1. -/
theorem cameraReachable_invariant (s : State) (hreach : CameraReachable s) :
    (s.renderCameraList.map (fun c => c.name)).Nodup ∧
      ∀ c ∈ s.renderCameraList, 1 ≤ c.refCount := by
  induction hreach with
  | empty s h0 => simp [h0]
  | create s name renderingPath ptr priority _ ih =>
    exact cameraInvariant_create s name renderingPath ptr priority ih
  | destroy_ptr s camera _ ih => exact cameraInvariant_destroy s _ ih
  | destroy_name s name _ ih => exact cameraInvariant_destroy s _ ih
  | getPriority s _ ih =>
    rw [getPriorityRenderCamera_renderCameraList]
    exact cameraInvariant_sort _ ih
  | render s preprocessingActive _ ih =>
    cases preprocessingActive with
    | true =>
      have : (render s true).renderCameraList = s.renderCameraList := by simp [render]
      rw [this]; exact ih
    | false =>
      rw [render_renderCameraList]
      exact cameraInvariant_sort _ ih

/-- Witness for C23: create camera 7 twice and camera 8 once, release 7 by
name, then render. -/
theorem cameraReachable_invariant_witness :
    ((render (destroyRenderCamera_name
        (createRenderCamera (createRenderCamera (createRenderCamera startup 7 0 100 5).2
          7 0 101 0).2 8 0 102 3).2 7).2 false).renderCameraList.map (fun c => c.name)).Nodup ∧
      ∀ c ∈ (render (destroyRenderCamera_name
        (createRenderCamera (createRenderCamera (createRenderCamera startup 7 0 100 5).2
          7 0 101 0).2 8 0 102 3).2 7).2 false).renderCameraList, 1 ≤ c.refCount :=
  cameraReachable_invariant _
    (CameraReachable.render _ false
      (CameraReachable.destroy_name _ 7
        (CameraReachable.create _ 8 0 102 3
          (CameraReachable.create _ 7 0 101 0
            (CameraReachable.create startup 7 0 100 5 (CameraReachable.empty startup rfl))))))

/-- C25: for every camera registry state in which entries with the same
address carry the same name (they are the same object) and every name,
`destroyRenderCamera(name)` and `destroyRenderCamera(getRenderCamera(name))`
return the same boolean and leave the same state behind: the same registry,
the same reference counts and the same calls. -/
theorem destroyRenderCamera_name_eq_ptr (s : State) (name : Nat)
    (hobj : ∀ a ∈ s.renderCameraList, ∀ b ∈ s.renderCameraList, a.ptr = b.ptr → a.name = b.name) :
    destroyRenderCamera_name s name
      = destroyRenderCamera_ptr s ((getRenderCamera s name).map (fun c => c.ptr)) := by
  unfold destroyRenderCamera_name destroyRenderCamera_ptr getRenderCamera
  cases hf : firstCamera (fun c => c.name == name) s.renderCameraList with
  | none =>
    have hq : firstCamera (fun c => some c.ptr == (none : Option Nat)) s.renderCameraList = none :=
      (firstCamera_none _ _).2 (fun c _ => by simp)
    simp only [destroyFirstCamera, Option.map_none', hf, hq]
  | some c =>
    obtain ⟨pre, post, h1, h2, h3, -, -⟩ :=
      firstCamera_split (fun c => c.name == name) id _ c hf
    have hcname : c.name = name := by simpa using h3
    have hcmem : c ∈ s.renderCameraList := by rw [h1]; simp
    have hpre : ∀ x ∈ pre, (some x.ptr == some c.ptr) = false := by
      intro x hx
      have hxn : x.name ≠ name := by simpa using h2 x hx
      have hxmem : x ∈ s.renderCameraList := by rw [h1]; exact List.mem_append_left _ hx
      have : x.ptr ≠ c.ptr := fun hp => hxn ((hobj x hxmem c hcmem hp).trans hcname)
      simpa using this
    obtain ⟨n1, n2, n3⟩ := firstCamera_at (fun c => c.name == name)
      (fun c => { c with refCount := c.refCount - 1 }) c post h3 pre h2
    obtain ⟨q1, q2, q3⟩ := firstCamera_at (fun x => some x.ptr == some c.ptr)
      (fun c => { c with refCount := c.refCount - 1 }) c post (by simp) pre hpre
    rw [← h1] at n1 n2 n3 q1 q2 q3
    simp only [destroyFirstCamera, Option.map_some', n1, n2, n3, q1, q2, q3]

/-- Witness for C25: cameras 7 and 8 at distinct addresses; releasing 8 by
name and by the instance found under that name agree. -/
theorem destroyRenderCamera_name_eq_ptr_witness :
    destroyRenderCamera_name (sampleCameras [⟨100, 7, 1, 0, 0⟩, ⟨101, 8, 2, 5, 0⟩]) 8
      = destroyRenderCamera_ptr (sampleCameras [⟨100, 7, 1, 0, 0⟩, ⟨101, 8, 2, 5, 0⟩])
          ((getRenderCamera (sampleCameras [⟨100, 7, 1, 0, 0⟩, ⟨101, 8, 2, 5, 0⟩]) 8).map
            (fun c => c.ptr)) :=
  destroyRenderCamera_name_eq_ptr (sampleCameras [⟨100, 7, 1, 0, 0⟩, ⟨101, 8, 2, 5, 0⟩]) 8
    (by decide)

/-! ## Reachable uniform sets, hook multiplicity -/

theorem addUniform_nodup (S : UniformSet) (u : UniformData)
    (h : (S.entries.map (fun x => x.uniform)).Nodup) :
    ((S.addUniform u).2.entries.map (fun x => x.uniform)).Nodup := by
  rw [addUniform_identities]
  by_cases hmem : u.uniform ∈ S.entries.map (fun x => x.uniform)
  · simpa [hmem] using h
  · rw [if_neg hmem]
    refine List.Nodup.append h (List.nodup_singleton _) ?_
    intro a ha hb
    obtain rfl : a = u.uniform := by simpa using hb
    exact hmem ha

theorem addUniforms_nodup :
    ∀ (l : List UniformData) (S : UniformSet), (S.entries.map (fun x => x.uniform)).Nodup →
      ((S.addUniforms l).entries.map (fun x => x.uniform)).Nodup := by
  intro l
  induction l with
  | nil => intro S h; exact h
  | cons u rest ih => intro S h; exact ih _ (addUniform_nodup S u h)

theorem clear_entries (S : UniformSet) : S.clear.entries = [] := by
  obtain ⟨selfMade, uniforms⟩ := S
  cases uniforms <;> rfl

/-- C24: every UniformSet state reachable from a set without entries through
`addUniform(const UniformData&)`, `addUniformSet` and `clear` has entries with
pairwise distinct uniform identities. -/
theorem uniformSetReachable_distinct (S : UniformSet) (hreach : UniformSetReachable S) :
    (S.entries.map (fun u => u.uniform)).Nodup := by
  induction hreach with
  | empty S h0 => simp [h0]
  | addUniform S uniform _ ih => exact addUniform_nodup S uniform ih
  | addUniformSet S other S' _ hadd ih =>
    unfold UniformSet.addUniformSet at hadd
    cases ho : other.uniforms with
    | none => rw [ho] at hadd; cases hadd
    | some l =>
      rw [ho] at hadd
      obtain rfl : S.addUniforms l = S' := Option.some.inj hadd
      exact addUniforms_nodup l S ih
  | clear S _ _ => rw [clear_entries]; exact List.nodup_nil

/-- Witness for C24: two uniforms of identity 5 and one of identity 6 added to
the new set. -/
theorem uniformSetReachable_distinct_witness :
    ((((UniformSet.new.addUniform (UniformData.new 5 1 ⟨1, 0, 0, 0⟩ (fun _ => 0))).2.addUniform
        (UniformData.new 6 1 ⟨2, 0, 0, 0⟩ (fun _ => 0))).2.addUniform
        (UniformData.new 5 1 ⟨3, 0, 0, 0⟩ (fun _ => 0))).2.entries.map
      (fun u => u.uniform)).Nodup :=
  uniformSetReachable_distinct _
    (UniformSetReachable.addUniform _ _
      (UniformSetReachable.addUniform _ _
        (UniformSetReachable.addUniform _ _ (UniformSetReachable.empty UniformSet.new rfl))))

theorem eraseFirstHook_eq_erase (hook : Nat) :
    ∀ l : List Nat,
      eraseFirstHook hook l = if hook ∈ l then some (l.erase hook) else none := by
  intro l
  induction l with
  | nil => simp [eraseFirstHook]
  | cons h rest ih =>
    unfold eraseFirstHook
    by_cases hh : h = hook
    · simp [hh]
    · rw [if_neg hh, ih]
      by_cases hm : hook ∈ rest
      · simp [hm, List.erase_cons, hh]
      · simp [hm, hh, Ne.symm hh]

theorem removeRenderHook_of_mem (s : State) (hook : Nat) (h : hook ∈ s.renderHookList) :
    (removeRenderHook s hook).1 = true ∧
      (removeRenderHook s hook).2.renderHookList = s.renderHookList.erase hook := by
  simp [removeRenderHook, eraseFirstHook_eq_erase, h]

theorem removeRenderHook_of_not_mem (s : State) (hook : Nat) (h : hook ∉ s.renderHookList) :
    removeRenderHook s hook = (false, s) := by
  simp [removeRenderHook, eraseFirstHook_eq_erase, h]

theorem removeRenderHookTimes_count (hook : Nat) :
    ∀ (k : Nat) (s : State), s.renderHookList.count hook = k →
      (removeRenderHookTimes hook k s).2 = List.replicate k true ∧
      (removeRenderHookTimes hook k s).1.renderHookList.count hook = 0 ∧
      (removeRenderHookTimes hook k s).1.renderHookList.filter (fun h => h != hook)
        = s.renderHookList.filter (fun h => h != hook) := by
  intro k
  induction k with
  | zero => intro s h; exact ⟨rfl, h, rfl⟩
  | succ k ih =>
    intro s h
    have hmem : hook ∈ s.renderHookList := List.count_pos_iff.1 (by omega)
    obtain ⟨h1, h2⟩ := removeRenderHook_of_mem s hook hmem
    have hcount : (removeRenderHook s hook).2.renderHookList.count hook = k := by
      rw [h2, List.count_erase_self]; omega
    obtain ⟨e1, e2, e3⟩ := ih _ hcount
    refine ⟨?_, e2, ?_⟩
    · simp only [removeRenderHookTimes, h1, e1, List.replicate_succ]
    · show ((removeRenderHookTimes hook k (removeRenderHook s hook).2).1.renderHookList.filter _) = _
      rw [e3, h2]
      clear h hmem h1 h2 hcount e1 e2 e3 ih
      induction s.renderHookList with
      | nil => rfl
      | cons a as iha =>
        by_cases ha : a = hook
        · simp [ha]
        · rw [List.erase_cons_tail (by simpa using ha)]
          simp [List.filter_cons, ha, iha]

theorem count_beginFrame (hook : Nat) (hooks : List Nat) :
    (hooks.map Call.beginFrame).count (Call.beginFrame hook) = hooks.count hook := by
  induction hooks with
  | nil => rfl
  | cons a as ih => by_cases h : a = hook <;> simp [List.count_cons, h, ih]

theorem count_endFrame (hook : Nat) (hooks : List Nat) :
    (hooks.map Call.endFrame).count (Call.endFrame hook) = hooks.count hook := by
  induction hooks with
  | nil => rfl
  | cons a as ih => by_cases h : a = hook <;> simp [List.count_cons, h, ih]

theorem addRenderHookTimes_list (hook : Nat) :
    ∀ (k : Nat) (s : State),
      (addRenderHookTimes hook k s).renderHookList = s.renderHookList ++ List.replicate k hook := by
  intro k
  induction k with
  | zero => intro s; simp [addRenderHookTimes]
  | succ k ih =>
    intro s
    simp only [addRenderHookTimes, ih, addRenderHook, List.replicate_succ, List.append_assoc,
      List.singleton_append]

/-- C26: `addRenderHook(hook)` appends the hook at the end of the list whether
or not it is already registered; `removeRenderHook(hook)` erases the first
occurrence only and keeps the other entries in their order; a hook that occurs
`k` times in the list (for instance after being added `k` times to a list
without it) gets `k` `beginFrame` and `k` `endFrame` calls per rendered frame,
`k` successive removals of it all return true and leave the other entries as
they were, and the next removal returns false. -/
theorem hook_multiplicity (s : State) (hook k : Nat) :
    (addRenderHook s hook).renderHookList = s.renderHookList ++ [hook] ∧
    (hook ∈ s.renderHookList →
      (removeRenderHook s hook).1 = true ∧
      (removeRenderHook s hook).2.renderHookList = s.renderHookList.erase hook) ∧
    (addRenderHookTimes hook k s).renderHookList.count hook = s.renderHookList.count hook + k ∧
    (s.renderHookList.count hook = k →
      ((render s false).calls.drop s.calls.length).count (Call.beginFrame hook) = k ∧
      ((render s false).calls.drop s.calls.length).count (Call.endFrame hook) = k ∧
      (removeRenderHookTimes hook k s).2 = List.replicate k true ∧
      (removeRenderHookTimes hook k s).1.renderHookList.filter (fun h => h != hook)
        = s.renderHookList.filter (fun h => h != hook) ∧
      (removeRenderHook (removeRenderHookTimes hook k s).1 hook).1 = false) := by
  refine ⟨rfl, removeRenderHook_of_mem s hook, ?_, fun hk => ?_⟩
  · rw [addRenderHookTimes_list]
    simp [List.count_append, List.count_replicate_self]
  · obtain ⟨e1, e2, e3⟩ := removeRenderHookTimes_count hook k s hk
    have hcalls := (render_call_trace s).1
    refine ⟨?_, ?_, e1, e3, ?_⟩
    · rw [hcalls, List.drop_left]
      simp only [List.count_append, count_beginFrame, hk]
      have h1 : List.count (Call.beginFrame hook) [Call.resetViews] = 0 := by simp
      have h2 : ∀ l : List RenderCamera,
          List.count (Call.beginFrame hook) (l.map Call.cameraRender) = 0 := by
        intro l; induction l with
        | nil => rfl
        | cons a as ih => simp [List.count_cons, ih]
      have h3 : List.count (Call.beginFrame hook) (s.renderHookList.map Call.endFrame) = 0 := by
        induction s.renderHookList with
        | nil => rfl
        | cons a as ih => simp [List.count_cons, ih]
      rw [h1, h2, h3]
      omega
    · rw [hcalls, List.drop_left]
      simp only [List.count_append, count_endFrame, hk]
      have h1 : List.count (Call.endFrame hook) [Call.resetViews] = 0 := by simp
      have h2 : ∀ l : List RenderCamera,
          List.count (Call.endFrame hook) (l.map Call.cameraRender) = 0 := by
        intro l; induction l with
        | nil => rfl
        | cons a as ih => simp [List.count_cons, ih]
      have h3 : List.count (Call.endFrame hook) (s.renderHookList.map Call.beginFrame) = 0 := by
        induction s.renderHookList with
        | nil => rfl
        | cons a as ih => simp [List.count_cons, ih]
      rw [h1, h2, h3]
      omega
    · have hnot : hook ∉ (removeRenderHookTimes hook k s).1.renderHookList :=
        List.count_eq_zero.1 e2
      rw [removeRenderHook_of_not_mem _ hook hnot]

/-- Witness for C26: the hooks 4, 5, 5: hook 5 is notified twice per frame and
two removals return true. -/
theorem hook_multiplicity_witness :
    (((render { startup with renderHookList := [4, 5, 5] } false).calls.drop
        ({ startup with renderHookList := [4, 5, 5] } : State).calls.length).count
        (Call.beginFrame 5) = 2) ∧
    (removeRenderHookTimes 5 2 { startup with renderHookList := [4, 5, 5] }).2 = [true, true] ∧
    (removeRenderHook { startup with renderHookList := [4, 5, 5] } 5).2.renderHookList = [4, 5] :=
  ⟨((hook_multiplicity { startup with renderHookList := [4, 5, 5] } 5 2).2.2.2 (by decide)).1,
    ((hook_multiplicity { startup with renderHookList := [4, 5, 5] } 5 2).2.2.2 (by decide)).2.2.1,
    ((hook_multiplicity { startup with renderHookList := [4, 5, 5] } 5 2).2.1 (by decide)).2⟩

end Rendering

namespace Utility

/-! ## String elements -/

/-- C27: for the string "ab " (the word "ab" followed by a single separator
at the very end) and index 0, `mGetStringElement` with `copyBuffer = true`
returns "ab " with the separator included, while the word is "ab"; the same
happens for the last word of " ab\tcd\n".  When something follows the
separator ("ab  ", "ab cd") the word comes back without it. -/
theorem mGetStringElement_trailing_separator :
    mGetStringElementCount (bytes "ab ") = 1 ∧
    maximalRuns (bytes "ab ") = [bytes "ab"] ∧
    mGetStringElement (bytes "ab ") 0 true = ElementResult.found (bytes "ab ") ∧
    mGetStringElement (bytes "ab ") 0 true ≠ ElementResult.found (bytes "ab") ∧
    maximalRuns (bytes " ab\tcd\n") = [bytes "ab", bytes "cd"] ∧
    mGetStringElement (bytes " ab\tcd\n") 1 true = ElementResult.found (bytes "cd\n") ∧
    mGetStringElement (bytes "ab  ") 0 true = ElementResult.found (bytes "ab") ∧
    mGetStringElement (bytes "ab cd") 0 true = ElementResult.found (bytes "ab") := by
  refine ⟨?_, ?_, ?_, ?_, ?_, ?_, ?_, ?_⟩ <;> decide

theorem skipElement_length_le : ∀ s : List Nat, (skipElement s).length ≤ s.length := by
  intro s
  induction s with
  | nil => simp [skipElement]
  | cons c rest ih =>
    unfold skipElement
    by_cases h : isSeparator c = true
    · rw [if_pos h]; simp
    · rw [if_neg h]; simp; omega

theorem maximalRunsFrom_run (rest : List Nat) :
    ∀ run : List Nat, run ≠ [] →
      ∃ word, maximalRunsFrom run rest = word :: maximalRunsFrom [] (skipElement rest) := by
  induction rest with
  | nil => intro run h; exact ⟨run, by simp [maximalRunsFrom, skipElement, h]⟩
  | cons c rest ih =>
    intro run h
    by_cases hc : isSeparator c = true
    · exact ⟨run, by simp [maximalRunsFrom, skipElement, hc, h]⟩
    · obtain ⟨word, hw⟩ := ih (run ++ [c]) (by simp)
      exact ⟨word, by simp [maximalRunsFrom, skipElement, hc, hw]⟩

theorem maximalRuns_cons_separator (c : Nat) (rest : List Nat) (hc : isSeparator c = true) :
    maximalRunsFrom [] (c :: rest) = maximalRunsFrom [] rest := by
  simp [maximalRunsFrom, hc]

theorem maximalRuns_cons_word (c : Nat) (rest : List Nat) (hc : ¬ isSeparator c = true) :
    (maximalRunsFrom [] (c :: rest)).length
      = (maximalRunsFrom [] (skipElement rest)).length + 1 := by
  obtain ⟨word, hw⟩ := maximalRunsFrom_run rest [c] (by simp)
  simp [maximalRunsFrom, hc, hw]

theorem countLoop_eq (fuel : Nat) :
    ∀ (s : List Nat) (wordCount : Nat), s.length ≤ fuel → wordCount < 4294967296 →
      countLoop fuel s wordCount
        = (wordCount + (maximalRunsFrom [] s).length) % 4294967296 := by
  induction fuel with
  | zero =>
    intro s wordCount h hw
    have : s = [] := List.length_eq_zero.1 (by omega)
    subst this
    simp only [countLoop, maximalRunsFrom, if_true, List.length_nil]
    omega
  | succ fuel ih =>
    intro s wordCount h hw
    cases s with
    | nil =>
      simp only [countLoop, maximalRunsFrom, if_true, List.length_nil]
      omega
    | cons c rest =>
      have hrest : rest.length ≤ fuel := by simpa using h
      unfold countLoop
      by_cases hc : isSeparator c = true
      · rw [if_pos hc, ih rest wordCount hrest hw, maximalRuns_cons_separator c rest hc]
      · rw [if_neg hc, ih _ _ (le_trans (skipElement_length_le rest) hrest)
          (Nat.mod_lt _ (by omega)), maximalRuns_cons_word c rest hc]
        omega

theorem mGetStringElementCount_eq (s : List Nat) :
    mGetStringElementCount s = (maximalRuns s).length % 4294967296 := by
  unfold mGetStringElementCount maximalRuns
  by_cases h : s = []
  · simp [h, maximalRunsFrom]
  · rw [if_neg h, countLoop_eq _ _ _ (le_refl _) (by omega)]
    simp

theorem elementLoop_notFound (index : Nat) (copyBuffer : Bool) (hindex : index < 4294967296)
    (fuel : Nat) :
    ∀ (s : List Nat) (wordCount : Nat), s.length ≤ fuel → wordCount ≤ index →
      (elementLoop index copyBuffer fuel s wordCount = ElementResult.notFound ↔
        wordCount + (maximalRunsFrom [] s).length ≤ index) := by
  induction fuel with
  | zero =>
    intro s wordCount h hw
    have : s = [] := List.length_eq_zero.1 (by omega)
    subst this
    simp [elementLoop, maximalRunsFrom, hw]
  | succ fuel ih =>
    intro s wordCount h hw
    cases s with
    | nil => simp [elementLoop, maximalRunsFrom, hw]
    | cons c rest =>
      have hrest : rest.length ≤ fuel := by simpa using h
      unfold elementLoop
      by_cases hc : isSeparator c = true
      · rw [if_pos hc, ih rest wordCount hrest hw, maximalRuns_cons_separator c rest hc]
      · rw [if_neg hc, maximalRuns_cons_word c rest hc]
        by_cases hi : wordCount = index
        · rw [if_pos hi]
          subst hi
          cases copyBuffer with
          | false => simp
          | true =>
            simp only [Bool.not_true, Bool.false_eq_true, if_false]
            constructor
            · intro hres
              have hne : ∀ (t : List Nat) (length : Nat),
                  (if length < 4096 then ElementResult.found (t.take length)
                    else ElementResult.bufferOverrun) ≠ ElementResult.notFound := by
                intro t length
                split <;> simp
              exact absurd hres (hne _ _)
            · intro hle
              omega
        · have hmod : (wordCount + 1) % 4294967296 = wordCount + 1 :=
            Nat.mod_eq_of_lt (by omega)
          rw [if_neg hi, hmod, ih _ _ (le_trans (skipElement_length_le rest) hrest) (by omega)]
          omega

theorem mGetStringElement_found_iff (s : List Nat) (i : Nat) (copyBuffer : Bool)
    (hi : i < 4294967296) :
    mGetStringElement s i copyBuffer ≠ ElementResult.notFound ↔ i < (maximalRuns s).length := by
  unfold mGetStringElement maximalRuns
  by_cases h : s = []
  · simp [h, maximalRunsFrom]
  · rw [if_neg h, Ne, elementLoop_notFound i copyBuffer hi _ s 0 (le_refl _) (Nat.zero_le _)]
    omega

theorem maximalRuns_all_separators (s : List Nat) (hsep : ∀ c ∈ s, isSeparator c = true) :
    maximalRuns s = [] := by
  unfold maximalRuns
  induction s with
  | nil => simp [maximalRunsFrom]
  | cons c rest ih =>
    rw [maximalRuns_cons_separator c rest (hsep c (List.mem_cons_self _ _))]
    exact ih (fun x hx => hsep x (List.mem_cons_of_mem _ hx))

theorem maximalRuns_repeatWord (n : Nat) : (maximalRuns (repeatWord n)).length = n := by
  unfold maximalRuns
  induction n with
  | zero => simp [repeatWord, maximalRunsFrom]
  | succ n ih =>
    have hc : ¬ isSeparator 97 = true := by decide
    have hskip : skipElement (32 :: repeatWord n) = repeatWord n := by
      simp [skipElement, isSeparator]
    rw [repeatWord, maximalRuns_cons_word 97 _ hc, hskip, ih]

/-- C28, as stated, fails for a string of 2^32 words: for 2^32 copies of
"a " the `U32` counter of `mGetStringElementCount` wraps around and the
function returns 0, while the string has 2^32 maximal runs of non-separators
and `mGetStringElement` finds its element 0. -/
theorem mGetStringElementCount_wraps :
    mGetStringElementCount (repeatWord 4294967296) = 0 ∧
    (maximalRuns (repeatWord 4294967296)).length = 4294967296 ∧
    mGetStringElement (repeatWord 4294967296) 0 true ≠ ElementResult.notFound :=
  ⟨(mGetStringElementCount_eq _).trans
      ((congrArg (fun n => n % 4294967296) (maximalRuns_repeatWord _)).trans (Nat.mod_self _)),
    maximalRuns_repeatWord _,
    (mGetStringElement_found_iff _ 0 true (Nat.succ_pos _)).2
      ((maximalRuns_repeatWord 4294967296).symm ▸ (Nat.succ_pos _))⟩

/-- C28 (amended): for a string `s` with fewer than 2^32 words,
`mGetStringElementCount(s)` is the number of maximal non-empty runs of bytes
other than space, tab and newline in `s`, which is 0 for the empty string and
for a string of separators only; and `mGetStringElement(s, i)` reaches its
"Couldn't find specified string element" assertion exactly when `i` is not
below `mGetStringElementCount(s)`. -/
theorem mGetStringElementCount_runs (s : List Nat) (i : Nat) (copyBuffer : Bool)
    (hruns : (maximalRuns s).length < 4294967296) (hi : i < 4294967296) :
    mGetStringElementCount s = (maximalRuns s).length ∧
    mGetStringElementCount [] = 0 ∧
    ((∀ c ∈ s, isSeparator c = true) → mGetStringElementCount s = 0) ∧
    (mGetStringElement s i copyBuffer ≠ ElementResult.notFound ↔
      i < mGetStringElementCount s) := by
  have hcount : mGetStringElementCount s = (maximalRuns s).length := by
    rw [mGetStringElementCount_eq, Nat.mod_eq_of_lt hruns]
  refine ⟨hcount, rfl, ?_, ?_⟩
  · intro hsep
    rw [hcount, maximalRuns_all_separators s hsep]
    rfl
  · rw [hcount]
    exact mGetStringElement_found_iff s i copyBuffer hi

/-- Witness for C28: the string " ab\tcd\n" has two words, and element 1 is
found while element 2 is not. -/
theorem mGetStringElementCount_runs_witness :
    mGetStringElementCount (bytes " ab\tcd\n") = 2 ∧
    mGetStringElement (bytes " ab\tcd\n") 1 false ≠ ElementResult.notFound :=
  ⟨(mGetStringElementCount_runs (bytes " ab\tcd\n") 1 false (by decide) (by decide)).1.trans
      (by decide),
    (mGetStringElementCount_runs (bytes " ab\tcd\n") 1 false (by decide) (by decide)).2.2.2.2
      (by decide)⟩


/-! ## Mask conversion -/

theorem formatDecimal_facts :
    ∀ i, i < 32 →
      (formatDecimal i).length ≤ 2 ∧ formatDecimal i ≠ [] ∧
      (∀ c ∈ formatDecimal i, isSeparator c = false) ∧
      dAtoi (formatDecimal i) = (i : Int) ∧
      (∀ c ∈ formatDecimal i, 48 ≤ c ∧ c ≤ 57) ∧
      dStricmp (formatDecimal i) (bytes "all") ≠ 0 ∧
      dStricmp (formatDecimal i) (bytes "none") ≠ 0 ∧
      dStricmp (formatDecimal i) (bytes "off") ≠ 0 := by
  decide

theorem maskToStringStep_fold (mask : Nat) :
    ∀ (l : List Nat) (acc : List Nat), (∀ i ∈ l, i < 32) →
      l.foldl (maskToStringStep mask) (false, acc)
        = (false, acc ++ spaced ((l.filter (fun i => decide (mask &&& BIT i ≠ 0))).map
            formatDecimal)) := by
  intro l
  induction l with
  | nil => intro acc _; simp [spaced]
  | cons i rest ih =>
    intro acc h
    have hi : i < 32 := h i (List.mem_cons_self _ _)
    have hrest : ∀ j ∈ rest, j < 32 := fun j hj => h j (List.mem_cons_of_mem _ hj)
    have hlen := (formatDecimal_facts i hi).1
    by_cases hb : mask &&& BIT i ≠ 0
    · have hstep : maskToStringStep mask (false, acc) i
          = (false, acc ++ (32 :: formatDecimal i)) := by
        simp only [maskToStringStep, if_pos hb, dSprintf_sd]
        rw [List.take_of_length_le (by simp; omega)]
        simp
      rw [List.foldl_cons, hstep, ih _ hrest, List.filter_cons]
      simp [hb, spaced]
    · have hstep : maskToStringStep mask (false, acc) i = (false, acc) := by
        simp only [maskToStringStep, if_neg hb]
      rw [List.foldl_cons, hstep, ih _ hrest, List.filter_cons]
      simp [hb]

theorem maskToStringStep_fold_first (mask : Nat) :
    ∀ (l : List Nat), (∀ i ∈ l, i < 32) →
      (l.foldl (maskToStringStep mask) (true, [])).2
        = joinWords ((l.filter (fun i => decide (mask &&& BIT i ≠ 0))).map formatDecimal) := by
  intro l
  induction l with
  | nil => intro _; simp [joinWords]
  | cons i rest ih =>
    intro h
    have hi : i < 32 := h i (List.mem_cons_self _ _)
    have hrest : ∀ j ∈ rest, j < 32 := fun j hj => h j (List.mem_cons_of_mem _ hj)
    have hlen := (formatDecimal_facts i hi).1
    by_cases hb : mask &&& BIT i ≠ 0
    · have hstep : maskToStringStep mask (true, []) i = (false, formatDecimal i) := by
        simp only [maskToStringStep, if_pos hb, dSprintf_sd]
        rw [List.take_of_length_le (by simp; omega)]
        simp
      rw [List.foldl_cons, hstep, maskToStringStep_fold mask _ _ hrest, List.filter_cons]
      simp [hb, joinWords]
    · have hstep : maskToStringStep mask (true, []) i = (true, []) := by
        simp only [maskToStringStep, if_neg hb]
      rw [List.foldl_cons, hstep, ih hrest, List.filter_cons]
      simp [hb]

theorem mConvertMaskToString_of_ne (mask : Nat) (h : mask ≠ 0) :
    mConvertMaskToString mask = joinWords ((maskBits mask).map formatDecimal) := by
  unfold mConvertMaskToString maskBits
  rw [if_neg h]
  exact maskToStringStep_fold_first mask _ (fun i hi => by
    simpa [MASK_BITCOUNT] using List.mem_range.1 hi)


theorem skipElement_word (word : List Nat) (hword : ∀ c ∈ word, isSeparator c = false) :
    skipElement word = [] ∧ ∀ rest, skipElement (word ++ 32 :: rest) = rest := by
  induction word with
  | nil => exact ⟨rfl, fun rest => by simp [skipElement, isSeparator]⟩
  | cons c w ih =>
    have hc : isSeparator c = false := hword c (List.mem_cons_self _ _)
    obtain ⟨h1, h2⟩ := ih (fun x hx => hword x (List.mem_cons_of_mem _ hx))
    exact ⟨by simp [skipElement, hc, h1], fun rest => by simp [skipElement, hc, h2]⟩

theorem spaced_length (words : List (List Nat)) (h : ∀ w ∈ words, w.length ≤ 2) :
    (spaced words).length ≤ 3 * words.length := by
  induction words with
  | nil => simp [spaced]
  | cons w ws ih =>
    have hw := h w (List.mem_cons_self _ _)
    have := ih (fun x hx => h x (List.mem_cons_of_mem _ hx))
    simp only [spaced, List.length_cons, List.length_append]
    omega

theorem countLoop_step (c : Nat) (rest : List Nat) (fuel wordCount : Nat)
    (hc : isSeparator c = false) :
    countLoop (fuel + 1) (c :: rest) wordCount
      = countLoop fuel (skipElement rest) ((wordCount + 1) % 4294967296) := by
  simp [countLoop, hc]

theorem elementLoop_step (index : Nat) (copyBuffer : Bool) (c : Nat) (rest : List Nat)
    (fuel wordCount : Nat) (hc : isSeparator c = false) (hi : wordCount ≠ index) :
    elementLoop index copyBuffer (fuel + 1) (c :: rest) wordCount
      = elementLoop index copyBuffer fuel (skipElement rest)
          ((wordCount + 1) % 4294967296) := by
  simp [elementLoop, hc, hi]

theorem elementLoop_hit (index : Nat) (c : Nat) (rest : List Nat) (fuel : Nat)
    (hc : isSeparator c = false) :
    elementLoop index true (fuel + 1) (c :: rest) index
      = if ((c :: rest).length - (skipElement rest).length
            - (if skipElement rest = [] then 0 else 1)) % 4294967296 < 4096 then
          ElementResult.found ((c :: rest).take (((c :: rest).length
            - (skipElement rest).length
            - (if skipElement rest = [] then 0 else 1)) % 4294967296))
        else ElementResult.bufferOverrun := by
  simp [elementLoop, hc]

theorem countLoop_words (words : List (List Nat)) :
    ∀ (word : List Nat) (fuel wordCount : Nat),
      word ≠ [] → (∀ c ∈ word, isSeparator c = false) →
      (∀ w ∈ words, w ≠ [] ∧ ∀ c ∈ w, isSeparator c = false) →
      (word ++ spaced words).length ≤ fuel →
      wordCount + 1 + words.length < 4294967296 →
      countLoop fuel (word ++ spaced words) wordCount = wordCount + 1 + words.length := by
  induction words with
  | nil =>
    intro word fuel wordCount hne hsep _ hfuel hsmall
    have hmod : (wordCount + 1) % 4294967296 = wordCount + 1 :=
      Nat.mod_eq_of_lt (by simp only [List.length_nil] at hsmall; omega)
    obtain ⟨c, w, rfl⟩ := List.exists_cons_of_ne_nil hne
    obtain ⟨f, rfl⟩ : ∃ f, fuel = f + 1 := ⟨fuel - 1, by simp at hfuel; omega⟩
    have hc : isSeparator c = false := hsep c (List.mem_cons_self _ _)
    have hw := (skipElement_word w (fun x hx => hsep x (List.mem_cons_of_mem _ hx))).1
    have hform : c :: w ++ spaced [] = c :: w := by simp [spaced]
    rw [hform, countLoop_step c w f wordCount hc, hw, hmod]
    cases f <;> simp [countLoop]
  | cons v vs ih =>
    intro word fuel wordCount hne hsep hwords hfuel hsmall
    have hmod : (wordCount + 1) % 4294967296 = wordCount + 1 :=
      Nat.mod_eq_of_lt (by simp only [List.length_cons] at hsmall; omega)
    obtain ⟨c, w, rfl⟩ := List.exists_cons_of_ne_nil hne
    obtain ⟨f, rfl⟩ : ∃ f, fuel = f + 1 := ⟨fuel - 1, by simp at hfuel; omega⟩
    have hc : isSeparator c = false := hsep c (List.mem_cons_self _ _)
    have hw := (skipElement_word w (fun x hx => hsep x (List.mem_cons_of_mem _ hx))).2
      (v ++ spaced vs)
    have hv := hwords v (List.mem_cons_self _ _)
    have hform : c :: w ++ spaced (v :: vs) = c :: (w ++ 32 :: (v ++ spaced vs)) := by
      simp [spaced]
    have hfuel2 : (v ++ spaced vs).length ≤ f := by
      rw [hform] at hfuel
      simp only [List.length_cons, List.length_append] at hfuel ⊢
      omega
    rw [hform, countLoop_step c _ f wordCount hc, hw, hmod,
      ih v f (wordCount + 1) hv.1 hv.2 (fun x hx => hwords x (List.mem_cons_of_mem _ hx)) hfuel2
        (by simp only [List.length_cons] at hsmall; omega)]
    simp only [List.length_cons]
    omega

theorem elementLoop_words (index : Nat) (words : List (List Nat)) :
    ∀ (word : List Nat) (fuel wordCount : Nat),
      word ≠ [] → (∀ c ∈ word, isSeparator c = false) → word.length < 4096 →
      (∀ w ∈ words, w ≠ [] ∧ (∀ c ∈ w, isSeparator c = false) ∧ w.length < 4096) →
      (word ++ spaced words).length ≤ fuel →
      wordCount ≤ index → index < wordCount + 1 + words.length → index < 4294967296 →
      elementLoop index true fuel (word ++ spaced words) wordCount
        = ElementResult.found ((word :: words).getD (index - wordCount) []) := by
  induction words with
  | nil =>
    intro word fuel wordCount hne hsep hlen _ hfuel hle hlt hindex
    obtain ⟨c, w, rfl⟩ := List.exists_cons_of_ne_nil hne
    obtain ⟨f, rfl⟩ : ∃ f, fuel = f + 1 := ⟨fuel - 1, by simp at hfuel; omega⟩
    have hc : isSeparator c = false := hsep c (List.mem_cons_self _ _)
    have hw := (skipElement_word w (fun x hx => hsep x (List.mem_cons_of_mem _ hx))).1
    have hi : wordCount = index := by simp at hlt; omega
    subst hi
    have hform : c :: w ++ spaced [] = c :: w := by simp [spaced]
    rw [hform, elementLoop_hit wordCount c w f hc, hw]
    simp only [List.length_cons] at hlen
    have hl : ((c :: w).length - ([] : List Nat).length - (if True then 0 else 1)) % 4294967296
        = w.length + 1 := by
      simp only [List.length_cons, List.length_nil, if_true]
      omega
    simp only [if_true] at hl ⊢
    rw [hl, if_pos (by omega)]
    simp
  | cons v vs ih =>
    intro word fuel wordCount hne hsep hlen hwords hfuel hle hlt hindex
    obtain ⟨c, w, rfl⟩ := List.exists_cons_of_ne_nil hne
    obtain ⟨f, rfl⟩ : ∃ f, fuel = f + 1 := ⟨fuel - 1, by simp at hfuel; omega⟩
    have hc : isSeparator c = false := hsep c (List.mem_cons_self _ _)
    have hw := (skipElement_word w (fun x hx => hsep x (List.mem_cons_of_mem _ hx))).2
      (v ++ spaced vs)
    have hv := hwords v (List.mem_cons_self _ _)
    have hform : c :: w ++ spaced (v :: vs) = c :: (w ++ 32 :: (v ++ spaced vs)) := by
      simp [spaced]
    have hfuel2 : (v ++ spaced vs).length ≤ f := by
      rw [hform] at hfuel
      simp only [List.length_cons, List.length_append] at hfuel ⊢
      omega
    rw [hform]
    by_cases hi : wordCount = index
    · subst hi
      rw [elementLoop_hit wordCount c _ f hc, hw]
      have hne2 : ¬ (v ++ spaced vs = []) := by
        intro h
        exact hv.1 (List.append_eq_nil.1 h).1
      rw [if_neg hne2]
      simp only [List.length_cons] at hlen
      have hl : ((c :: (w ++ 32 :: (v ++ spaced vs))).length
          - (v ++ spaced vs).length - 1) % 4294967296 = w.length + 1 := by
        simp only [List.length_cons, List.length_append]
        omega
      rw [hl, if_pos (by omega)]
      simp
    · have hmod : (wordCount + 1) % 4294967296 = wordCount + 1 :=
        Nat.mod_eq_of_lt (by omega)
      rw [elementLoop_step index true c _ f wordCount hc hi, hw, hmod,
        ih v f (wordCount + 1) hv.1 hv.2.1 hv.2.2
          (fun x hx => hwords x (List.mem_cons_of_mem _ hx)) hfuel2 (by omega)
          (by simp only [List.length_cons] at hlt; omega) hindex]
      obtain ⟨k, hk⟩ : ∃ k, index - wordCount = k + 1 := ⟨index - wordCount - 1, by omega⟩
      have hk2 : index - (wordCount + 1) = k := by omega
      rw [hk, hk2]
      simp

theorem elementLoop_hit_nocopy (index : Nat) (c : Nat) (rest : List Nat) (fuel : Nat)
    (hc : isSeparator c = false) :
    elementLoop index false (fuel + 1) (c :: rest) index = ElementResult.found (c :: rest) := by
  simp [elementLoop, hc]

theorem elementLoop_words_nocopy (index : Nat) (words : List (List Nat)) :
    ∀ (word : List Nat) (fuel wordCount : Nat),
      word ≠ [] → (∀ c ∈ word, isSeparator c = false) →
      (∀ w ∈ words, w ≠ [] ∧ (∀ c ∈ w, isSeparator c = false) ∧ w.length < 4096) →
      (word ++ spaced words).length ≤ fuel →
      wordCount ≤ index → index < wordCount + 1 + words.length → index < 4294967296 →
      ∃ tail, elementLoop index false fuel (word ++ spaced words) wordCount
          = ElementResult.found ((word :: words).getD (index - wordCount) [] ++ tail) ∧
        (tail = [] ∨ ∃ x, tail = 32 :: x) := by
  induction words with
  | nil =>
    intro word fuel wordCount hne hsep _ hfuel hle hlt hindex
    obtain ⟨c, w, rfl⟩ := List.exists_cons_of_ne_nil hne
    obtain ⟨f, rfl⟩ : ∃ f, fuel = f + 1 := ⟨fuel - 1, by simp at hfuel; omega⟩
    have hc : isSeparator c = false := hsep c (List.mem_cons_self _ _)
    have hi : wordCount = index := by simp at hlt; omega
    subst hi
    have hform : c :: w ++ spaced [] = c :: w := by simp [spaced]
    refine ⟨[], ?_, Or.inl rfl⟩
    rw [hform, elementLoop_hit_nocopy wordCount c w f hc]
    simp
  | cons v vs ih =>
    intro word fuel wordCount hne hsep hwords hfuel hle hlt hindex
    obtain ⟨c, w, rfl⟩ := List.exists_cons_of_ne_nil hne
    obtain ⟨f, rfl⟩ : ∃ f, fuel = f + 1 := ⟨fuel - 1, by simp at hfuel; omega⟩
    have hc : isSeparator c = false := hsep c (List.mem_cons_self _ _)
    have hw := (skipElement_word w (fun x hx => hsep x (List.mem_cons_of_mem _ hx))).2
      (v ++ spaced vs)
    have hv := hwords v (List.mem_cons_self _ _)
    have hform : c :: w ++ spaced (v :: vs) = c :: (w ++ 32 :: (v ++ spaced vs)) := by
      simp [spaced]
    have hfuel2 : (v ++ spaced vs).length ≤ f := by
      rw [hform] at hfuel
      simp only [List.length_cons, List.length_append] at hfuel ⊢
      omega
    rw [hform]
    by_cases hi : wordCount = index
    · subst hi
      refine ⟨32 :: (v ++ spaced vs), ?_, Or.inr ⟨_, rfl⟩⟩
      rw [elementLoop_hit_nocopy wordCount c _ f hc]
      simp
    · have hmod : (wordCount + 1) % 4294967296 = wordCount + 1 :=
        Nat.mod_eq_of_lt (by omega)
      rw [elementLoop_step index false c _ f wordCount hc hi, hw, hmod]
      obtain ⟨tail, h1, h2⟩ := ih v f (wordCount + 1) hv.1 hv.2.1
          (fun x hx => hwords x (List.mem_cons_of_mem _ hx)) hfuel2 (by omega)
          (by simp only [List.length_cons] at hlt; omega) hindex
      refine ⟨tail, ?_, h2⟩
      rw [h1]
      obtain ⟨k, hk⟩ : ∃ k, index - wordCount = k + 1 := ⟨index - wordCount - 1, by omega⟩
      have hk2 : index - (wordCount + 1) = k := by omega
      rw [hk, hk2]
      simp


theorem joinWords_elements (word : List Nat) (words : List (List Nat))
    (hword : word ≠ [] ∧ (∀ c ∈ word, isSeparator c = false) ∧ word.length < 4096)
    (hwords : ∀ w ∈ words, w ≠ [] ∧ (∀ c ∈ w, isSeparator c = false) ∧ w.length < 4096)
    (hsmall : words.length + 1 < 4294967296) :
    mGetStringElementCount (joinWords (word :: words)) = words.length + 1 ∧
    ∀ (copyBuffer : Bool) (i : Nat), i < words.length + 1 →
      ∃ tail, mGetStringElement (joinWords (word :: words)) i copyBuffer
          = ElementResult.found ((word :: words).getD i [] ++ tail) ∧
        (tail = [] ∨ ∃ x, tail = 32 :: x) := by
  have hne : joinWords (word :: words) ≠ [] := by
    intro h
    exact hword.1 (List.append_eq_nil.1 h).1
  constructor
  · unfold mGetStringElementCount
    rw [if_neg hne]
    have := countLoop_words words word _ 0 hword.1 hword.2.1
      (fun w hw => ⟨(hwords w hw).1, (hwords w hw).2.1⟩) (le_refl _) (by omega)
    simp only [joinWords]
    rw [this]
    omega
  · intro copyBuffer i hi
    unfold mGetStringElement
    rw [if_neg hne]
    cases copyBuffer with
    | true =>
      have := elementLoop_words i words word _ 0 hword.1 hword.2.1 hword.2.2 hwords (le_refl _)
        (Nat.zero_le _) (by omega) (by omega)
      refine ⟨[], ?_, Or.inl rfl⟩
      simp only [joinWords]
      rw [this]
      simp
    | false =>
      obtain ⟨tail, h1, h2⟩ := elementLoop_words_nocopy i words word _ 0 hword.1 hword.2.1
        hwords (le_refl _) (Nat.zero_le _) (by omega) (by omega)
      refine ⟨tail, ?_, h2⟩
      simp only [joinWords]
      rw [h1]
      simp

theorem stringToMaskLoop_words (copyBuffer : Bool) (string : List Nat)
    (words : List (List Nat))
    (helem : ∀ i, i < words.length →
      ∃ text, mGetStringElement string i copyBuffer = ElementResult.found text ∧
        ∀ mask, maskAddBit mask text = maskAddBit mask (words.getD i [])) :
    ∀ (indices : List Nat) (mask : Nat), (∀ i ∈ indices, i < words.length) →
      stringToMaskLoop copyBuffer string indices mask
        = some ((indices.map (fun i => words.getD i [])).foldl maskAddBit mask) := by
  intro indices
  induction indices with
  | nil => intro mask _; rfl
  | cons i rest ih =>
    intro mask h
    obtain ⟨text, h1, h2⟩ := helem i (h i (List.mem_cons_self _ _))
    simp only [stringToMaskLoop, h1, List.map_cons, List.foldl_cons]
    rw [h2]
    exact ih _ (fun j hj => h j (List.mem_cons_of_mem _ hj))

theorem atoiDigits_append_space (x : List Nat) :
    ∀ (digits : List Nat) (value : Nat), (∀ c ∈ digits, 48 ≤ c ∧ c ≤ 57) →
      atoiDigits (digits ++ 32 :: x) value = atoiDigits digits value := by
  intro digits
  induction digits with
  | nil => intro value _; simp [atoiDigits]
  | cons c rest ih =>
    intro value h
    have hc := h c (List.mem_cons_self _ _)
    simp only [List.cons_append, atoiDigits, if_pos hc]
    exact ih _ (fun j hj => h j (List.mem_cons_of_mem _ hj))

theorem dAtoi_append_tail (digits tail : List Nat) (hne : digits ≠ [])
    (hd : ∀ c ∈ digits, 48 ≤ c ∧ c ≤ 57) (htail : tail = [] ∨ ∃ x, tail = 32 :: x) :
    dAtoi (digits ++ tail) = dAtoi digits := by
  rcases htail with rfl | ⟨x, rfl⟩
  · simp
  · obtain ⟨c, rest, rfl⟩ := List.exists_cons_of_ne_nil hne
    have hc := hd c (List.mem_cons_self _ _)
    have h1 : ¬ (c = 32 ∨ (9 ≤ c ∧ c ≤ 13)) := by omega
    have h2 : ¬ c = 45 := by omega
    have h3 : ¬ c = 43 := by omega
    have h4 := atoiDigits_append_space x (c :: rest) 0 hd
    simp only [List.cons_append] at h4 ⊢
    simp only [dAtoi, if_neg h1, if_neg h2, if_neg h3, h4]

theorem maskAddBit_append_tail (mask : Nat) (digits tail : List Nat) (hne : digits ≠ [])
    (hd : ∀ c ∈ digits, 48 ≤ c ∧ c ≤ 57) (htail : tail = [] ∨ ∃ x, tail = 32 :: x) :
    maskAddBit mask (digits ++ tail) = maskAddBit mask digits := by
  unfold maskAddBit
  rw [dAtoi_append_tail digits tail hne hd htail]

theorem range_map_getD (words : List (List Nat)) :
    (List.range words.length).map (fun i => words.getD i []) = words := by
  apply List.ext_getElem
  · simp
  · intro n h1 h2
    simp [List.getD_eq_getElem?_getD, List.getElem?_eq_getElem h2]

theorem maskAddBit_formatDecimal (mask i : Nat) (hi : i < 32) :
    maskAddBit mask (formatDecimal i) = mask ||| 2 ^ i := by
  have hd := (formatDecimal_facts i hi).2.2.2.1
  unfold maskAddBit
  rw [hd]
  have h1 : ¬ ((i : Int) < 0 ∨ (i : Int) ≥ (MASK_BITCOUNT : Int)) := by
    simp only [MASK_BITCOUNT]
    omega
  rw [if_neg h1, Int.toNat_ofNat]
  have h2 : 2 ^ i < 4294967296 := by
    have : 2 ^ i < 2 ^ 32 := Nat.pow_lt_pow_right (by omega) hi
    simpa using this
  rw [Nat.mod_eq_of_lt h2]

theorem foldl_maskAddBit (bits : List Nat) (h : ∀ i ∈ bits, i < 32) :
    ∀ mask : Nat,
      (bits.map formatDecimal).foldl maskAddBit mask
        = bits.foldl (fun m i => m ||| 2 ^ i) mask := by
  induction bits with
  | nil => intro mask; rfl
  | cons i rest ih =>
    intro mask
    simp only [List.map_cons, List.foldl_cons]
    rw [maskAddBit_formatDecimal mask i (h i (List.mem_cons_self _ _))]
    exact ih (fun j hj => h j (List.mem_cons_of_mem _ hj)) _

theorem testBit_foldl_or (bits : List Nat) :
    ∀ (mask j : Nat),
      (bits.foldl (fun m i => m ||| 2 ^ i) mask).testBit j
        = (mask.testBit j || decide (j ∈ bits)) := by
  induction bits with
  | nil => intro mask j; simp
  | cons i rest ih =>
    intro mask j
    simp only [List.foldl_cons]
    rw [ih, Nat.testBit_or, Nat.testBit_two_pow]
    by_cases hij : i = j
    · subst hij; simp
    · have hji : ¬ j = i := fun h => hij h.symm
      simp [hij, hji]

theorem and_two_pow_ne_zero (mask i : Nat) : mask &&& 2 ^ i ≠ 0 ↔ mask.testBit i = true := by
  constructor
  · intro h
    by_contra hb
    apply h
    apply Nat.eq_of_testBit_eq
    intro j
    rw [Nat.testBit_and, Nat.testBit_two_pow, Nat.zero_testBit]
    by_cases hij : i = j
    · subst hij; simp [hb]
    · simp [hij]
  · intro hb h
    have := congrArg (fun x => x.testBit i) h
    simp [Nat.testBit_and, Nat.testBit_two_pow, hb] at this

theorem mem_maskBits (mask j : Nat) : j ∈ maskBits mask ↔ j < 32 ∧ mask.testBit j = true := by
  unfold maskBits MASK_BITCOUNT BIT
  rw [List.mem_filter, List.mem_range]
  constructor
  · rintro ⟨hj, hb⟩
    have h2 : 2 ^ j < 4294967296 := by
      have : 2 ^ j < 2 ^ 32 := Nat.pow_lt_pow_right (by omega) hj
      simpa using this
    rw [Nat.mod_eq_of_lt h2] at hb
    exact ⟨hj, (and_two_pow_ne_zero mask j).1 (by simpa using hb)⟩
  · rintro ⟨hj, hb⟩
    have h2 : 2 ^ j < 4294967296 := by
      have : 2 ^ j < 2 ^ 32 := Nat.pow_lt_pow_right (by omega) hj
      simpa using this
    rw [Nat.mod_eq_of_lt h2]
    exact ⟨hj, by simpa using (and_two_pow_ne_zero mask j).2 hb⟩

theorem foldl_maskBits (mask : Nat) (hmask : mask < 4294967296) :
    (maskBits mask).foldl (fun m i => m ||| 2 ^ i) 0 = mask := by
  apply Nat.eq_of_testBit_eq
  intro j
  rw [testBit_foldl_or, Nat.zero_testBit, Bool.false_or]
  by_cases hj : j < 32
  · by_cases hb : mask.testBit j = true
    · simp [mem_maskBits, hj, hb]
    · simp [mem_maskBits, hj, hb]
  · have hfalse : mask.testBit j = false := by
      apply Nat.testBit_lt_two_pow
      calc mask < 2 ^ 32 := by simpa using hmask
        _ ≤ 2 ^ j := Nat.pow_le_pow_right (by omega) (by omega)
    simp [mem_maskBits, hj, hfalse]

/-- C29: for every mask `m` of 32 bits, `mConvertStringToMask` applied to the
string `mConvertMaskToString(m)` returns `m`; the zero mask is rendered as
"none", a non-zero mask as the indices of its set bits in ascending order,
separated by single spaces, and the rendered string with its terminator fits
the 128-byte buffer. -/
theorem mask_string_roundtrip (copyBuffer : Bool) (m : Nat) (hm : m < 4294967296) :
    mConvertStringToMask copyBuffer (mConvertMaskToString m) = some m ∧
    (m = 0 → mConvertMaskToString m = bytes "none") ∧
    (m ≠ 0 → mConvertMaskToString m = joinWords ((maskBits m).map formatDecimal)) ∧
    (maskBits m).Sorted (fun a b => a < b) ∧
    (∀ i, i ∈ maskBits m ↔ i < 32 ∧ m.testBit i = true) ∧
    (mConvertMaskToString m).length + 1 ≤ 128 := by
  have hbits : ∀ i ∈ maskBits m, i < 32 := fun i hi => ((mem_maskBits m i).1 hi).1
  have hsorted : (maskBits m).Sorted (fun a b => a < b) := by
    unfold maskBits
    exact List.Pairwise.sublist (List.filter_sublist _) (List.pairwise_lt_range _)
  by_cases h0 : m = 0
  · subst h0
    refine ⟨?_, fun _ => by decide, fun h => absurd rfl h, hsorted, mem_maskBits 0, by decide⟩
    cases copyBuffer <;> decide
  · have hrender := mConvertMaskToString_of_ne m h0
    have hne : maskBits m ≠ [] := by
      intro hnil
      apply h0
      have := foldl_maskBits m hm
      rw [hnil] at this
      exact this.symm
    obtain ⟨b, bs, hb⟩ := List.exists_cons_of_ne_nil hne
    have hvalid : ∀ w ∈ (maskBits m).map formatDecimal,
        w ≠ [] ∧ (∀ c ∈ w, isSeparator c = false) ∧ w.length < 4096 := by
      intro w hw
      obtain ⟨i, hi, rfl⟩ := List.mem_map.1 hw
      obtain ⟨f1, f2, f3, -⟩ := formatDecimal_facts i (hbits i hi)
      exact ⟨f2, f3, by omega⟩
    have hdigits : ∀ w ∈ (maskBits m).map formatDecimal,
        w ≠ [] ∧ ∀ c ∈ w, 48 ≤ c ∧ c ≤ 57 := by
      intro w hw
      obtain ⟨i, hi, rfl⟩ := List.mem_map.1 hw
      obtain ⟨-, f2, -, -, f5, -⟩ := formatDecimal_facts i (hbits i hi)
      exact ⟨f2, f5⟩
    have hlenle : ∀ w ∈ (maskBits m).map formatDecimal, w.length ≤ 2 := by
      intro w hw
      obtain ⟨i, hi, rfl⟩ := List.mem_map.1 hw
      exact (formatDecimal_facts i (hbits i hi)).1
    rw [hb, List.map_cons] at hvalid hlenle hdigits
    have hcard : (maskBits m).length ≤ 32 := by
      unfold maskBits
      exact le_trans (List.length_filter_le _ _) (by simp [MASK_BITCOUNT])
    rw [hb] at hcard
    obtain ⟨hcount, helem⟩ := joinWords_elements (formatDecimal b) (bs.map formatDecimal)
      (hvalid _ (List.mem_cons_self _ _)) (fun w hw => hvalid w (List.mem_cons_of_mem _ hw))
      (by simp only [List.length_map, List.length_cons] at hcard ⊢; omega)
    have hfacts := formatDecimal_facts b (hbits b (by rw [hb]; exact List.mem_cons_self _ _))
    have hloop : stringToMaskLoop copyBuffer
        (joinWords (formatDecimal b :: bs.map formatDecimal))
        (List.range ((bs.map formatDecimal).length + 1)) 0 = some m := by
      rw [stringToMaskLoop_words copyBuffer _ (formatDecimal b :: bs.map formatDecimal) ?_ _ 0
        (fun i hi => by simpa using List.mem_range.1 hi)]
      · have hr := range_map_getD (formatDecimal b :: bs.map formatDecimal)
        simp only [List.length_cons] at hr
        rw [hr]
        have := foldl_maskAddBit (b :: bs) (fun i hi => hbits i (by rw [hb]; exact hi)) 0
        simp only [List.map_cons] at this
        rw [this]
        have hfold := foldl_maskBits m hm
        rw [hb] at hfold
        exact congrArg some hfold
      · intro i hi
        obtain ⟨tail, h1, h2⟩ := helem copyBuffer i (by simpa using hi)
        refine ⟨_, h1, fun mask => ?_⟩
        have hmem : (formatDecimal b :: bs.map formatDecimal).getD i []
            ∈ formatDecimal b :: bs.map formatDecimal := by
          rw [List.getD_eq_getElem?_getD, List.getElem?_eq_getElem hi]
          exact List.getElem_mem _
        exact maskAddBit_append_tail mask _ tail (hdigits _ hmem).1 (hdigits _ hmem).2 h2
    refine ⟨?_, fun h => absurd h h0, fun _ => hrender, hsorted, mem_maskBits m, ?_⟩
    · rw [hrender, hb, List.map_cons]
      unfold mConvertStringToMask
      rw [hcount]
      have h1 : ¬ ((bs.map formatDecimal).length + 1 < 1) := by omega
      rw [if_neg h1]
      by_cases hsingle : bs = []
      · subst hsingle
        have hj : joinWords [formatDecimal b] = formatDecimal b := by simp [joinWords, spaced]
        simp only [List.map_nil] at hloop ⊢
        rw [hj] at hloop ⊢
        rw [if_neg (fun h => hfacts.2.2.2.2.2.1 h.2),
          if_neg (fun h => h.2.elim hfacts.2.2.2.2.2.2.1 hfacts.2.2.2.2.2.2.2)]
        exact hloop
      · have hlen2 : ¬ ((bs.map formatDecimal).length + 1 = 1) := by
          have : bs.length ≠ 0 := fun h => hsingle (List.length_eq_zero.1 h)
          simp only [List.length_map]
          omega
        rw [if_neg (fun h => hlen2 h.1), if_neg (fun h => hlen2 h.1)]
        exact hloop
    · rw [hrender, hb, List.map_cons]
      have h1 := spaced_length (bs.map formatDecimal)
        (fun w hw => hlenle w (List.mem_cons_of_mem _ hw))
      have h2 := hlenle _ (List.mem_cons_self _ _)
      have h3 : (maskBits m).length ≤ 32 := by
        unfold maskBits
        exact le_trans (List.length_filter_le _ _) (by simp [MASK_BITCOUNT])
      rw [hb] at h3
      simp only [joinWords, List.length_append, List.length_map, List.length_cons] at h1 h3 ⊢
      omega

/-- Witness for C29: the mask with bits 0, 10 and 31 set. -/
theorem mask_string_roundtrip_witness :
    mConvertStringToMask true (mConvertMaskToString 2147484673) = some 2147484673 ∧
    mConvertMaskToString 2147484673 = bytes "0 10 31" :=
  ⟨(mask_string_roundtrip true 2147484673 (by decide)).1, by decide⟩

end Utility

namespace Stream

/-! ## Strings on a stream -/

theorem toS32_of_lt (n : Nat) (h : n < 2147483648) : toS32 n = (n : Int) := by
  unfold toS32
  have h1 : n % 4294967296 = n := Nat.mod_eq_of_lt (by omega)
  rw [h1, if_pos h]

theorem writeString_bytes (stream : List Nat) (s : List Nat) (maxLen : Int)
    (hs : s.length < 2147483648) (h0 : 0 ≤ maxLen) (h255 : maxLen ≤ 255) :
    writeString stream (some s) maxLen
      = some (stream ++ min s.length maxLen.toNat :: s.take (min s.length maxLen.toNat)) := by
  obtain ⟨k, rfl⟩ := Int.eq_ofNat_of_zero_le h0
  have hk : k ≤ 255 := by omega
  simp only [writeString, toS32_of_lt s.length hs, Int.toNat_ofNat]
  by_cases hgt : (s.length : Int) > (k : Int)
  · have hmin : min s.length k = k := by omega
    rw [if_pos hgt, hmin]
    have h8 : toU8 (k : Int) = k := by unfold toU8; omega
    have h32 : toU32 (k : Int) = k := by unfold toU32; omega
    rw [h8, h32]
    by_cases hz : (k : Int) ≠ 0
    · rw [if_pos hz]
      have hle : k ≤ (s ++ [0]).length := by simp; omega
      simp only [write, if_pos hle, write_U8, List.append_assoc, List.singleton_append]
      rw [List.take_append_of_le_length (by omega)]
    · have hk0 : k = 0 := by omega
      subst hk0
      simp [write_U8]
  · have hmin : min s.length k = s.length := by omega
    rw [if_neg hgt, hmin]
    have h8 : toU8 (s.length : Int) = s.length := by unfold toU8; omega
    have h32 : toU32 (s.length : Int) = s.length := by unfold toU32; omega
    rw [h8, h32]
    by_cases hz : (s.length : Int) ≠ 0
    · rw [if_pos hz]
      have hle : s.length ≤ (s ++ [0]).length := by simp
      simp only [write, if_pos hle, write_U8, List.append_assoc, List.singleton_append]
      rw [List.take_append_of_le_length (le_refl _)]
    · have hk0 : s.length = 0 := by omega
      have hnil : s = [] := List.length_eq_zero.1 hk0
      subst hnil
      simp [write_U8]

theorem writeString_null (stream : List Nat) (maxLen : Int) (h0 : 0 ≤ maxLen) :
    writeString stream none maxLen = some (stream ++ [0]) := by
  have hgt : ¬ ((0 : Int) > maxLen) := by omega
  simp [writeString, hgt, write_U8, toU8]

theorem readString_bytes (payload rest : List Nat) :
    readString (payload.length :: payload ++ rest) = some (payload ++ [0], rest) := by
  simp [readString, read_U8, read]

theorem writeString_wraps (s : List Nat) (hs : s.length = 2147483648) :
    writeString [] (some s) 255 = some (0 :: s) ∧
    readString (0 :: s) = some ([0], s) := by
  constructor
  · have h1 : toS32 s.length = -2147483648 := by
      rw [hs]
      decide
    have hgt : ¬ ((-2147483648 : Int) > 255) := by decide
    have h8 : toU8 (-2147483648) = 0 := by decide
    have h32 : toU32 (-2147483648) = 2147483648 := by decide
    have hz : (-2147483648 : Int) ≠ 0 := by decide
    have hle : 2147483648 ≤ (s ++ [0]).length := by simp [hs]
    simp only [writeString, h1, if_neg hgt, h8, h32, if_pos hz, write, if_pos hle, write_U8,
      List.nil_append, List.singleton_append]
    rw [List.take_append_of_le_length (by omega), List.take_of_length_le (by omega)]
  · simp [readString, read_U8, read]

/-- C30, as stated, fails for a string whose length does not fit an `S32`: for
the string of 2^31 bytes `A` and `maxLen = 255`, `writeString` writes the
length byte 0 followed by the whole string, and `readString` on these bytes
yields the empty string and consumes one byte only. -/
theorem writeString_length_wraps :
    writeString [] (some (List.replicate 2147483648 65)) 255
      = some (0 :: List.replicate 2147483648 65) ∧
    readString (0 :: List.replicate 2147483648 65)
      = some ([0], List.replicate 2147483648 65) :=
  writeString_wraps (List.replicate 2147483648 65) (List.length_replicate _ _)

/-- C30 (amended): for every string `s` of fewer than 2^31 bytes, or a null
pointer (treated as empty), and every `maxLen` with `0 ≤ maxLen ≤ 255`,
`writeString` appends one length byte `min(length(s), maxLen)` followed by the
first `min(length(s), maxLen)` bytes of `s`; `readString` on these bytes,
whatever follows them, fills the buffer with exactly these bytes and a NUL
within its 256 bytes, and leaves exactly what follows them unread. -/
theorem writeString_readString (string : Option (List Nat)) (maxLen : Int) (rest : List Nat)
    (hs : ∀ s, string = some s → s.length < 2147483648)
    (h0 : 0 ≤ maxLen) (h255 : maxLen ≤ 255) :
    ∃ written,
      writeString [] string maxLen = some written ∧
      written = min (string.getD []).length maxLen.toNat
        :: (string.getD []).take (min (string.getD []).length maxLen.toNat) ∧
      written.length = 1 + min (string.getD []).length maxLen.toNat ∧
      readString (written ++ rest)
        = some ((string.getD []).take (min (string.getD []).length maxLen.toNat) ++ [0],
            rest) ∧
      ((string.getD []).take (min (string.getD []).length maxLen.toNat) ++ [0]).length
        ≤ 256 := by
  have hlen : ∀ s : List Nat,
      (s.take (min s.length maxLen.toNat)).length = min s.length maxLen.toNat := by
    intro s
    rw [List.length_take]
    omega
  have hread : ∀ s : List Nat,
      readString ((min s.length maxLen.toNat :: s.take (min s.length maxLen.toNat)) ++ rest)
        = some (s.take (min s.length maxLen.toNat) ++ [0], rest) := by
    intro s
    have := readString_bytes (s.take (min s.length maxLen.toNat)) rest
    rw [hlen s] at this
    exact this
  have hbound : ∀ s : List Nat, (s.take (min s.length maxLen.toNat) ++ [0]).length ≤ 256 := by
    intro s
    rw [List.length_append, hlen s]
    simp only [List.length_singleton]
    omega
  cases string with
  | none =>
    refine ⟨[0], writeString_null [] maxLen h0, by simp, by simp, ?_, by simp⟩
    simp [readString, read_U8, read]
  | some s =>
    refine ⟨_, ?_, rfl, ?_, hread s, hbound s⟩
    · have := writeString_bytes [] s maxLen (hs s rfl) h0 h255
      simpa using this
    · simp only [Option.getD_some, List.length_cons, hlen s]
      omega

/-- Witness for C30: the string "hello" written with `maxLen = 3` and followed
by one more byte on the stream. -/
theorem writeString_readString_witness :
    writeString [] (some [104, 101, 108, 108, 111]) 3 = some [3, 104, 101, 108] ∧
    readString ([3, 104, 101, 108] ++ [7]) = some ([104, 101, 108, 0], [7]) := by
  obtain ⟨written, h1, h2, -, h4, -⟩ :=
    writeString_readString (some [104, 101, 108, 108, 111]) 3 [7]
      (fun s h => by cases h; decide) (by decide) (by decide)
  subst h2
  exact ⟨h1, h4⟩

/-! ## Reading a line -/

theorem store_of_lt (buffer : List Nat) (i value : Nat) (h : i < buffer.length) :
    store buffer i value = some (buffer.set i value) := by
  simp [store, h]

theorem getElem?_set_other (buffer : List Nat) (i j value : Nat) (h : i ≠ j) :
    (buffer.set i value)[j]? = buffer[j]? := by
  simp [List.getElem?_set, h]

theorem getElem?_set_same (buffer : List Nat) (i value : Nat) (h : i < buffer.length) :
    (buffer.set i value)[i]? = some value := by
  simp [List.getElem?_set, h]

theorem stripLoop_spec (stream : List Nat) :
    ∀ buffer : List Nat, 0 < buffer.length →
      ∃ done b rest consumed,
        stripLoop stream buffer = some (done, b, rest) ∧
        b.length = buffer.length ∧
        (∀ i, 1 ≤ i → b[i]? = buffer[i]?) ∧
        stream = consumed ++ rest ∧
        (done = true → b[0]? = some 0 ∧
          ((∃ pre, consumed = pre ++ [10] ∧ 10 ∉ pre) ∨ (rest = [] ∧ 10 ∉ consumed))) ∧
        (done = false → 10 ∉ consumed ∧ ∃ c, b[0]? = some c ∧ c ≠ 10 ∧ c ≠ 13) := by
  induction stream with
  | nil =>
    intro buffer h
    refine ⟨true, buffer.set 0 0, [], [], ?_, by simp, ?_, rfl, ?_, ?_⟩
    · simp [stripLoop, store_of_lt buffer 0 0 h]
    · intro i hi
      exact getElem?_set_other buffer 0 i 0 (by omega)
    · intro _
      exact ⟨getElem?_set_same buffer 0 0 h, Or.inr ⟨rfl, by simp⟩⟩
    · intro hd
      cases hd
  | cons c rest ih =>
    intro buffer h
    have hlen : 0 < (buffer.set 0 c).length := by simpa using h
    by_cases h10 : c = 10
    · subst h10
      refine ⟨true, (buffer.set 0 10).set 0 0, rest, [10], ?_, by simp, ?_, rfl, ?_, ?_⟩
      · simp [stripLoop, store_of_lt buffer 0 10 h, store_of_lt _ 0 0 hlen]
      · intro i hi
        rw [getElem?_set_other _ 0 i 0 (by omega), getElem?_set_other _ 0 i 10 (by omega)]
      · intro _
        exact ⟨getElem?_set_same _ 0 0 hlen, Or.inl ⟨[], rfl, by simp⟩⟩
      · intro hd
        cases hd
    · by_cases h13 : c = 13
      · subst h13
        obtain ⟨done, b, rest2, consumed, h1, h2, h3, h4, h5, h6⟩ := ih (buffer.set 0 13) hlen
        refine ⟨done, b, rest2, 13 :: consumed, ?_, ?_, ?_, ?_, ?_, ?_⟩
        · simp [stripLoop, store_of_lt buffer 0 13 h, h1]
        · rw [h2]; simp
        · intro i hi
          rw [h3 i hi, getElem?_set_other _ 0 i 13 (by omega)]
        · rw [h4]; rfl
        · intro hd
          obtain ⟨g1, g2⟩ := h5 hd
          refine ⟨g1, ?_⟩
          rcases g2 with ⟨pre, hpre, hnot⟩ | ⟨hrest, hnot⟩
          · exact Or.inl ⟨13 :: pre, by rw [hpre]; rfl, by simp [hnot]⟩
          · exact Or.inr ⟨hrest, by simp [hnot]⟩
        · intro hd
          obtain ⟨g1, g2⟩ := h6 hd
          exact ⟨by simp [g1], g2⟩
      · refine ⟨false, buffer.set 0 c, rest, [c], ?_, by simp, ?_, rfl, ?_, ?_⟩
        · simp [stripLoop, store_of_lt buffer 0 c h, h10, h13]
        · intro i hi
          exact getElem?_set_other _ 0 i c (by omega)
        · intro hd
          cases hd
        · intro _
          refine ⟨?_, c, getElem?_set_same _ 0 c h, h10, h13⟩
          simp
          exact fun h => h10 h.symm

theorem lineLoop_spec (buffEnd : Nat) (stream : List Nat) :
    ∀ (buffer : List Nat) (buff : Nat), buff ≤ buffEnd → buffEnd < buffer.length →
      (∀ i, i ≤ buff → ∃ c, buffer[i]? = some c ∧ c ≠ 10 ∧ c ≠ 13) →
      ∃ b n rest consumed,
        lineLoop buffEnd stream buffer buff = some (b, n, rest) ∧
        b.length = buffer.length ∧
        n ≤ buffEnd ∧
        (∀ i, buffEnd < i → b[i]? = buffer[i]?) ∧
        (∀ i, i < n → ∃ c, b[i]? = some c ∧ c ≠ 10 ∧ c ≠ 13) ∧
        stream = consumed ++ rest ∧
        ((∃ pre, consumed = pre ++ [10] ∧ 10 ∉ pre) ∨ (rest = [] ∧ 10 ∉ consumed) ∨
          (n = buffEnd ∧ 10 ∉ consumed)) := by
  induction stream with
  | nil =>
    intro buffer buff hle hend hgood
    by_cases hfull : buff = buffEnd
    · refine ⟨buffer, buff, [], [], by simp [lineLoop, hfull], rfl, hle, fun _ _ => rfl,
        fun i hi => hgood i (by omega), rfl, Or.inr (Or.inl ⟨rfl, by simp⟩)⟩
    · refine ⟨buffer, buff + 1, [], [], by simp [lineLoop, hfull], rfl, by omega,
        fun _ _ => rfl, fun i hi => hgood i (by omega), rfl, Or.inr (Or.inl ⟨rfl, by simp⟩)⟩
  | cons c rest ih =>
    intro buffer buff hle hend hgood
    by_cases hfull : buff = buffEnd
    · refine ⟨buffer, buff, c :: rest, [], by simp [lineLoop, hfull], rfl, hle,
        fun _ _ => rfl, fun i hi => hgood i (by omega), rfl,
        Or.inr (Or.inr ⟨hfull, by simp⟩)⟩
    · have hlt : buff + 1 < buffer.length := by omega
      have hkeep : ∀ i, i ≤ buff → ∃ d, (buffer.set (buff + 1) c)[i]? = some d ∧
          d ≠ 10 ∧ d ≠ 13 := by
        intro i hi
        rw [getElem?_set_other _ (buff + 1) i c (by omega)]
        exact hgood i hi
      by_cases h10 : c = 10
      · subst h10
        refine ⟨buffer.set (buff + 1) 10, buff + 1, rest, [10], ?_, by simp, by omega, ?_,
          ?_, rfl, Or.inl ⟨[], rfl, by simp⟩⟩
        · simp [lineLoop, hfull, store_of_lt buffer (buff + 1) 10 hlt]
        · intro i hi
          exact getElem?_set_other _ (buff + 1) i 10 (by omega)
        · intro i hi
          exact hkeep i (by omega)
      · by_cases h13 : c = 13
        · subst h13
          obtain ⟨b, n, rest2, consumed, h1, h2, h3, h4, h5, h6, h7⟩ :=
            ih (buffer.set (buff + 1) 13) buff hle (by simpa using hend) hkeep
          refine ⟨b, n, rest2, 13 :: consumed, ?_, ?_, h3, ?_, h5, ?_, ?_⟩
          · simp [lineLoop, hfull, store_of_lt buffer (buff + 1) 13 hlt, h1]
          · rw [h2]; simp
          · intro i hi
            rw [h4 i hi, getElem?_set_other _ (buff + 1) i 13 (by omega)]
          · rw [h6]; rfl
          · rcases h7 with ⟨pre, hpre, hnot⟩ | ⟨hrest, hnot⟩ | ⟨hn, hnot⟩
            · exact Or.inl ⟨13 :: pre, by rw [hpre]; rfl, by simp [hnot]⟩
            · exact Or.inr (Or.inl ⟨hrest, by simp [hnot]⟩)
            · exact Or.inr (Or.inr ⟨hn, by simp [hnot]⟩)
        · have hgood2 : ∀ i, i ≤ buff + 1 → ∃ d, (buffer.set (buff + 1) c)[i]? = some d ∧
              d ≠ 10 ∧ d ≠ 13 := by
            intro i hi
            by_cases hi2 : i = buff + 1
            · subst hi2
              exact ⟨c, getElem?_set_same _ _ c hlt, h10, h13⟩
            · exact hkeep i (by omega)
          obtain ⟨b, n, rest2, consumed, h1, h2, h3, h4, h5, h6, h7⟩ :=
            ih (buffer.set (buff + 1) c) (buff + 1) (by omega) (by simpa using hend) hgood2
          have hc10 : ¬ (10 = c) := fun h => h10 h.symm
          refine ⟨b, n, rest2, c :: consumed, ?_, ?_, h3, ?_, h5, ?_, ?_⟩
          · simp [lineLoop, hfull, store_of_lt buffer (buff + 1) c hlt, h10, h13, h1]
          · rw [h2]; simp
          · intro i hi
            rw [h4 i hi, getElem?_set_other _ (buff + 1) i c (by omega)]
          · rw [h6]; rfl
          · rcases h7 with ⟨pre, hpre, hnot⟩ | ⟨hrest, hnot⟩ | ⟨hn, hnot⟩
            · exact Or.inl ⟨c :: pre, by rw [hpre]; rfl, by simp [hnot, hc10]⟩
            · exact Or.inr (Or.inl ⟨hrest, by simp [hnot, hc10]⟩)
            · exact Or.inr (Or.inr ⟨hn, by simp [hnot, hc10]⟩)

theorem cString_of_terminator (buffer : List Nat) :
    ∀ n : Nat, buffer[n]? = some 0 →
      (cString buffer).length ≤ n ∧
      ∀ c ∈ cString buffer, ∃ i, i < n ∧ buffer[i]? = some c := by
  induction buffer with
  | nil => intro n h; simp at h
  | cons a rest ih =>
    intro n h
    cases n with
    | zero =>
      have ha : a = 0 := by simpa using h
      subst ha
      simp [cString]
    | succ n =>
      have hrest : rest[n]? = some 0 := by simpa using h
      obtain ⟨h1, h2⟩ := ih n hrest
      by_cases ha : a = 0
      · subst ha
        simp [cString]
      · have hc : cString (a :: rest) = a :: cString rest := by
          simp [cString, List.takeWhile_cons, ha]
        rw [hc]
        refine ⟨by simp only [List.length_cons]; omega, ?_⟩
        intro c hmem
        rcases List.mem_cons.1 hmem with rfl | hmem
        · exact ⟨0, by omega, by simp⟩
        · obtain ⟨i, hi, hget⟩ := h2 c hmem
          exact ⟨i + 1, by omega, by simpa using hget⟩

/-- C31: for every input byte stream and every `bufferSize ≥ 1`, `readLine`
(non-OSX branch) on an array of at least `bufferSize` bytes makes no write
outside the array and leaves every byte from index `bufferSize` on as it was;
it leaves a NUL at an index `n ≤ bufferSize - 1` with neither a newline nor a
carriage return in front of it, so that the C string in the array has at most
`bufferSize - 1` bytes and contains neither; and the bytes it has consumed end
with the first newline of the stream, or exhaust the stream (a read failed),
or contain no newline and the buffer is full. -/
theorem readLine_safe (buffer : List Nat) (bufferSize : Nat) (stream : List Nat)
    (hsize : 1 ≤ bufferSize) (hU32 : bufferSize < 4294967296)
    (harray : bufferSize ≤ buffer.length) :
    ∃ b rest n consumed,
      readLine buffer bufferSize stream = some (b, rest) ∧
      b.length = buffer.length ∧
      (∀ i, bufferSize ≤ i → b[i]? = buffer[i]?) ∧
      n ≤ bufferSize - 1 ∧
      b[n]? = some 0 ∧
      (∀ i, i < n → ∃ c, b[i]? = some c ∧ c ≠ 10 ∧ c ≠ 13) ∧
      (cString b).length ≤ bufferSize - 1 ∧
      (∀ c ∈ cString b, c ≠ 10 ∧ c ≠ 13) ∧
      stream = consumed ++ rest ∧
      ((∃ pre, consumed = pre ++ [10] ∧ 10 ∉ pre) ∨ (rest = [] ∧ 10 ∉ consumed) ∨
        (n = bufferSize - 1 ∧ 10 ∉ consumed)) := by
  have hend : (bufferSize + 4294967295) % 4294967296 = bufferSize - 1 := by omega
  have h0 : 0 < buffer.length := by omega
  have hlen0 : 0 < (buffer.set 0 13).length := by simpa using h0
  have hstring : ∀ (b : List Nat) (n : Nat), n ≤ bufferSize - 1 → b[n]? = some 0 →
      (∀ i, i < n → ∃ c, b[i]? = some c ∧ c ≠ 10 ∧ c ≠ 13) →
      (cString b).length ≤ bufferSize - 1 ∧ (∀ c ∈ cString b, c ≠ 10 ∧ c ≠ 13) := by
    intro b n hn hz hgood
    obtain ⟨h1, h2⟩ := cString_of_terminator b n hz
    refine ⟨by omega, ?_⟩
    intro c hc
    obtain ⟨i, hi, hget⟩ := h2 c hc
    obtain ⟨d, hd, hd10, hd13⟩ := hgood i hi
    rw [hget] at hd
    cases hd
    exact ⟨hd10, hd13⟩
  obtain ⟨done, b1, rest1, consumed1, s1, s2, s3, s4, s5, s6⟩ :=
    stripLoop_spec stream (buffer.set 0 13) hlen0
  have hb1 : ∀ i, bufferSize ≤ i → b1[i]? = buffer[i]? := by
    intro i hi
    rw [s3 i (by omega), getElem?_set_other _ 0 i 13 (by omega)]
  have hb1len : b1.length = buffer.length := by rw [s2]; simp
  cases done with
  | true =>
    obtain ⟨g1, g2⟩ := s5 rfl
    have hgood : ∀ i, i < 0 → ∃ c, b1[i]? = some c ∧ c ≠ 10 ∧ c ≠ 13 := by
      intro i hi
      omega
    obtain ⟨c1, c2⟩ := hstring b1 0 (by omega) g1 hgood
    refine ⟨b1, rest1, 0, consumed1, ?_, hb1len, hb1, by omega, g1, hgood, c1, c2, s4, ?_⟩
    · simp [readLine, store_of_lt buffer 0 13 h0, s1]
    · rcases g2 with g | g
      · exact Or.inl g
      · exact Or.inr (Or.inl g)
  | false =>
    obtain ⟨hnot1, c0, hc0, hc10, hc13⟩ := s6 rfl
    have hgood0 : ∀ i, i ≤ 0 → ∃ c, b1[i]? = some c ∧ c ≠ 10 ∧ c ≠ 13 := by
      intro i hi
      have : i = 0 := by omega
      subst this
      exact ⟨c0, hc0, hc10, hc13⟩
    obtain ⟨b2, n, rest2, consumed2, l1, l2, l3, l4, l5, l6, l7⟩ :=
      lineLoop_spec (bufferSize - 1) rest1 b1 0 (by omega) (by omega) hgood0
    have hn : n < b2.length := by omega
    have hz : (b2.set n 0)[n]? = some 0 := getElem?_set_same b2 n 0 hn
    have hgood : ∀ i, i < n → ∃ c, (b2.set n 0)[i]? = some c ∧ c ≠ 10 ∧ c ≠ 13 := by
      intro i hi
      rw [getElem?_set_other _ n i 0 (by omega)]
      exact l5 i hi
    obtain ⟨c1, c2⟩ := hstring (b2.set n 0) n l3 hz hgood
    refine ⟨b2.set n 0, rest2, n, consumed1 ++ consumed2, ?_, ?_, ?_, l3, hz, hgood, c1, c2,
      ?_, ?_⟩
    · simp [readLine, store_of_lt buffer 0 13 h0, s1, hend, l1, store_of_lt b2 n 0 hn]
    · simp [l2, hb1len]
    · intro i hi
      rw [getElem?_set_other _ n i 0 (by omega), l4 i (by omega), hb1 i hi]
    · rw [s4, l6, List.append_assoc]
    · rcases l7 with ⟨pre, hpre, hnot⟩ | ⟨hrest, hnot⟩ | ⟨hfull, hnot⟩
      · refine Or.inl ⟨consumed1 ++ pre, by rw [hpre, List.append_assoc], ?_⟩
        simp [hnot1, hnot]
      · exact Or.inr (Or.inl ⟨hrest, by simp [hnot1, hnot]⟩)
      · exact Or.inr (Or.inr ⟨hfull, by simp [hnot1, hnot]⟩)

/-- Witness for C31: a line with leading carriage returns and a CRLF ending,
read into an array of four bytes. -/
theorem readLine_safe_witness :
    readLine [1, 2, 3, 4] 4 [13, 13, 97, 98, 13, 10, 99] = some ([97, 98, 0, 4], [99]) ∧
    ∃ b rest, readLine [1, 2, 3, 4] 4 [13, 13, 97, 98, 13, 10, 99] = some (b, rest) ∧
      (cString b).length ≤ 4 - 1 := by
  obtain ⟨b, rest, n, consumed, h1, -, -, -, -, -, h7, -⟩ :=
    readLine_safe [1, 2, 3, 4] 4 [13, 13, 97, 98, 13, 10, 99]
      (by decide) (by decide) (by decide)
  exact ⟨by decide, b, rest, h1, h7⟩

/-- With `bufferSize = 0` the first write `*buff = '\r'` already falls outside
an empty array, and with an array shorter than `bufferSize` a long line is
written past its end. -/
theorem readLine_outside_array :
    readLine [] 0 [97] = none ∧
    readLine [1, 2, 3, 4] 5 [97, 98, 99, 100, 101] = none := by
  constructor <;> decide

end Stream
